import Mathlib

/-!
# tiffsplit: a shallow embedding of `tools/tiffsplit.c`

Conventions of the embedding.

* A `char` is its byte value, a natural number in `0..255`; a C string is the
  list of its bytes (`'a'` is 97, `'x'` is 120, `'z'` is 122, `'.'` is 46).
* `long` values are integers (`Int`); the page counter of `main` only counts
  pages of one container, so it stays far below `2^63`.
  C division and remainder truncate toward zero: `Int.tdiv`, `Int.tmod`.
* `uint64` values are naturals reduced modulo `2^64`; `tmsize_t` is taken as the
  signed 64-bit type of an LP64 build, a conversion to it wraps into `[-2^63, 2^63)`.
  An allocation that succeeds for the `tmsize_t` size `s` delivers `(size_t)s` bytes.
* Calls into libtiff and libc are parameters (oracles) of the run: the
  structures `TIFF`, `TIFFOut`, `Mem` and `World` say what each call answers.
* A run that leaves the normal control flow ends in `Abort`: either the
  process called `exit`, or it touched memory outside an object (`fault`).

The namespace `TiffInfo` further down embeds
`contrib/oss-fuzz/tiff_info_fuzzer.cc`; its conventions are stated there.
-/

namespace Tiffsplit

/-! ## Outcomes, constants, character buffers -/

/-- Abnormal end of a run: `exit(status)`, or a memory access outside an object. -/
inductive Abort where
  | exit (status : Int)
  | fault
  deriving DecidableEq, Repr

def EXIT_SUCCESS : Int := 0

def EXIT_FAILURE : Int := 1

/-- Size of the static array `fname` (tiffsplit.c line 50). -/
def PATH_LENGTH : Nat := 8192

/-- The array `TIFF_SUFFIX`, the bytes of ".tif" (line 48); `sizeof` adds the NUL. -/
def TIFF_SUFFIX : List Nat := [46, 116, 105, 102]

/-- Value of `sizeof(TIFF_SUFFIX)`: four characters and the terminating NUL. -/
def sizeofSuffix : Nat := TIFF_SUFFIX.length + 1

/-- The C string held in a buffer: the bytes before the first NUL.
A buffer is written as the list of its leading bytes; every byte of the array
past the end of the list is NUL (static storage is zero-initialised, and
`strncpy` pads with NUL). -/
def cstr (b : List Nat) : List Nat := b.takeWhile (fun c => c != 0)

/-- Read of `b[i]`. -/
def peek (b : List Nat) (i : Nat) : Nat := b.getD i 0

/-- The buffer after `b[i] = v`. Bytes past the end of the list are NUL, so a
NUL stored there changes nothing and any other byte extends the list. -/
def setAt (b : List Nat) (i : Nat) (v : Nat) : List Nat :=
  if i < b.length then b.set i v
  else if v = 0 then b
  else b ++ List.replicate (i - b.length) 0 ++ [v]

/-- Store `b[i] = v` into an array of `cap` bytes; outside the array it is a fault. -/
def poke (cap : Nat) (b : List Nat) (i : Nat) (v : Nat) : Except Abort (List Nat) :=
  if i < cap then .ok (setAt b i v) else .error .fault

/-- Result of `strlen` on an array of `cap` bytes; running off the array is a fault. -/
def strlen (cap : Nat) (b : List Nat) : Except Abort Nat :=
  if (cstr b).length < cap then .ok (cstr b).length else .error .fault

/-- Destination after `strncpy(dst, src, n)` into an array of at least `n` bytes:
at most `n` characters of the string `src`, NUL padding up to `n`. -/
def strncpy (src : List Nat) (n : Nat) : List Nat := (cstr src).take n

/-- Destination after `strncat(dst, src, n)` into an array of `cap` bytes: the
string `dst`, at most `n` characters of `src`, and a NUL. -/
def strncat (cap : Nat) (dst src : List Nat) (n : Nat) : Except Abort (List Nat) :=
  if (cstr dst).length + ((cstr src).take n).length + 1 ≤ cap
  then .ok (cstr dst ++ (cstr src).take n)
  else .error .fault

/-- Conversion of an integer to `char`, kept as the stored byte. -/
def toChar (x : Int) : Nat := (x % 256).toNat

/-- The byte after `c++` on a `char`. -/
def charIncr (c : Nat) : Nat := (c + 1) % 256

/-! ## `newfilename` (lines 53-106) -/

/-- The static state `newfilename` works on: the global array `fname` and the
function's statics `lastTurn`, `defname`, `fpnt` (an offset into `fname`,
`none` for the null pointer a static pointer starts as). -/
structure Namer where
  fname : List Nat
  lastTurn : Int
  defname : Int
  fpnt : Option Nat
  deriving DecidableEq, Repr

/-- Local constant `MAXFILES` of `newfilename` (line 70). -/
def MAXFILES : Int := 17576

/-- Store through `fpnt[k]`; a null `fpnt` is a fault. -/
def pokeFpnt (st : Namer) (k : Nat) (v : Nat) : Except Abort Namer :=
  match st.fpnt with
  | none => .error .fault
  | some p => do
    let f ← poke PATH_LENGTH st.fname (p + k) v
    pure { st with fname := f }

/-- Read of `fpnt[0]`; a null `fpnt` is a fault. -/
def peekFpnt (st : Namer) : Except Abort Nat :=
  match st.fpnt with
  | none => .error .fault
  | some p => if p < PATH_LENGTH then .ok (peek st.fname p) else .error .fault

/-- Lines 60-69: on the first page, choose between the supplied name stem and
the default stem "x". -/
def nfFirst (fnum : Int) (st : Namer) : Except Abort Namer :=
  if fnum = 0 then
    if peek st.fname 0 ≠ 0 then do
      let n ← strlen PATH_LENGTH st.fname
      pure { st with fpnt := some n, defname := 0 }
    else do
      let f ← poke PATH_LENGTH st.fname 0 120
      pure { st with fname := f, fpnt := some 1, defname := 1 }
  else pure st

/-- Lines 70-78: at page counter `MAXFILES` either give up with
`exit(EXIT_FAILURE)` or advance `fname[0]` and restart the local counter. -/
def nfTurn (fnum : Int) (st : Namer) : Except Abort (Int × Namer) :=
  if fnum = MAXFILES then
    if st.defname = 0 ∨ peek st.fname 0 = 122 then .error (.exit EXIT_FAILURE)
    else do
      let f ← poke PATH_LENGTH st.fname 0 (charIncr (peek st.fname 0))
      pure (0, { st with fname := f })
  else pure (fnum, st)

/-- Lines 79-105: the three characters written through `fpnt`. -/
def nfLetters (fnum : Int) (st : Namer) : Except Abort Namer := do
  let st ← (if fnum.tmod 676 = 0 then do
      let st ← (if fnum ≠ 0 then do
          let c ← peekFpnt st
          pokeFpnt st 0 (charIncr c)
        else pokeFpnt st 0 97)
      pure { st with lastTurn := fnum }
    else pure st)
  let st ← pokeFpnt st 1 (toChar (toChar ((fnum - st.lastTurn).tdiv 26) + 97))
  pokeFpnt st 2 (toChar (toChar (fnum.tmod 26) + 97))

/-- The function `newfilename(fnum)` as a transition of the static state. -/
def newfilename (fnum : Int) (st : Namer) : Except Abort Namer := do
  let st ← nfFirst fnum st
  let (fnum, st) ← nfTurn fnum st
  nfLetters fnum st

/-- The static state when `main` reaches its loop: `fname` after
`strncpy(fname, argv[2], sizeof(fname)); fname[sizeof(fname) - 1] = 0` when a
third argument exists (lines 285-288), all zero otherwise. -/
def namerInit (argv : List (List Nat)) : Namer :=
  { fname := if 2 < argv.length
      then setAt (strncpy (argv.getD 2 []) PATH_LENGTH) (PATH_LENGTH - 1) 0
      else [],
    lastTurn := 0, defname := 0, fpnt := none }

/-- Static state after the calls `newfilename(0)`, ..., `newfilename(n-1)`,
the sequence in which the loop of `main` issues them. -/
def namerRun (st : Namer) : Nat → Except Abort Namer
  | 0 => .ok st
  | n + 1 => namerRun st n >>= newfilename (n : Int)

/-- The name in `fname` after call number `k` (page counter `k`) of a run of `main`. -/
def nameAt (argv : List (List Nat)) (k : Nat) : Except Abort (List Nat) :=
  (namerRun (namerInit argv) (k + 1)).map (fun st => cstr st.fname)

/-! ## Machine integers of the region copy -/

/-- Conversion of a `tmsize_t` to `uint64`, the cast `(uint64)bufsize`. -/
def toU64 (x : Int) : Nat := (x % 2 ^ 64).toNat

/-- Conversion of a `uint64` to `tmsize_t`, the cast `(tmsize_t)bytecounts[s]`. -/
def toTmsize (n : Nat) : Int :=
  if n % 2 ^ 64 < 2 ^ 63 then ((n % 2 ^ 64 : Nat) : Int) else ((n % 2 ^ 64 : Nat) : Int) - 2 ^ 64

/-! ## The library as seen by tiffsplit -/

/-- A value `TIFFGetField` delivers and `TIFFSetField` takes, by the shape of
the variables of the copy: one scalar (`uint16`, `uint32`, or the bit pattern of
a `float`), a string, a counted array (a count and a pointer, `none` for the
null pointer), a pair of scalars, or three arrays. -/
inductive FieldValue where
  | scalar (v : Nat)
  | text (s : List Nat)
  | counted (count : Nat) (data : Option (List Nat))
  | pair (a b : Nat)
  | triple (r g b : List Nat)
  deriving DecidableEq, Repr

/-- What the allocator and uninitialised storage do during the work on one page:
whether `_TIFFmalloc(size)` and the `_TIFFrealloc` of region `s` to `size`
succeed, the bytes found in fresh heap memory, and the indeterminate value an
uninitialised `uint16` local holds. -/
structure Mem where
  malloc : Int → Bool
  realloc : Nat → Int → Bool
  junk : Nat → Nat
  indet : Nat

/-- The handle `in`, positioned on one directory: the answers of the library
calls tiffsplit makes on it. `getField tag` is `TIFFGetField` (`none` when it
returns 0); a byte-count table is the array the library points `bytecounts` to;
`readRawStrip s size` is `TIFFReadRawStrip(in, s, buf, size)`: `none` when the
result is negative, else the bytes stored at the start of `buf` (their number is
the result). -/
structure TIFF where
  getField : Nat → Option FieldValue
  isTiled : Bool
  stripSize : Int
  numberOfStrips : Nat
  stripByteCounts : Option (Nat → Nat)
  readRawStrip : Nat → Int → Option (List Nat)
  tileSize : Int
  numberOfTiles : Nat
  tileByteCounts : Option (Nat → Nat)
  readRawTile : Nat → Int → Option (List Nat)

/-- The handle `out`: the tags set on its directory so far, and whether
`TIFFWriteRawStrip(out, s, buf, size)` (resp. `TIFFWriteRawTile`) of the given
bytes returns a non-negative result. -/
structure TIFFOut where
  fields : Nat → Option FieldValue
  writeRawStrip : Nat → Int → List Nat → Bool
  writeRawTile : Nat → Int → List Nat → Bool

/-- Modelled from the spec: `TIFFSetField` of the tag codec (`setTag(page, id,
value)` of section 6), whose source is not among the files: the value is stored
under the tag and every other tag is left as it was. -/
def TIFFSetField (o : TIFFOut) (tag : Nat) (v : FieldValue) : TIFFOut :=
  { o with fields := fun t => if t = tag then some v else o.fields t }

/-- Library calls and allocator calls, in the order a run makes them. A call is
recorded whether it succeeds or not. -/
inductive Event where
  | malloc (size : Int)
  | realloc (size : Int)
  | free
  | stderr
  | readRaw (idx : Nat) (size : Int)
  | writeRaw (idx : Nat) (size : Int) (bytes : List Nat)
  | openIn (path : List Nat)
  | openOut (path : List Nat) (bigEndian : Bool)
  | closeOut
  | closeIn
  deriving DecidableEq, Repr

/-! ## `cpStrips` and `cpTiles` (lines 108-176) -/

/-- The calls in which `cpStrips` and `cpTiles` differ: region size, region
count, byte-count table, raw read and raw write. The two functions are the same
text over these. -/
structure Regions where
  size : Int
  count : Nat
  bytecounts : Option (Nat → Nat)
  read : Nat → Int → Option (List Nat)
  write : Nat → Int → List Nat → Bool

/-- Strip calls: `TIFFStripSize`, `TIFFNumberOfStrips`, `TIFFTAG_STRIPBYTECOUNTS`,
`TIFFReadRawStrip`, `TIFFWriteRawStrip`. -/
def stripCalls (i : TIFF) (o : TIFFOut) : Regions :=
  { size := i.stripSize, count := i.numberOfStrips, bytecounts := i.stripByteCounts,
    read := i.readRawStrip, write := o.writeRawStrip }

/-- Tile calls: `TIFFTileSize`, `TIFFNumberOfTiles`, `TIFFTAG_TILEBYTECOUNTS`,
`TIFFReadRawTile`, `TIFFWriteRawTile`. -/
def tileCalls (i : TIFF) (o : TIFFOut) : Regions :=
  { size := i.tileSize, count := i.numberOfTiles, bytecounts := i.tileByteCounts,
    read := i.readRawTile, write := o.writeRawTile }

/-- The locals the loop carries: the contents of `buf` and the tracked `bufsize`. -/
structure Xfer where
  buf : List Nat
  bufsize : Int
  deriving DecidableEq, Repr

/-- Contents of `n` bytes of fresh heap memory. A successful `_TIFFmalloc(s)` or
`_TIFFrealloc(p, s)` delivers `(size_t)s` bytes, which is `toU64 s`. -/
def fresh (m : Mem) (n : Nat) : List Nat := (List.range n).map m.junk

/-- Contents after a successful `_TIFFrealloc(buf, n)`: the old bytes up to `n`,
fresh memory after them. -/
def resized (m : Mem) (buf : List Nat) (n : Nat) : List Nat :=
  (buf ++ (fresh m n).drop buf.length).take n

/-- Lines 127-132 (161-167): grow the buffer when `bytecounts[s]` exceeds it.
The result is the calls made and the new locals, `none` for `return (0)`. -/
def cpGrow (m : Mem) (bc : Nat → Nat) (s : Nat) (x : Xfer) : List Event × Option Xfer :=
  if bc s % 2 ^ 64 > toU64 x.bufsize then
    if m.realloc s (toTmsize (bc s)) then
      ([Event.realloc (toTmsize (bc s))],
        some { buf := resized m x.buf (toU64 (toTmsize (bc s))), bufsize := toTmsize (bc s) })
    else ([Event.realloc (toTmsize (bc s))], none)
  else ([], some x)

/-- Lines 133-137 (168-172): raw read into `buf`, raw write of the same buffer
and size, `_TIFFfree(buf); return (0)` when either result is negative. The bytes
read replace the start of the buffer; the bytes written are the first `size`
bytes of the buffer. -/
def cpMove (r : Regions) (bc : Nat → Nat) (s : Nat) (x : Xfer) : List Event × Option Xfer :=
  match r.read s (toTmsize (bc s)) with
  | none => ([Event.readRaw s (toTmsize (bc s)), Event.free], none)
  | some d =>
    let buf := d ++ x.buf.drop d.length
    let bytes := buf.take (toTmsize (bc s)).toNat
    if r.write s (toTmsize (bc s)) bytes then
      ([Event.readRaw s (toTmsize (bc s)), Event.writeRaw s (toTmsize (bc s)) bytes],
        some { x with buf := buf })
    else
      ([Event.readRaw s (toTmsize (bc s)), Event.writeRaw s (toTmsize (bc s)) bytes, Event.free],
        none)

/-- One pass through the loop body for region `s` (lines 127-137). -/
def cpStep (m : Mem) (r : Regions) (bc : Nat → Nat) (s : Nat) (x : Xfer) :
    List Event × Option Xfer :=
  match cpGrow m bc s x with
  | (ev, none) => (ev, none)
  | (ev, some x1) =>
    match cpMove r bc s x1 with
    | (ev2, res) => (ev ++ ev2, res)

/-- The loop `for (s = ...; s < ns; s++)` with `k` regions left to do, followed
by lines 139-140. The result is the return value and the calls made. The index
type is `uint32` and `s` stays below `ns`, so `s++` never wraps. -/
def cpLoop (m : Mem) (r : Regions) (bc : Nat → Nat) : Nat → Nat → Xfer → Int × List Event
  | 0, _, _ => (1, [Event.free])
  | k + 1, s, x =>
    match cpStep m r bc s x with
    | (ev, none) => (0, ev)
    | (ev, some x1) =>
      match cpLoop m r bc k (s + 1) x1 with
      | (ret, evs) => (ret, ev ++ evs)

/-- The common text of `cpStrips` and `cpTiles`. -/
def cpRegions (m : Mem) (r : Regions) : Int × List Event :=
  if m.malloc r.size then
    match r.bytecounts with
    | none => (0, [Event.malloc r.size, Event.stderr, Event.free])
    | some bc =>
      match cpLoop m r bc r.count 0 { buf := fresh m (toU64 r.size), bufsize := r.size } with
      | (ret, evs) => (ret, Event.malloc r.size :: evs)
  else (0, [Event.malloc r.size])

/-- The function `cpStrips(in, out)`: return value and calls made. -/
def cpStrips (m : Mem) (i : TIFF) (o : TIFFOut) : Int × List Event :=
  cpRegions m (stripCalls i o)

/-- The function `cpTiles(in, out)`: return value and calls made. -/
def cpTiles (m : Mem) (i : TIFF) (o : TIFFOut) : Int × List Event :=
  cpRegions m (tileCalls i o)

/-! ## `tiffcp` (lines 178-275) -/

/-- Tag numbers and the compression scheme number of `tiff.h` (TIFF 6.0 and
its supplements), in the order `tiffcp` names them. -/
def TIFFTAG_SUBFILETYPE : Nat := 254
def TIFFTAG_TILEWIDTH : Nat := 322
def TIFFTAG_IMAGEWIDTH : Nat := 256
def TIFFTAG_TILELENGTH : Nat := 323
def TIFFTAG_IMAGELENGTH : Nat := 257
def TIFFTAG_BITSPERSAMPLE : Nat := 258
def TIFFTAG_SAMPLESPERPIXEL : Nat := 277
def TIFFTAG_COMPRESSION : Nat := 259
def COMPRESSION_JPEG : Nat := 7
def TIFFTAG_JPEGTABLES : Nat := 347
def TIFFTAG_PHOTOMETRIC : Nat := 262
def TIFFTAG_PREDICTOR : Nat := 317
def TIFFTAG_THRESHHOLDING : Nat := 263
def TIFFTAG_FILLORDER : Nat := 266
def TIFFTAG_ORIENTATION : Nat := 274
def TIFFTAG_MINSAMPLEVALUE : Nat := 280
def TIFFTAG_MAXSAMPLEVALUE : Nat := 281
def TIFFTAG_XRESOLUTION : Nat := 282
def TIFFTAG_YRESOLUTION : Nat := 283
def TIFFTAG_GROUP3OPTIONS : Nat := 292
def TIFFTAG_GROUP4OPTIONS : Nat := 293
def TIFFTAG_RESOLUTIONUNIT : Nat := 296
def TIFFTAG_PLANARCONFIG : Nat := 284
def TIFFTAG_ROWSPERSTRIP : Nat := 278
def TIFFTAG_XPOSITION : Nat := 286
def TIFFTAG_YPOSITION : Nat := 287
def TIFFTAG_IMAGEDEPTH : Nat := 32997
def TIFFTAG_TILEDEPTH : Nat := 32998
def TIFFTAG_SAMPLEFORMAT : Nat := 339
def TIFFTAG_EXTRASAMPLES : Nat := 338
def TIFFTAG_COLORMAP : Nat := 320
def TIFFTAG_PAGENUMBER : Nat := 297
def TIFFTAG_ARTIST : Nat := 315
def TIFFTAG_IMAGEDESCRIPTION : Nat := 270
def TIFFTAG_MAKE : Nat := 271
def TIFFTAG_MODEL : Nat := 272
def TIFFTAG_SOFTWARE : Nat := 305
def TIFFTAG_DATETIME : Nat := 306
def TIFFTAG_HOSTCOMPUTER : Nat := 316
def TIFFTAG_PAGENAME : Nat := 285
def TIFFTAG_DOCUMENTNAME : Nat := 269
def TIFFTAG_BADFAXLINES : Nat := 326
def TIFFTAG_CLEANFAXDATA : Nat := 327
def TIFFTAG_CONSECUTIVEBADFAXLINES : Nat := 328
def TIFFTAG_FAXRECVPARAMS : Nat := 34908
def TIFFTAG_FAXRECVTIME : Nat := 34910
def TIFFTAG_FAXSUBADDRESS : Nat := 34909
def TIFFTAG_FAXDCS : Nat := 34911

/-- The text `CopyField(tag, v)`, `CopyField2(tag, v1, v2)`,
`CopyField3(tag, v1, v2, v3)` (lines 41-46): when `TIFFGetField` on `in`
succeeds, `TIFFSetField` on `out` with what it stored in the variables. The
three differ in the number of variables only, which is the shape of the value. -/
def CopyField (i : TIFF) (o : TIFFOut) (tag : Nat) : TIFFOut :=
  match i.getField tag with
  | some v => TIFFSetField o tag v
  | none => o

/-- Tags of the `CopyField` lines 182-208, in source order. -/
def tagsUpToCompression : List Nat :=
  [TIFFTAG_SUBFILETYPE, TIFFTAG_TILEWIDTH, TIFFTAG_IMAGEWIDTH, TIFFTAG_TILELENGTH,
   TIFFTAG_IMAGELENGTH, TIFFTAG_BITSPERSAMPLE, TIFFTAG_SAMPLESPERPIXEL, TIFFTAG_COMPRESSION]

/-- Tags of the `CopyField`, `CopyField2`, `CopyField3` lines 220-270, in source order. -/
def tagsAfterCompression : List Nat :=
  [TIFFTAG_PHOTOMETRIC, TIFFTAG_PREDICTOR, TIFFTAG_THRESHHOLDING, TIFFTAG_FILLORDER,
   TIFFTAG_ORIENTATION, TIFFTAG_MINSAMPLEVALUE, TIFFTAG_MAXSAMPLEVALUE,
   TIFFTAG_XRESOLUTION, TIFFTAG_YRESOLUTION, TIFFTAG_GROUP3OPTIONS, TIFFTAG_GROUP4OPTIONS,
   TIFFTAG_RESOLUTIONUNIT, TIFFTAG_PLANARCONFIG, TIFFTAG_ROWSPERSTRIP, TIFFTAG_XPOSITION,
   TIFFTAG_YPOSITION, TIFFTAG_IMAGEDEPTH, TIFFTAG_TILEDEPTH, TIFFTAG_SAMPLEFORMAT,
   TIFFTAG_EXTRASAMPLES, TIFFTAG_COLORMAP, TIFFTAG_PAGENUMBER,
   TIFFTAG_ARTIST, TIFFTAG_IMAGEDESCRIPTION, TIFFTAG_MAKE, TIFFTAG_MODEL, TIFFTAG_SOFTWARE,
   TIFFTAG_DATETIME, TIFFTAG_HOSTCOMPUTER, TIFFTAG_PAGENAME, TIFFTAG_DOCUMENTNAME,
   TIFFTAG_BADFAXLINES, TIFFTAG_CLEANFAXDATA, TIFFTAG_CONSECUTIVEBADFAXLINES,
   TIFFTAG_FAXRECVPARAMS, TIFFTAG_FAXRECVTIME, TIFFTAG_FAXSUBADDRESS, TIFFTAG_FAXDCS]

/-- The local `compression` when line 209 reads it: what `TIFFGetField` stored
if the tag was there, an indeterminate value if not (the local has no initialiser). -/
def compressionLocal (m : Mem) (i : TIFF) : Nat :=
  match i.getField TIFFTAG_COMPRESSION with
  | some (.scalar v) => v
  | _ => m.indet

/-- Lines 209-216: the JPEG tables are set on `out` when `compression` is
`COMPRESSION_JPEG`, `TIFFGetField` succeeds, the count is positive and the
pointer is not null. -/
def copyJpegTables (m : Mem) (i : TIFF) (o : TIFFOut) : TIFFOut :=
  if compressionLocal m i = COMPRESSION_JPEG then
    match i.getField TIFFTAG_JPEGTABLES with
    | some (.counted count (some table)) =>
      if count > 0 then TIFFSetField o TIFFTAG_JPEGTABLES (.counted count (some table)) else o
    | _ => o
  else o

/-- The handle `out` after the tag copies of `tiffcp` (lines 181-270). -/
def copyTags (m : Mem) (i : TIFF) (o : TIFFOut) : TIFFOut :=
  tagsAfterCompression.foldl (CopyField i)
    (copyJpegTables m i (tagsUpToCompression.foldl (CopyField i) o))

/-- The function `tiffcp(in, out)`: return value, calls of the region copy, and
the handle `out` with the tags set. -/
def tiffcp (m : Mem) (i : TIFF) (o : TIFFOut) : (Int × List Event) × TIFFOut :=
  if i.isTiled then (cpTiles m i (copyTags m i o), copyTags m i o)
  else (cpStrips m i (copyTags m i o), copyTags m i o)

/-! ## `main` (lines 277-318) -/

/-- The surroundings of one run: `openIn path` is `TIFFOpen(path, "r")`, `none`
for a null result, else the directory the handle starts on and the directories
`TIFFReadDirectory` reaches after it, in order; `isBigEndian` is
`TIFFIsBigEndian(in)`; `pathAlloc k size` says whether the `_TIFFmalloc(path_len)`
made for page `k` succeeds; `openOut k path big` is the `TIFFOpen` for writing
made for page `k`; `mem k` is the allocator while page `k` is copied. -/
structure World where
  openIn : List Nat → Option (TIFF × List TIFF)
  isBigEndian : Bool
  pathAlloc : Nat → Int → Bool
  openOut : Nat → List Nat → Bool → Option TIFFOut
  mem : Nat → Mem

/-- How a run of `main` ends (a returned status, or an `Abort`) and the calls it made. -/
structure Run where
  result : Except Abort Int
  log : List Event

/-- The run that made the calls `evs` first and went on as `r`. -/
def Run.after (evs : List Event) (r : Run) : Run := { result := r.result, log := evs ++ r.log }

/-- Lines 300-304: the string in `path` passed to `TIFFOpen`. A null result of
`_TIFFmalloc` is not tested by the source, the `strncpy` through it is a fault. -/
def outputPath (alloc : Int → Bool) (fname : List Nat) : Except Abort (List Nat) := do
  let n ← strlen PATH_LENGTH fname
  let path_len := n + sizeofSuffix
  if alloc (path_len : Int) then
    let path ← poke path_len (strncpy fname path_len) (path_len - 1) 0
    let k ← strlen path_len path
    let path ← strncat path_len path TIFF_SUFFIX (path_len - k - 1)
    pure (cstr path)
  else .error .fault

/-- The value of `path_len` (line 300), the argument of `_TIFFmalloc` on line 301. -/
def pathLen (fname : List Nat) : Int := (((cstr fname).length + sizeofSuffix : Nat) : Int)

/-- The loop of lines 296-313 from the page `cur` with counter `fnum` on; `rest`
are the directories `TIFFReadDirectory` will still deliver. The `exit` of
`newfilename` comes after its `fprintf(stderr, ...)` (lines 73-74); the
`_TIFFmalloc` of `path` is made once `strlen(fname)` has returned, and
`_TIFFfree(path)` follows the `TIFFOpen` for writing (lines 301-306). -/
def splitPages (w : World) (fnum : Nat) (nm : Namer) (cur : TIFF) (rest : List TIFF) : Run :=
  match newfilename (fnum : Int) nm with
  | .error (.exit status) => { result := .error (.exit status), log := [Event.stderr] }
  | .error .fault => { result := .error .fault, log := [] }
  | .ok nm1 =>
    match outputPath (w.pathAlloc fnum) nm1.fname with
    | .error a =>
      { result := .error a,
        log := if (cstr nm1.fname).length < PATH_LENGTH
          then [Event.malloc (pathLen nm1.fname)] else [] }
    | .ok path =>
      match w.openOut fnum path w.isBigEndian with
      | none =>
        { result := .ok EXIT_FAILURE,
          log := [Event.malloc (pathLen nm1.fname), Event.openOut path w.isBigEndian,
            Event.free] }
      | some out =>
        if (tiffcp (w.mem fnum) cur out).1.1 = 0 then
          { result := .ok EXIT_FAILURE,
            log := Event.malloc (pathLen nm1.fname) :: Event.openOut path w.isBigEndian ::
              Event.free :: (tiffcp (w.mem fnum) cur out).1.2 }
        else
          Run.after (Event.malloc (pathLen nm1.fname) :: Event.openOut path w.isBigEndian ::
              Event.free :: ((tiffcp (w.mem fnum) cur out).1.2 ++ [Event.closeOut]))
            (match rest with
             | [] => { result := .ok EXIT_SUCCESS, log := [Event.closeIn] }
             | nxt :: rest1 => splitPages w (fnum + 1) nm1 nxt rest1)
termination_by structural rest

/-- The function `main(argc, argv)`; `argv` is the list of the `argc` argument
strings. Without an input argument the version and the usage line are written
to `stderr` (lines 280-281). -/
def main (w : World) (argv : List (List Nat)) : Run :=
  if argv.length < 2 then { result := .ok EXIT_FAILURE, log := [Event.stderr, Event.stderr] }
  else
    match w.openIn (cstr (argv.getD 1 [])) with
    | none => { result := .ok EXIT_FAILURE, log := [Event.openIn (cstr (argv.getD 1 []))] }
    | some (first, rest) =>
      Run.after [Event.openIn (cstr (argv.getD 1 []))] (splitPages w 0 (namerInit argv) first rest)

/-- The paths of the `TIFFOpen` calls for writing found in a log, in order. -/
def outPaths : List Event → List (List Nat)
  | [] => []
  | Event.openOut path _ :: evs => path :: outPaths evs
  | _ :: evs => outPaths evs

/-- The raw writes found in a log, in order: region index and bytes. -/
def rawWrites : List Event → List (Nat × List Nat)
  | [] => []
  | Event.writeRaw s _ bytes :: evs => (s, bytes) :: rawWrites evs
  | _ :: evs => rawWrites evs

/-- The region indices of the raw reads found in a log, in order. -/
def rawReads : List Event → List Nat
  | [] => []
  | Event.readRaw s _ :: evs => s :: rawReads evs
  | _ :: evs => rawReads evs

/-- The call recorded by an event failed: a raw read with a negative result, or
a raw write with a negative result. -/
def failed (r : Regions) : Event → Bool
  | Event.readRaw s n => (r.read s n).isNone
  | Event.writeRaw s n b => !(r.write s n b)
  | _ => false

/-- The number of `_TIFFfree` calls found in a log. -/
def frees : List Event → Nat
  | [] => 0
  | Event.free :: evs => frees evs + 1
  | _ :: evs => frees evs

/-- What `TIFFGetField` answers on one page: the tags by number, and the two
byte-count tables, which `cpStrips` and `cpTiles` obtain by `TIFFGetField` of
`TIFFTAG_STRIPBYTECOUNTS` and `TIFFTAG_TILEBYTECOUNTS` (lines 121, 156). -/
structure Tags where
  getField : Nat → Option FieldValue
  stripByteCounts : Option (Nat → Nat)
  tileByteCounts : Option (Nat → Nat)

/-- The page with every answer of `TIFFGetField` replaced; the answers of the
other library calls (`TIFFIsTiled`, sizes, counts, raw reads) stay. -/
def TIFF.retag (pg : TIFF) (t : Tags) : TIFF :=
  { pg with
    getField := t.getField, stripByteCounts := t.stripByteCounts,
    tileByteCounts := t.tileByteCounts }

/-- The directories `pages` with their tags replaced: page number `k + j` of
the container, `pg`, gets the tags `g (k + j) pg`. -/
def retagPages (g : Nat → TIFF → Tags) : Nat → List TIFF → List TIFF
  | _, [] => []
  | k, pg :: rest => pg.retag (g k pg) :: retagPages g (k + 1) rest

/-- The world `w` with the tags of every page of every container replaced by
`g`; nothing else changes. -/
def World.retag (w : World) (g : Nat → TIFF → Tags) : World :=
  { w with openIn := fun path =>
      match w.openIn path with
      | none => none
      | some (first, rest) => some (first.retag (g 0 first), retagPages g 1 rest) }

/-- The name stem `p` that `main` works with for the arguments `argv`: the
default stem "x" when there is no third argument or it is empty, else the third
argument, which then has to be a C string (no NUL inside) that leaves room in
`fname` for three letters and the NUL. -/
def StemOf (argv : List (List Nat)) (p : List Nat) : Prop :=
  ((argv.length ≤ 2 ∨ argv.getD 2 [] = []) ∧ p = [120]) ∨
  (2 < argv.length ∧ argv.getD 2 [] = p ∧ p ≠ [] ∧ (∀ c ∈ p, c ≠ 0) ∧ p.length + 3 < PATH_LENGTH)

instance (argv : List (List Nat)) (p : List Nat) : Decidable (StemOf argv p) := by
  unfold StemOf
  infer_instance

/-- The three letters of page counter `k`: `'a' + k/676`, `'a' + (k/26 mod 26)`,
`'a' + (k mod 26)`. -/
def letters (k : Nat) : List Nat := [97 + k / 676, 97 + k / 26 % 26, 97 + k % 26]

/-- The output path of page counter `k` for stem `p`: stem, letters, ".tif". -/
def pathOf (p : List Nat) (k : Nat) : List Nat := p ++ letters k ++ TIFF_SUFFIX

/-- The static state after call `k` while the three letters run through `aaa`..`zzz`:
stem `p`, then the letters of `k`. -/
def earlyState (p : List Nat) (d : Int) (k : Nat) : Namer :=
  { fname := p ++ letters k,
    lastTurn := ((676 * (k / 676) : Nat) : Int), defname := d, fpnt := some p.length }

/-- The value of `lastTurn` after call `k`, for `k` from 17576 on. -/
def lateTurn (k : Nat) : Nat := if k < 18252 then 0 else 676 * (k / 676)

/-- The static state after call `k`, for `k` from 17576 on, when the run started
with the default stem: bytes are no longer letters in general. -/
def lateState (k : Nat) : Namer :=
  { fname := [121, (97 + (k - 17576) / 676) % 256,
      if k = 17576 then 97 else ((k - lateTurn k) / 26 % 256 + 97) % 256,
      97 + k % 26],
    lastTurn := (lateTurn k : Int), defname := 1, fpnt := some 1 }

/-! ## Concrete inputs -/

/-- The command line `tiffsplit in.tif`. -/
def argvPlain : List (List Nat) :=
  [[116, 105, 102, 102, 115, 112, 108, 105, 116], [105, 110, 46, 116, 105, 102]]

/-- The command line `tiffsplit in.tif img`. -/
def argvImg : List (List Nat) := argvPlain ++ [[105, 109, 103]]

/-- An allocator that never fails. -/
def memOk : Mem :=
  { malloc := fun _ => true, realloc := fun _ _ => true, junk := fun _ => 0, indet := 0 }

/-- A freshly opened output on which every write succeeds. -/
def outOk : TIFFOut :=
  { fields := fun _ => none, writeRawStrip := fun _ _ _ => true,
    writeRawTile := fun _ _ _ => true }

/-- A strip page with the byte counts `bcs`, image width 10 and a copyright
string "C" (tag 33432); strip `s` reads as `size` bytes of value `s`. -/
def stripPage (bcs : List Nat) : TIFF :=
  { getField := fun t =>
      if t = TIFFTAG_IMAGEWIDTH then some (.scalar 10)
      else if t = 33432 then some (.text [67]) else none,
    isTiled := false, stripSize := 3, numberOfStrips := bcs.length,
    stripByteCounts := some (fun s => bcs.getD s 0),
    readRawStrip := fun _ n => some (List.replicate n.toNat 7),
    tileSize := 0, numberOfTiles := 0, tileByteCounts := none,
    readRawTile := fun _ n => some (List.replicate n.toNat 7) }

/-- A page whose byte-count tables are missing. -/
def barePage : TIFF :=
  { stripPage [2, 1] with stripByteCounts := none }

/-- A strip page with byte counts 2, 1, 4 whose strip 1 cannot be read. -/
def brokenPage : TIFF :=
  { stripPage [2, 1, 4] with
    readRawStrip := fun s n => if s = 1 then none else some (List.replicate n.toNat 7) }

/-- A three-page container of strip pages in which every call succeeds. -/
def world3 : World :=
  { openIn := fun _ => some (stripPage [2, 1, 4], [stripPage [3], stripPage []]),
    isBigEndian := false, pathAlloc := fun _ _ => true,
    openOut := fun _ _ _ => some outOk, mem := fun _ => memOk }

/-- The locals `buf`, `bufsize` of `cpStrips` (`cpTiles`) when the loop has
processed the regions `0..n-1`: the state after the allocation for `n = 0`,
then one pass of the loop body per region; `none` once a pass has returned. -/
def cpLocals (m : Mem) (r : Regions) (bc : Nat → Nat) : Nat → Option Xfer
  | 0 => some { buf := fresh m (toU64 r.size), bufsize := r.size }
  | n + 1 => (cpLocals m r bc n).bind (fun x => (cpStep m r bc n x).2)

/-- The largest of `init` and the byte counts of the regions `0..n-1`, as
`uint64` values. -/
def maxCount (bc : Nat → Nat) (init : Nat) (n : Nat) : Nat :=
  (List.range n).foldl (fun a j => max a (bc j % 2 ^ 64)) init

/-- An allocator whose first allocation succeeds and whose every growth fails. -/
def memNoGrow : Mem :=
  { malloc := fun _ => true, realloc := fun _ _ => false, junk := fun _ => 0, indet := 0 }

/-- The strip page `stripPage bcs` with `TIFFStripSize` equal to `size`. -/
def sizedPage (size : Int) (bcs : List Nat) : TIFF :=
  { stripPage bcs with stripSize := size }

end Tiffsplit

/-!
# The diagnostic walker: a shallow embedding of `contrib/oss-fuzz/tiff_info_fuzzer.cc`

* `uint32` locals are naturals reduced modulo `2^32`, the `tsample_t` locals
  modulo `2^16`; `tsize_t` is the signed 64-bit type.
* The statics `showdata`, `rawdata`, `showwords`, `readdata` are never assigned:
  they keep the values `false`, `false`, `false`, `true`, so `ShowStrip`,
  `ShowTile` and `TIFFReadRawData` are never called and are left out. The static
  `stoponerr` (initially `true`) is a parameter `stop` of the passes.
* A `for` loop of the source is the function `forLoop`; it takes a number of
  passes it may make (`fuel`) and answers `none` when that number is used up.
  The same `fuel` is given to every loop of a run, so the run returns exactly
  when some `fuel` gives `some` result.
* A pass answers the list of region reads it made, in order.
-/

namespace TiffInfo

/-- The constant `kMaxMalloc` (line 31). -/
def kMaxMalloc : Nat := 250000000

def PLANARCONFIG_CONTIG : Nat := 1

/-- Initial value of the static `stoponerr` (line 37). -/
def stoponerr : Bool := true

/-- An open directory as the walker sees it. A tag field is `none` when
`TIFFGetField` finds no such tag and leaves the local untouched. The read
oracles take the number of region reads made before on this page, then the
arguments of the call; `true` stands for a result `>= 0`. -/
structure Tif where
  isTiled : Bool
  planarConfig : Option Nat
  imageWidth : Option Nat
  imageLength : Option Nat
  tileWidth : Option Nat
  tileLength : Option Nat
  rowsPerStrip : Option Nat
  samplesPerPixel : Option Nat
  scanlineSize : Int
  stripSize : Int
  tileSize : Int
  malloc : Int → Bool
  computeStrip : Nat → Nat → Nat
  readEncodedStrip : Nat → Nat → Int → Bool
  readTile : Nat → Nat → Nat → Nat → Bool

/-- The value of a `uint32` local after `TIFFGetField(tif, tag, &local)`. -/
def getU32 (tag : Option Nat) (init : Nat) : Nat :=
  match tag with
  | some v => v % 2 ^ 32
  | none => init

/-- The value of a `uint16` local after `TIFFGetField(tif, tag, &local)`. -/
def getU16 (tag : Option Nat) (init : Nat) : Nat :=
  match tag with
  | some v => v % 2 ^ 16
  | none => init

/-- A signed 64-bit product, wrapped into `[-2^63, 2^63)`. -/
def wrapS64 (z : Int) : Int := (z + 2 ^ 63) % 2 ^ 64 - 2 ^ 63

/-- One region read: a call of `TIFFReadEncodedStrip` (with the row and sample
of the loop, the strip number, the local `nrow` and the size passed) or of
`TIFFReadTile` (with `x = col`, `y = row`, `z = 0` and the sample), and whether
the call succeeded. -/
inductive Read where
  | strip (row sample strip nrow : Nat) (size : Int) (ok : Bool)
  | tile (col row sample : Nat) (ok : Bool)
  deriving DecidableEq, Repr

/-- The loop `for (x = x0; x < bound; x += step) body`, the counter being an
unsigned type of `wrap` values. The body answers the new log and whether it
left the loop with `break`. -/
def forLoop (wrap bound step : Nat) (body : Nat → List Read → Option (List Read × Bool)) :
    Nat → Nat → List Read → Option (List Read)
  | 0, _, _ => none
  | fuel + 1, x, log =>
    if x < bound then
      match body x log with
      | none => none
      | some (log1, true) => some log1
      | some (log1, false) => forLoop wrap bound step body fuel ((x + step) % wrap) log1
    else some log

/-- The local `nrow` (lines 67, 96):
`row + rowsperstrip > h ? h - row : rowsperstrip` in `uint32` arithmetic. -/
def nrowOf (h rowsperstrip row : Nat) : Nat :=
  if (row + rowsperstrip) % 2 ^ 32 > h then (h + 2 ^ 32 - row) % 2 ^ 32 else rowsperstrip

/-- Body of the strip loops (lines 67-74, 96-103): the read of the strip of
`(row, s)`, then `break` when it failed and `stoponerr` is set. -/
def stripRead (stop : Bool) (t : Tif) (h rowsperstrip row s : Nat) (log : List Read) :
    List Read × Bool :=
  let nrow := nrowOf h rowsperstrip row
  let strip := t.computeStrip row s
  let size := wrapS64 ((nrow : Int) * t.scanlineSize)
  let ok := t.readEncodedStrip log.length strip size
  (log ++ [Read.strip row s strip nrow size ok], !ok && stop)

/-- Body of the tile loops (lines 141-146, 171-176). -/
def tileRead (stop : Bool) (t : Tif) (col row s : Nat) (log : List Read) : List Read × Bool :=
  let ok := t.readTile log.length col row s
  (log ++ [Read.tile col row s ok], !ok && stop)

/-- `TIFFReadContigStripData` (lines 52-77). -/
def TIFFReadContigStripData (fuel : Nat) (stop : Bool) (t : Tif) : Option (List Read) :=
  if Tiffsplit.toU64 t.stripSize > kMaxMalloc then some []
  else if !t.malloc t.stripSize then some []
  else
    let h := getU32 t.imageLength 0
    let rowsperstrip := getU32 t.rowsPerStrip (2 ^ 32 - 1)
    forLoop (2 ^ 32) h rowsperstrip
      (fun row log => some (stripRead stop t h rowsperstrip row 0 log)) fuel 0 []

/-- `TIFFReadSeparateStripData` (lines 79-107): the `break` leaves the loop
over the samples only. -/
def TIFFReadSeparateStripData (fuel : Nat) (stop : Bool) (t : Tif) : Option (List Read) :=
  if Tiffsplit.toU64 t.stripSize > kMaxMalloc then some []
  else if !t.malloc t.stripSize then some []
  else
    let h := getU32 t.imageLength 0
    let rowsperstrip := getU32 t.rowsPerStrip (2 ^ 32 - 1)
    let samplesperpixel := getU16 t.samplesPerPixel 0
    forLoop (2 ^ 32) h rowsperstrip
      (fun row log =>
        (forLoop (2 ^ 16) samplesperpixel 1
          (fun s log1 => some (stripRead stop t h rowsperstrip row s log1)) fuel 0 log).map
          (fun l => (l, false))) fuel 0 []

/-- `TIFFReadContigTileData` (lines 125-150): the `break` leaves the loop over
the columns only. -/
def TIFFReadContigTileData (fuel : Nat) (stop : Bool) (t : Tif) : Option (List Read) :=
  if Tiffsplit.toU64 t.tileSize > kMaxMalloc then some []
  else if !t.malloc t.tileSize then some []
  else
    let w := getU32 t.imageWidth 0
    let h := getU32 t.imageLength 0
    let tw := getU32 t.tileWidth 0
    let th := getU32 t.tileLength 0
    forLoop (2 ^ 32) h th
      (fun row log =>
        (forLoop (2 ^ 32) w tw
          (fun col log1 => some (tileRead stop t col row 0 log1)) fuel 0 log).map
          (fun l => (l, false))) fuel 0 []

/-- `TIFFReadSeparateTileData` (lines 152-181): the `break` leaves the loop
over the samples only. -/
def TIFFReadSeparateTileData (fuel : Nat) (stop : Bool) (t : Tif) : Option (List Read) :=
  if Tiffsplit.toU64 t.tileSize > kMaxMalloc then some []
  else if !t.malloc t.tileSize then some []
  else
    let w := getU32 t.imageWidth 0
    let h := getU32 t.imageLength 0
    let tw := getU32 t.tileWidth 0
    let th := getU32 t.tileLength 0
    let samplesperpixel := getU16 t.samplesPerPixel 0
    forLoop (2 ^ 32) h th
      (fun row log =>
        (forLoop (2 ^ 32) w tw
          (fun col log1 =>
            (forLoop (2 ^ 16) samplesperpixel 1
              (fun s log2 => some (tileRead stop t col row s log2)) fuel 0 log1).map
              (fun l => (l, false))) fuel 0 log).map
          (fun l => (l, false))) fuel 0 []

/-- `TIFFReadData` (lines 183-198). -/
def TIFFReadData (fuel : Nat) (stop : Bool) (t : Tif) : Option (List Read) :=
  let config := getU16 t.planarConfig PLANARCONFIG_CONTIG
  if t.isTiled then
    if config = PLANARCONFIG_CONTIG then TIFFReadContigTileData fuel stop t
    else TIFFReadSeparateTileData fuel stop t
  else
    if config = PLANARCONFIG_CONTIG then TIFFReadContigStripData fuel stop t
    else TIFFReadSeparateStripData fuel stop t

/-- `tiffinfo` (lines 264-281) with `readdata` set, `rawdata` clear and
`order = 0`: the directory is printed, and the data is read when `is_image`. -/
def tiffinfo (fuel : Nat) (stop : Bool) (t : Tif) (is_image : Bool) : Option (List Read) :=
  if !is_image then some [] else TIFFReadData fuel stop t

/-- The input of the entry point as libtiff presents it: whether
`makeFileStream` gives a handle, the directory that is current after `k`
successful calls of `TIFFReadDirectory`, whether that directory has an EXIF
offset and `TIFFReadEXIFDirectory` accepts it, and the answer of the call of
`TIFFReadDirectory` made at the end of pass `k` of the loop. -/
structure Stream where
  opens : Bool
  page : Nat → Tif
  exifOffset : Nat → Bool
  readExif : Nat → Bool
  readDirectory : Nat → Bool

/-- What the entry point did with one directory. -/
inductive Visit where
  | image (k : Nat) (reads : List Read)
  | exif (k : Nat)
  deriving DecidableEq, Repr

/-- The `do ... while (TIFFReadDirectory(tif))` loop (lines 301-312), at
directory `k`. -/
def walk (stop : Bool) (s : Stream) (fuel : Nat) : Nat → Nat → List Visit → Option (List Visit)
  | 0, _, _ => none
  | n + 1, k, acc =>
    match tiffinfo fuel stop (s.page k) true with
    | none => none
    | some reads =>
      let acc1 := acc ++ [Visit.image k reads]
      let acc2 :=
        if s.exifOffset k && s.readExif k then
          match tiffinfo fuel stop (s.page k) false with
          | none => none
          | some _ => some (acc1 ++ [Visit.exif k])
        else some acc1
      match acc2 with
      | none => none
      | some acc3 => if s.readDirectory k then walk stop s fuel n (k + 1) acc3 else some acc3

/-- `LLVMFuzzerTestOneInput` (lines 286-316): the value returned and the
directories visited. -/
def LLVMFuzzerTestOneInput (fuel : Nat) (stop : Bool) (s : Stream) : Option (Int × List Visit) :=
  if !s.opens then some (0, [])
  else (walk stop s fuel fuel 0 []).map (fun v => (0, v))

/-- The directories of which the data was read. -/
def imagesVisited (v : List Visit) : List Nat :=
  v.filterMap (fun e => match e with
    | Visit.image k _ => some k
    | Visit.exif _ => none)

/-! ## Loop counts -/

/-- Some multiple `n * step` of the step reaches the bound without leaving the
`uint32` range: a loop `for (x = 0; x < bound; x += step)` makes at most `n`
passes. -/
def Reaches (bound step n : Nat) : Prop := bound ≤ n * step ∧ n * step < 2 ^ 32

instance (bound step n : Nat) : Decidable (Reaches bound step n) := by
  unfold Reaches
  infer_instance

/-- The loop `for (x = 0; x < bound; x += step)` visits exactly the `n`
positions `0, step, ..., (n - 1) * step`, and `n * step` is still a `uint32`. -/
def Passes (bound step n : Nat) : Prop :=
  (∀ j, j < n → j * step < bound) ∧ Reaches bound step n

instance (bound step n : Nat) : Decidable (Passes bound step n) := by
  unfold Passes
  infer_instance

/-! ## The reads of a pass without failures -/

/-- The entry a strip read of `(row, s)` leaves in the log when it succeeds. -/
def stripReadOf (t : Tif) (h rowsperstrip row s : Nat) : Read :=
  Read.strip row s (t.computeStrip row s) (nrowOf h rowsperstrip row)
    (wrapS64 ((nrowOf h rowsperstrip row : Int) * t.scanlineSize)) true

/-- One successful strip read for each of the `nr` strip rows
`0, rowsperstrip, 2 * rowsperstrip, ...` and each sample of `samples`, the
rows in order and the samples in order within a row. -/
def stripReads (t : Tif) (h rowsperstrip nr : Nat) (samples : List Nat) : List Read :=
  (List.range nr).flatMap (fun k =>
    samples.map (fun s => stripReadOf t h rowsperstrip (k * rowsperstrip) s))

/-- One successful tile read for each of the `nr` tile rows, each of the `nc`
tile columns and each sample of `samples`, in that nesting order. -/
def tileReads (tw th nc nr : Nat) (samples : List Nat) : List Read :=
  (List.range nr).flatMap (fun j =>
    (List.range nc).flatMap (fun i =>
      samples.map (fun s => Read.tile (i * tw) (j * th) s true)))

/-! ## Concrete pages -/

/-- A page without data: no tag is present. -/
def emptyTif : Tif :=
  { isTiled := false, planarConfig := none, imageWidth := none, imageLength := none,
    tileWidth := none, tileLength := none, rowsPerStrip := none, samplesPerPixel := none,
    scanlineSize := 0, stripSize := 0, tileSize := 0, malloc := fun _ => true,
    computeStrip := fun _ _ => 0, readEncodedStrip := fun _ _ _ => true,
    readTile := fun _ _ _ _ => true }

/-- A strip page of `h` rows, `r` rows per strip, `spp` samples, one byte per
row, strips numbered by row and sample; the read number `k` succeeds when
`ok k`. -/
def stripTif (h r spp config : Nat) (ok : Nat → Bool) : Tif :=
  { emptyTif with
    planarConfig := some config, imageWidth := some 1, imageLength := some h,
    rowsPerStrip := some r, samplesPerPixel := some spp, scanlineSize := 1,
    stripSize := r, computeStrip := fun row s => row / r + s * ((h + r - 1) / r),
    readEncodedStrip := fun k _ _ => ok k }

/-- A strip page of one row whose single strip is larger than `kMaxMalloc`. -/
def wideTif : Tif :=
  { stripTif 1 1 1 1 (fun _ => true) with scanlineSize := 250000001, stripSize := 250000001 }

/-- A tiled page of `w` by `h` pixels in tiles of `tw` by `th`, `spp`
samples; the read number `k` succeeds when `ok k`. -/
def tileTif (w h tw th spp config : Nat) (ok : Nat → Bool) : Tif :=
  { emptyTif with
    isTiled := true, planarConfig := some config, imageWidth := some w, imageLength := some h,
    tileWidth := some tw, tileLength := some th, samplesPerPixel := some spp,
    tileSize := tw * th, readTile := fun k _ _ _ => ok k }

/-- A chain of directories without data in which `TIFFReadDirectory` always
reports another directory, as a chain whose next offset points back at a
directory already visited does when the library does not detect it. -/
def loopingStream : Stream :=
  { opens := true, page := fun _ => emptyTif, exifOffset := fun _ => false,
    readExif := fun _ => false, readDirectory := fun _ => true }

/-- A chain of `n + 1` directories without data. -/
def chainStream (n : Nat) : Stream :=
  { loopingStream with readDirectory := fun k => decide (k < n) }

end TiffInfo

namespace Tiffsplit

/-! # Lemmas -/

/-! ## Character buffers -/

theorem setAt_append (p l : List Nat) (j v : Nat) :
    setAt (p ++ l) (p.length + j) v = p ++ setAt l j v := by
  unfold setAt
  by_cases h : j < l.length
  · have h1 : p.length + j < (p ++ l).length := by simp; omega
    rw [if_pos h1, if_pos h, List.set_append_right _ _ (by omega)]
    simp
  · have h1 : ¬ p.length + j < (p ++ l).length := by simp; omega
    rw [if_neg h1, if_neg h]
    by_cases hv : v = 0
    · simp [hv]
    · simp only [if_neg hv, List.length_append, List.append_assoc]
      have : p.length + j - (p.length + l.length) = j - l.length := by omega
      rw [this]

theorem peek_append (p l : List Nat) (j : Nat) : peek (p ++ l) (p.length + j) = peek l j := by
  unfold peek
  simp [List.getD_eq_getElem?_getD, List.getElem?_append_right]

theorem cstr_append (p l : List Nat) (hp : ∀ c ∈ p, c ≠ 0) : cstr (p ++ l) = p ++ cstr l := by
  unfold cstr
  induction p with
  | nil => rfl
  | cons a t ih =>
    have ha : a ≠ 0 := hp a (by simp)
    have ih1 := ih (fun c hc => hp c (by simp [hc]))
    have hb : (a != 0) = true := by simpa using ha
    simp [List.takeWhile, hb, ih1]

theorem cstr_self (p : List Nat) (hp : ∀ c ∈ p, c ≠ 0) : cstr p = p := by
  have := cstr_append p [] hp
  simpa [cstr] using this

theorem setAt_append_zero (p l : List Nat) (v : Nat) :
    setAt (p ++ l) p.length v = p ++ setAt l 0 v := by
  simpa using setAt_append p l 0 v

theorem setAt_peek (l : List Nat) : setAt l 0 (peek l 0) = l := by
  cases l with
  | nil => simp [setAt, peek]
  | cons a t => simp [setAt, peek]

/-! ## The namer in closed form -/

theorem nfLetters_append (p l : List Nat) (L d : Int) (fnum : Int)
    (hp : p.length + 3 ≤ PATH_LENGTH) :
    nfLetters fnum { fname := p ++ l, lastTurn := L, defname := d, fpnt := some p.length } =
      .ok { fname := p ++ setAt (setAt (setAt l 0
                (if fnum.tmod 676 = 0 then (if fnum ≠ 0 then charIncr (peek l 0) else 97)
                  else peek l 0)) 1
              (toChar (toChar ((fnum - (if fnum.tmod 676 = 0 then fnum else L)).tdiv 26) + 97))) 2
              (toChar (toChar (fnum.tmod 26) + 97)),
            lastTurn := if fnum.tmod 676 = 0 then fnum else L,
            defname := d, fpnt := some p.length } := by
  have h0 : p.length < PATH_LENGTH := by omega
  have h1 : p.length + 1 < PATH_LENGTH := by omega
  have h2 : p.length + 2 < PATH_LENGTH := by omega
  have e0 := peek_append p l 0
  simp only [Nat.add_zero] at e0
  by_cases hm : fnum.tmod 676 = 0
  · by_cases hz : fnum = 0
    · subst hz
      simp [nfLetters, pokeFpnt, peekFpnt, poke, h0, h1, h2, bind, Except.bind, pure, Except.pure,
        setAt_append, setAt_append_zero, e0]
    · simp [nfLetters, pokeFpnt, peekFpnt, poke, h0, h1, h2, bind, Except.bind, pure, Except.pure,
        setAt_append, setAt_append_zero, e0, hm, hz]
  · simp [nfLetters, pokeFpnt, peekFpnt, poke, h0, h1, h2, bind, Except.bind, pure, Except.pure,
      setAt_append, setAt_append_zero, e0, hm, setAt_peek]

theorem tdiv_natCast (n m : Nat) : (n : Int).tdiv (m : Int) = ((n / m : Nat) : Int) := rfl

theorem tdiv_nat26 (n : Nat) : (n : Int).tdiv 26 = ((n / 26 : Nat) : Int) := rfl

theorem tmod_nat26 (n : Nat) : (n : Int).tmod 26 = ((n % 26 : Nat) : Int) := rfl

theorem tmod_nat676 (n : Nat) : (n : Int).tmod 676 = ((n % 676 : Nat) : Int) := rfl

theorem newfilename_early (p : List Nat) (d : Int) (k : Nat)
    (hp : p.length + 3 ≤ PATH_LENGTH) (hk : k + 1 < 17576) :
    newfilename ((k + 1 : Nat) : Int) (earlyState p d k) = .ok (earlyState p d (k + 1)) := by
  have hk1 : ((k + 1 : Nat) : Int) ≠ 0 := by omega
  have hk2 : ((k + 1 : Nat) : Int) ≠ MAXFILES := by unfold MAXFILES; omega
  unfold newfilename nfFirst nfTurn earlyState letters
  simp only [hk1, hk2, if_false, bind, Except.bind, pure, Except.pure]
  rw [nfLetters_append _ _ _ _ _ hp]
  have e1 := tmod_nat676 (k + 1)
  have e2 := tmod_nat26 (k + 1)
  rw [e1, e2]
  by_cases hm : (k + 1) % 676 = 0
  · have e3 : ((k + 1 : Nat) : Int) - ((k + 1 : Nat) : Int) = ((0 : Nat) : Int) := by simp
    simp only [hm, hk1, e3, tdiv_natCast, Nat.cast_zero, if_true, ne_eq, not_false_eq_true]
    simp [setAt, peek, toChar, charIncr]
    refine ⟨⟨?_, ?_, ?_⟩, ?_⟩ <;> omega
  · have hm1 : ¬ ((((k + 1) % 676 : Nat) : Int) = 0) := by omega
    have e3 : ((k + 1 : Nat) : Int) - ((676 * (k / 676) : Nat) : Int)
        = (((k + 1) - 676 * (k / 676) : Nat) : Int) := by omega
    have e4 := tdiv_nat26 ((k + 1) - 676 * (k / 676))
    simp only [hm1, if_false, e3, e4]
    simp [setAt, peek, toChar, charIncr]
    refine ⟨⟨?_, ?_, ?_⟩, ?_⟩ <;> omega

theorem newfilename_eq (fnum : Int) (st : Namer) :
    newfilename fnum st
      = (nfFirst fnum st).bind (fun s1 => (nfTurn fnum s1).bind (fun r => nfLetters r.1 r.2)) := rfl

theorem nfFirst_of_ne (fnum : Int) (st : Namer) (h : fnum ≠ 0) : nfFirst fnum st = .ok st := by
  simp [nfFirst, h, pure, Except.pure]

theorem nfTurn_of_ne (fnum : Int) (st : Namer) (h : fnum ≠ MAXFILES) :
    nfTurn fnum st = .ok (fnum, st) := by
  simp [nfTurn, h, pure, Except.pure]

theorem newfilename_first_explicit (p : List Nat) (hne : p ≠ []) (hnz : ∀ c ∈ p, c ≠ 0)
    (hp : p.length + 3 ≤ PATH_LENGTH) :
    newfilename 0 { fname := p, lastTurn := 0, defname := 0, fpnt := none }
      = .ok (earlyState p 0 0) := by
  have h0 : peek p 0 ≠ 0 := by
    cases p with
    | nil => exact absurd rfl hne
    | cons a t => simpa [peek] using hnz a (by simp)
  have hl2 : p.length < PATH_LENGTH := by omega
  have hf : nfFirst 0 { fname := p, lastTurn := 0, defname := 0, fpnt := none }
      = .ok { fname := p, lastTurn := 0, defname := 0, fpnt := some p.length } := by
    simp [nfFirst, h0, strlen, cstr_self p hnz, hl2, bind, Except.bind, pure, Except.pure]
  have hn := nfLetters_append p [] 0 0 0 hp
  simp only [List.append_nil] at hn
  rw [newfilename_eq, hf, Except.bind, nfTurn_of_ne _ _ (by decide), Except.bind, hn]
  simp [earlyState, letters, setAt, peek, toChar, Int.tmod, Int.tdiv]

theorem newfilename_first_default :
    newfilename 0 { fname := [], lastTurn := 0, defname := 0, fpnt := none }
      = .ok (earlyState [120] 1 0) := by
  have hf : nfFirst 0 { fname := [], lastTurn := 0, defname := 0, fpnt := none }
      = .ok { fname := [120], lastTurn := 0, defname := 1, fpnt := some 1 } := by
    simp [nfFirst, peek, poke, setAt, PATH_LENGTH, bind, Except.bind, pure, Except.pure]
  have hn := nfLetters_append [120] [] 0 1 0 (by decide)
  simp only [List.append_nil, List.length_singleton] at hn
  rw [newfilename_eq, hf, Except.bind, nfTurn_of_ne _ _ (by decide), Except.bind, hn]
  simp [earlyState, letters, setAt, peek, toChar, Int.tmod, Int.tdiv]

/-- The `fname` array when `main` reaches its loop with a usable third argument. -/
theorem namerInit_explicit (argv : List (List Nat)) (p : List Nat) (h2 : 2 < argv.length)
    (hp : argv.getD 2 [] = p) (hnz : ∀ c ∈ p, c ≠ 0) (hl : p.length + 3 < PATH_LENGTH) :
    namerInit argv = { fname := p, lastTurn := 0, defname := 0, fpnt := none } := by
  have h3 : ¬ (PATH_LENGTH - 1 < p.length) := by omega
  have h4 : List.take PATH_LENGTH p = p := List.take_of_length_le (by omega)
  unfold namerInit
  rw [if_pos h2, hp]
  simp [strncpy, cstr_self p hnz, setAt, h3, h4]

theorem namerInit_default (argv : List (List Nat)) (h2 : argv.length ≤ 2 ∨ argv.getD 2 [] = []) :
    namerInit argv = { fname := [], lastTurn := 0, defname := 0, fpnt := none } := by
  unfold namerInit
  by_cases h : 2 < argv.length
  · rcases h2 with h2 | h2
    · omega
    · rw [if_pos h, h2]
      simp [strncpy, cstr, setAt]
  · rw [if_neg h]

theorem namerRun_early (st : Namer) (p : List Nat) (d : Int)
    (hp : p.length + 3 ≤ PATH_LENGTH) (h0 : newfilename 0 st = .ok (earlyState p d 0)) :
    ∀ k, k < 17576 → namerRun st (k + 1) = .ok (earlyState p d k) := by
  intro k
  induction k with
  | zero =>
    intro _
    simp only [namerRun, bind, Except.bind]
    exact h0
  | succ n ih =>
    intro hk
    have h1 := ih (by omega)
    have h2 := newfilename_early p d n hp hk
    rw [namerRun, h1]
    simpa only [bind, Except.bind] using h2

theorem setAt_three (a b c a1 b1 c1 : Nat) :
    setAt (setAt (setAt [a, b, c] 0 a1) 1 b1) 2 c1 = [a1, b1, c1] := by
  simp [setAt]

theorem peek_three (a b c : Nat) : peek [a, b, c] 0 = a := rfl

theorem newfilename_turn :
    newfilename 17576 (earlyState [120] 1 17575) = .ok (lateState 17576) := by
  have ht : nfTurn 17576 (earlyState [120] 1 17575)
      = .ok (0, { fname := [121] ++ [122, 122, 122], lastTurn := 16900, defname := 1,
                  fpnt := some ([121] : List Nat).length }) := by
    simp [nfTurn, MAXFILES, earlyState, letters, peek, poke, setAt, charIncr, PATH_LENGTH, bind,
      Except.bind, pure, Except.pure]
  rw [newfilename_eq, nfFirst_of_ne _ _ (by decide), Except.bind, ht, Except.bind]
  simp only []
  rw [nfLetters_append [121] [122, 122, 122] 16900 1 0 (by decide)]
  simp [lateState, lateTurn, setAt, peek, toChar, Int.tmod, Int.tdiv]

theorem newfilename_late (k : Nat) (hk : 17576 ≤ k) :
    newfilename ((k + 1 : Nat) : Int) (lateState k) = .ok (lateState (k + 1)) := by
  have hk1 : ((k + 1 : Nat) : Int) ≠ 0 := by omega
  have hk2 : ((k + 1 : Nat) : Int) ≠ MAXFILES := by unfold MAXFILES; omega
  have hk3 : k + 1 ≠ 17576 := by omega
  rw [newfilename_eq, nfFirst_of_ne _ _ hk1, Except.bind, nfTurn_of_ne _ _ hk2, Except.bind]
  simp only [lateState]
  have hn := nfLetters_append [121] [(97 + (k - 17576) / 676) % 256,
    if k = 17576 then 97 else ((k - lateTurn k) / 26 % 256 + 97) % 256, 97 + k % 26]
    (lateTurn k : Int) 1 ((k + 1 : Nat) : Int) (by decide)
  simp only [List.cons_append, List.nil_append, List.length_singleton] at hn
  rw [hn, setAt_three, peek_three, tmod_nat676 (k + 1), tmod_nat26 (k + 1), if_neg hk3]
  have hle : lateTurn k ≤ k := by unfold lateTurn; split <;> omega
  by_cases hm : (k + 1) % 676 = 0
  · have hm1 : ((((k + 1) % 676 : Nat) : Int) = 0) := by omega
    have e3 : ((k + 1 : Nat) : Int) - ((k + 1 : Nat) : Int) = ((0 : Nat) : Int) := by omega
    have hlt : lateTurn (k + 1) = k + 1 := by unfold lateTurn; split <;> omega
    simp only [if_pos hm1, if_pos hk1]
    rw [e3, tdiv_nat26, hlt]
    simp only [Except.ok.injEq, Namer.mk.injEq, List.cons.injEq, and_true, true_and, toChar,
      charIncr]
    refine ⟨?_, ?_, ?_⟩ <;> omega
  · have hm1 : ¬ ((((k + 1) % 676 : Nat) : Int) = 0) := by omega
    have e3 : ((k + 1 : Nat) : Int) - ((lateTurn k : Nat) : Int)
        = (((k + 1) - lateTurn k : Nat) : Int) := by omega
    have hlt : lateTurn (k + 1) = lateTurn k := by unfold lateTurn; split <;> split <;> omega
    simp only [if_neg hm1]
    rw [e3, tdiv_nat26, hlt]
    simp only [Except.ok.injEq, Namer.mk.injEq, List.cons.injEq, and_true, true_and, toChar,
      charIncr]
    refine ⟨?_, ?_, ?_⟩ <;> omega

theorem namerRun_late (st : Namer) (h : namerRun st 17577 = .ok (lateState 17576)) :
    ∀ j, namerRun st (17576 + j + 1) = .ok (lateState (17576 + j)) := by
  intro j
  induction j with
  | zero => exact h
  | succ n ih =>
    have h2 := newfilename_late (17576 + n) (by omega)
    rw [namerRun, show 17576 + (n + 1) = 17576 + n + 1 from rfl, ih]
    simpa only [bind, Except.bind] using h2

/-- The static state after call `k < 17576` of a run of `main`, for either kind of stem. -/
theorem namerRun_stem (argv : List (List Nat)) (p : List Nat) (hs : StemOf argv p) :
    ∃ d : Int, (d = 0 ↔ 2 < argv.length ∧ argv.getD 2 [] = p ∧ p ≠ []) ∧
      newfilename 0 (namerInit argv) = .ok (earlyState p d 0) ∧
      ∀ k, k < 17576 → namerRun (namerInit argv) (k + 1) = .ok (earlyState p d k) := by
  rcases hs with ⟨h2, hp⟩ | ⟨h2, hp, hne, hnz, hl⟩
  · subst hp
    have h0 : newfilename 0 (namerInit argv) = .ok (earlyState [120] 1 0) := by
      rw [namerInit_default argv h2]; exact newfilename_first_default
    refine ⟨1, ?_, h0, namerRun_early _ [120] 1 (by decide) h0⟩
    constructor
    · intro h; exact absurd h (by decide)
    · rintro ⟨h3, h4, _⟩
      rcases h2 with h2 | h2
      · omega
      · rw [h2] at h4; exact absurd h4 (by decide)
  · have h0 : newfilename 0 (namerInit argv) = .ok (earlyState p 0 0) := by
      rw [namerInit_explicit argv p h2 hp hnz hl]
      exact newfilename_first_explicit p hne hnz (by omega)
    exact ⟨0, ⟨fun _ => ⟨h2, hp, hne⟩, fun _ => rfl⟩, h0, namerRun_early _ p 0 (by omega) h0⟩

theorem StemOf.length_le {argv : List (List Nat)} {p : List Nat} (hs : StemOf argv p) :
    p.length + 3 < PATH_LENGTH := by
  rcases hs with ⟨_, hp⟩ | ⟨_, _, _, _, hl⟩
  · subst hp; decide
  · exact hl

theorem StemOf.no_nul {argv : List (List Nat)} {p : List Nat} (hs : StemOf argv p) :
    ∀ c ∈ p, c ≠ 0 := by
  rcases hs with ⟨_, hp⟩ | ⟨_, _, _, hnz, _⟩
  · subst hp; decide
  · exact hnz

theorem letters_no_nul (k : Nat) : ∀ c ∈ letters k, c ≠ 0 := by
  intro c hc
  simp only [letters, List.mem_cons, List.mem_singleton, List.not_mem_nil, or_false] at hc
  rcases hc with h | h | h <;> omega

theorem cstr_stem_letters (p : List Nat) (k : Nat) (hnz : ∀ c ∈ p, c ≠ 0) :
    cstr (p ++ letters k) = p ++ letters k := by
  apply cstr_self
  intro c hc
  rcases List.mem_append.mp hc with h | h
  · exact hnz c h
  · exact letters_no_nul k c h

/-- The name after call `k < 17576` is the stem followed by the letters of `k`. -/
theorem nameAt_stem (argv : List (List Nat)) (p : List Nat) (hs : StemOf argv p) (k : Nat)
    (hk : k < 17576) : nameAt argv k = .ok (p ++ letters k) := by
  obtain ⟨d, _, _, hrun⟩ := namerRun_stem argv p hs
  unfold nameAt
  rw [hrun k hk]
  simp only [Except.map, earlyState]
  rw [cstr_stem_letters p k hs.no_nul]

/-! ## Lexicographic order of names -/

theorem namerRun_succ (st : Namer) (n : Nat) :
    namerRun st (n + 1) = (namerRun st n).bind (newfilename (n : Int)) := rfl

theorem namerRun_default (argv : List (List Nat)) (h : argv.length ≤ 2 ∨ argv.getD 2 [] = []) :
    ∀ k, k < 17576 → namerRun (namerInit argv) (k + 1) = .ok (earlyState [120] 1 k) := by
  have h0 : newfilename 0 (namerInit argv) = .ok (earlyState [120] 1 0) := by
    rw [namerInit_default argv h]; exact newfilename_first_default
  exact namerRun_early _ [120] 1 (by decide) h0

/-- With the default stem the call with page counter 17576 succeeds. -/
theorem namerRun_default_turn (argv : List (List Nat))
    (h : argv.length ≤ 2 ∨ argv.getD 2 [] = []) :
    namerRun (namerInit argv) 17577 = .ok (lateState 17576) := by
  have h1 := namerRun_default argv h 17575 (by decide)
  have h2 := namerRun_succ (namerInit argv) 17576
  rw [h1] at h2
  rw [h2]
  exact newfilename_turn

/-- With the default stem no call from page counter 17576 on fails. -/
theorem namerRun_default_late (argv : List (List Nat))
    (h : argv.length ≤ 2 ∨ argv.getD 2 [] = []) (j : Nat) :
    namerRun (namerInit argv) (17576 + j + 1) = .ok (lateState (17576 + j)) :=
  namerRun_late _ (namerRun_default_turn argv h) j

theorem rawWrites_append (a b : List Event) : rawWrites (a ++ b) = rawWrites a ++ rawWrites b := by
  induction a with
  | nil => rfl
  | cons e t ih => cases e <;> simp [rawWrites, ih]

theorem rawReads_append (a b : List Event) : rawReads (a ++ b) = rawReads a ++ rawReads b := by
  induction a with
  | nil => rfl
  | cons e t ih => cases e <;> simp [rawReads, ih]

theorem outPaths_append (a b : List Event) : outPaths (a ++ b) = outPaths a ++ outPaths b := by
  induction a with
  | nil => rfl
  | cons e t ih => cases e <;> simp [outPaths, ih]

/-- The events of the buffer growth: nothing, or one `realloc`. -/
theorem cpGrow_cases (m : Mem) (bc : Nat → Nat) (s : Nat) (x : Xfer) :
    ((cpGrow m bc s x).1 = [] ∨ (cpGrow m bc s x).1 = [Event.realloc (toTmsize (bc s))]) ∧
    ((cpGrow m bc s x).2 = none → m.realloc s (toTmsize (bc s)) = false) := by
  unfold cpGrow
  split
  · split <;> simp_all
  · simp

/-- The three ways the read and write of one region go. -/
theorem cpMove_cases (r : Regions) (bc : Nat → Nat) (s : Nat) (x : Xfer) :
    (r.read s (toTmsize (bc s)) = none ∧
      cpMove r bc s x = ([Event.readRaw s (toTmsize (bc s)), Event.free], none)) ∨
    (∃ d, r.read s (toTmsize (bc s)) = some d ∧
      r.write s (toTmsize (bc s)) ((d ++ x.buf.drop d.length).take (toTmsize (bc s)).toNat) = false ∧
      cpMove r bc s x = ([Event.readRaw s (toTmsize (bc s)),
        Event.writeRaw s (toTmsize (bc s)) ((d ++ x.buf.drop d.length).take (toTmsize (bc s)).toNat),
        Event.free], none)) ∨
    (∃ d, r.read s (toTmsize (bc s)) = some d ∧
      r.write s (toTmsize (bc s)) ((d ++ x.buf.drop d.length).take (toTmsize (bc s)).toNat) = true ∧
      cpMove r bc s x = ([Event.readRaw s (toTmsize (bc s)),
        Event.writeRaw s (toTmsize (bc s)) ((d ++ x.buf.drop d.length).take (toTmsize (bc s)).toNat)],
        some { x with buf := d ++ x.buf.drop d.length })) := by
  unfold cpMove
  cases hrd : r.read s (toTmsize (bc s)) with
  | none => left; simp
  | some d =>
    right
    cases hw : r.write s (toTmsize (bc s)) ((d ++ x.buf.drop d.length).take (toTmsize (bc s)).toNat) with
    | false => left; exact ⟨d, rfl, hw, by simp [hw]⟩
    | true => right; exact ⟨d, rfl, hw, by simp [hw]⟩

/-- The shape of one pass through the loop body: an optional `realloc`, then
either a return on its failure, or the read and write of the region. -/
theorem cpStep_cases (m : Mem) (r : Regions) (bc : Nat → Nat) (s : Nat) (x : Xfer) :
    ∃ g : List Event, (g = [] ∨ g = [Event.realloc (toTmsize (bc s))]) ∧
      ((m.realloc s (toTmsize (bc s)) = false ∧ cpStep m r bc s x = (g, none)) ∨
       (r.read s (toTmsize (bc s)) = none ∧
         cpStep m r bc s x = (g ++ [Event.readRaw s (toTmsize (bc s)), Event.free], none)) ∨
       (∃ d b, r.read s (toTmsize (bc s)) = some d ∧ r.write s (toTmsize (bc s)) b = false ∧
         cpStep m r bc s x = (g ++ [Event.readRaw s (toTmsize (bc s)),
           Event.writeRaw s (toTmsize (bc s)) b, Event.free], none)) ∨
       (∃ d b x1, r.read s (toTmsize (bc s)) = some d ∧ r.write s (toTmsize (bc s)) b = true ∧
         (d.length = (toTmsize (bc s)).toNat → b = d) ∧
         cpStep m r bc s x = (g ++ [Event.readRaw s (toTmsize (bc s)),
           Event.writeRaw s (toTmsize (bc s)) b], some x1))) := by
  obtain ⟨hg1, hg2⟩ := cpGrow_cases m bc s x
  refine ⟨(cpGrow m bc s x).1, hg1, ?_⟩
  unfold cpStep
  cases hgr : cpGrow m bc s x with
  | mk ev res =>
    cases res with
    | none =>
      left
      exact ⟨hg2 (by rw [hgr]), rfl⟩
    | some x1 =>
      right
      rcases cpMove_cases r bc s x1 with ⟨h1, h2⟩ | ⟨d, h1, h2, h3⟩ | ⟨d, h1, h2, h3⟩
      · left; exact ⟨h1, by simp [h2]⟩
      · right; left; exact ⟨d, _, h1, h2, by simp [h3]⟩
      · right; right
        refine ⟨d, _, { x1 with buf := d ++ x1.buf.drop d.length }, h1, h2, ?_, by simp [h3]⟩
        intro hl
        rw [← hl]
        simp

/-- The loop with one more region to do, by the way the pass for region `s` goes. -/
theorem cpLoop_succ_cases (m : Mem) (r : Regions) (bc : Nat → Nat) (k s : Nat) (x : Xfer) :
    ∃ g : List Event, (g = [] ∨ g = [Event.realloc (toTmsize (bc s))]) ∧
      ((m.realloc s (toTmsize (bc s)) = false ∧ cpLoop m r bc (k + 1) s x = (0, g)) ∨
       (r.read s (toTmsize (bc s)) = none ∧
         cpLoop m r bc (k + 1) s x
           = (0, g ++ [Event.readRaw s (toTmsize (bc s)), Event.free])) ∨
       (∃ d b, r.read s (toTmsize (bc s)) = some d ∧ r.write s (toTmsize (bc s)) b = false ∧
         cpLoop m r bc (k + 1) s x = (0, g ++ [Event.readRaw s (toTmsize (bc s)),
           Event.writeRaw s (toTmsize (bc s)) b, Event.free])) ∨
       (∃ d b x1, r.read s (toTmsize (bc s)) = some d ∧ r.write s (toTmsize (bc s)) b = true ∧
         (d.length = (toTmsize (bc s)).toNat → b = d) ∧
         cpLoop m r bc (k + 1) s x = ((cpLoop m r bc k (s + 1) x1).1,
           (g ++ [Event.readRaw s (toTmsize (bc s)), Event.writeRaw s (toTmsize (bc s)) b])
             ++ (cpLoop m r bc k (s + 1) x1).2))) := by
  obtain ⟨g, hg, h⟩ := cpStep_cases m r bc s x
  refine ⟨g, hg, ?_⟩
  rcases h with ⟨h1, h2⟩ | ⟨h1, h2⟩ | ⟨d, b, h1, h2, h3⟩ | ⟨d, b, x1, h1, h2, h3, h4⟩
  · left; exact ⟨h1, by simp [cpLoop, h2]⟩
  · right; left; exact ⟨h1, by simp [cpLoop, h2]⟩
  · right; right; left; exact ⟨d, b, h1, h2, by simp [cpLoop, h3]⟩
  · right; right; right; exact ⟨d, b, x1, h1, h2, h3, by simp [cpLoop, h4]⟩

theorem cpLoop_ret (m : Mem) (r : Regions) (bc : Nat → Nat) (k : Nat) :
    ∀ s x, (cpLoop m r bc k s x).1 = 0 ∨ (cpLoop m r bc k s x).1 = 1 := by
  induction k with
  | zero => intro s x; right; rfl
  | succ k ih =>
    intro s x
    obtain ⟨g, _, h⟩ := cpLoop_succ_cases m r bc k s x
    rcases h with ⟨_, h2⟩ | ⟨_, h2⟩ | ⟨d, b, _, _, h2⟩ | ⟨d, b, x1, _, _, _, h2⟩
    · left; rw [h2]
    · left; rw [h2]
    · left; rw [h2]
    · rw [h2]; exact ih (s + 1) x1

/-- Every raw call of the loop is for a region of the range still to do and
asks for that region's byte count. -/
theorem cpLoop_calls (m : Mem) (r : Regions) (bc : Nat → Nat) (k : Nat) :
    ∀ s x e, e ∈ (cpLoop m r bc k s x).2 →
      (∀ t n, e = Event.readRaw t n → s ≤ t ∧ t < s + k ∧ n = toTmsize (bc t)) ∧
      (∀ t n b, e = Event.writeRaw t n b → s ≤ t ∧ t < s + k ∧ n = toTmsize (bc t)) := by
  induction k with
  | zero =>
    intro s x e he
    simp only [cpLoop, List.mem_singleton] at he
    subst he
    exact ⟨fun _ _ h => (by cases h), fun _ _ _ h => (by cases h)⟩
  | succ k ih =>
    intro s x e he
    obtain ⟨g, hg, h⟩ := cpLoop_succ_cases m r bc k s x
    have hgm : ∀ e, e ∈ g → e = Event.realloc (toTmsize (bc s)) := by
      intro e he
      rcases hg with hg | hg <;> simp_all
    have key : e = Event.realloc (toTmsize (bc s)) ∨ e = Event.free ∨
        e = Event.readRaw s (toTmsize (bc s)) ∨ (∃ b, e = Event.writeRaw s (toTmsize (bc s)) b) ∨
        (∃ x1, e ∈ (cpLoop m r bc k (s + 1) x1).2) := by
      rcases h with ⟨_, h2⟩ | ⟨_, h2⟩ | ⟨d, b, _, _, h2⟩ | ⟨d, b, x1, _, _, _, h2⟩
      · rw [h2] at he; left; exact hgm e he
      · rw [h2] at he
        simp only [List.mem_append, List.mem_cons, List.mem_singleton, List.not_mem_nil,
          or_false] at he
        rcases he with he | he | he
        · left; exact hgm e he
        · right; right; left; exact he
        · right; left; exact he
      · rw [h2] at he
        simp only [List.mem_append, List.mem_cons, List.mem_singleton, List.not_mem_nil,
          or_false] at he
        rcases he with he | he | he | he
        · left; exact hgm e he
        · right; right; left; exact he
        · right; right; right; left; exact ⟨b, he⟩
        · right; left; exact he
      · rw [h2] at he
        simp only [List.mem_append, List.mem_cons, List.mem_singleton, List.not_mem_nil,
          or_false] at he
        rcases he with (he | he | he) | he
        · left; exact hgm e he
        · right; right; left; exact he
        · right; right; right; left; exact ⟨b, he⟩
        · right; right; right; right; exact ⟨x1, he⟩
    rcases key with h | h | h | ⟨b, h⟩ | ⟨x1, h⟩
    · subst h; exact ⟨fun _ _ h => (by cases h), fun _ _ _ h => (by cases h)⟩
    · subst h; exact ⟨fun _ _ h => (by cases h), fun _ _ _ h => (by cases h)⟩
    · subst h
      refine ⟨fun t n h => ?_, fun _ _ _ h => (by cases h)⟩
      cases h
      exact ⟨Nat.le_refl _, by omega, rfl⟩
    · subst h
      refine ⟨fun _ _ h => (by cases h), fun t n b1 h => ?_⟩
      cases h
      exact ⟨Nat.le_refl _, by omega, rfl⟩
    · obtain ⟨h1, h2⟩ := ih (s + 1) x1 e h
      refine ⟨fun t n he => ?_, fun t n b he => ?_⟩
      · obtain ⟨a, b, c⟩ := h1 t n he
        exact ⟨by omega, by omega, c⟩
      · obtain ⟨a, b1, c⟩ := h2 t n b he
        exact ⟨by omega, by omega, c⟩

theorem failed_grow (r : Regions) (g : List Event) (n : Int)
    (hg : g = [] ∨ g = [Event.realloc n]) : ∀ a ∈ g, failed r a = false := by
  intro a ha
  rcases hg with hg | hg
  · subst hg; simp at ha
  · subst hg
    simp only [List.mem_singleton] at ha
    subst ha
    rfl

/-- A successful loop read and wrote every region of the range once, in order,
and no call failed; reads of the requested length are written back unchanged. -/
theorem cpLoop_success (m : Mem) (r : Regions) (bc : Nat → Nat) (k : Nat) :
    ∀ s x, (cpLoop m r bc k s x).1 = 1 →
      rawReads (cpLoop m r bc k s x).2 = List.range' s k ∧
      (rawWrites (cpLoop m r bc k s x).2).map Prod.fst = List.range' s k ∧
      (∀ e ∈ (cpLoop m r bc k s x).2, failed r e = false) ∧
      ((∀ t n d, r.read t n = some d → d.length = n.toNat) →
        rawWrites (cpLoop m r bc k s x).2
          = (List.range' s k).map (fun t => (t, (r.read t (toTmsize (bc t))).getD []))) := by
  induction k with
  | zero =>
    intro s x _
    simp [cpLoop, rawReads, rawWrites, failed]
  | succ k ih =>
    intro s x hret
    obtain ⟨g, hg, h⟩ := cpLoop_succ_cases m r bc k s x
    rcases h with ⟨_, h2⟩ | ⟨_, h2⟩ | ⟨d, b, _, _, h2⟩ | ⟨d, b, x1, hrd, hwr, hb, h2⟩
    · rw [h2] at hret; simp at hret
    · rw [h2] at hret; simp at hret
    · rw [h2] at hret; simp at hret
    · rw [h2] at hret
      obtain ⟨i1, i2, i3, i4⟩ := ih (s + 1) x1 hret
      rw [h2]
      simp only [rawReads_append, rawWrites_append, List.map_append, i1, i2]
      have hgr : rawReads g = [] := by rcases hg with hg | hg <;> simp [hg, rawReads]
      have hgw : rawWrites g = [] := by rcases hg with hg | hg <;> simp [hg, rawWrites]
      have hgf := failed_grow r g _ hg
      refine ⟨?_, ?_, ?_, ?_⟩
      · simp [hgr, rawReads, List.range'_succ]
      · simp [hgw, rawWrites, List.range'_succ]
      · intro e he
        simp only [List.mem_append, List.mem_cons, List.mem_singleton, List.not_mem_nil,
          or_false] at he
        rcases he with (he | he | he) | he
        · exact hgf e he
        · subst he; simp [failed, hrd]
        · subst he; simp [failed, hwr]
        · exact i3 e he
      · intro hex
        have hbd : b = d := hb (hex s _ d hrd)
        rw [i4 hex]
        simp [hgw, rawWrites, List.range'_succ, hrd, hbd]

/-- When no buffer growth fails, a loop that returns 0 made a call that failed. -/
theorem cpLoop_failure (m : Mem) (r : Regions) (bc : Nat → Nat)
    (hre : ∀ s n, m.realloc s n = true) (k : Nat) :
    ∀ s x, (cpLoop m r bc k s x).1 = 0 → ∃ e ∈ (cpLoop m r bc k s x).2, failed r e = true := by
  induction k with
  | zero => intro s x h; simp [cpLoop] at h
  | succ k ih =>
    intro s x hret
    obtain ⟨g, hg, h⟩ := cpLoop_succ_cases m r bc k s x
    rcases h with ⟨h1, _⟩ | ⟨h1, h2⟩ | ⟨d, b, _, hwr, h2⟩ | ⟨d, b, x1, hrd, hwr, hb, h2⟩
    · rw [hre] at h1; exact absurd h1 (by decide)
    · rw [h2]
      exact ⟨Event.readRaw s (toTmsize (bc s)), by simp, by simp [failed, h1]⟩
    · rw [h2]
      exact ⟨Event.writeRaw s (toTmsize (bc s)) b, by simp, by simp [failed, hwr]⟩
    · rw [h2] at hret
      obtain ⟨e, he, hf⟩ := ih (s + 1) x1 hret
      rw [h2]
      exact ⟨e, by simp [he], hf⟩

/-- Where a piece of a log without failed calls ends inside a log split at a failed call. -/
theorem split_at_failed (r : Regions) (l1 l2 pre post : List Event) (e : Event)
    (h1 : ∀ a ∈ l1, failed r a = false) (he : failed r e = true)
    (h : l1 ++ l2 = pre ++ e :: post) : ∃ pre1, pre = l1 ++ pre1 ∧ l2 = pre1 ++ e :: post := by
  induction l1 generalizing pre with
  | nil => exact ⟨pre, rfl, h⟩
  | cons a t ih =>
    cases pre with
    | nil =>
      simp only [List.cons_append, List.nil_append, List.cons.injEq] at h
      have := h1 a (by simp)
      rw [h.1, he] at this
      exact absurd this (by decide)
    | cons b pre2 =>
      simp only [List.cons_append, List.cons.injEq] at h
      obtain ⟨pre1, hp, hl⟩ := ih pre2 (fun c hc => h1 c (by simp [hc])) h.2
      exact ⟨pre1, by rw [h.1, hp]; rfl, hl⟩

/-- A failed call is followed by `_TIFFfree(buf)` and nothing else, and the loop returns 0. -/
theorem cpLoop_abort (m : Mem) (r : Regions) (bc : Nat → Nat) (k : Nat) :
    ∀ s x pre e post, (cpLoop m r bc k s x).2 = pre ++ e :: post → failed r e = true →
      post = [Event.free] ∧ (cpLoop m r bc k s x).1 = 0 := by
  induction k with
  | zero =>
    intro s x pre e post h hf
    simp only [cpLoop] at h
    cases pre with
    | nil =>
      simp only [List.nil_append, List.cons.injEq] at h
      rw [← h.1] at hf
      simp [failed] at hf
    | cons a t =>
      simp only [List.cons_append, List.cons.injEq] at h
      have := h.2
      cases t <;> simp at this
  | succ k ih =>
    intro s x pre e post h hf
    obtain ⟨g, hg, hc⟩ := cpLoop_succ_cases m r bc k s x
    have hgf := failed_grow r g _ hg
    rcases hc with ⟨_, h2⟩ | ⟨h1, h2⟩ | ⟨d, b, hrd, hwr, h2⟩ | ⟨d, b, x1, hrd, hwr, hb, h2⟩
    · rw [h2] at h
      have hm : e ∈ g := by simp only at h; rw [h]; simp
      rw [hgf e hm] at hf
      exact absurd hf (by decide)
    · rw [h2] at h ⊢
      obtain ⟨pre1, _, hl⟩ := split_at_failed r g _ pre post e hgf hf h
      cases pre1 with
      | nil =>
        simp only [List.nil_append, List.cons.injEq] at hl
        exact ⟨hl.2.symm, rfl⟩
      | cons a t =>
        simp only [List.cons_append, List.cons.injEq] at hl
        cases t with
        | nil =>
          simp only [List.nil_append, List.cons.injEq] at hl
          rw [← hl.2.1] at hf
          simp [failed] at hf
        | cons a2 t2 =>
          have := hl.2
          simp at this
    · rw [h2] at h ⊢
      obtain ⟨pre1, _, hl⟩ := split_at_failed r g _ pre post e hgf hf h
      cases pre1 with
      | nil =>
        simp only [List.nil_append, List.cons.injEq] at hl
        rw [← hl.1] at hf
        simp [failed, hrd] at hf
      | cons a t =>
        simp only [List.cons_append, List.cons.injEq] at hl
        cases t with
        | nil =>
          simp only [List.nil_append, List.cons.injEq] at hl
          exact ⟨hl.2.2.symm, rfl⟩
        | cons a2 t2 =>
          simp only [List.cons_append, List.cons.injEq] at hl
          cases t2 with
          | nil =>
            simp only [List.nil_append, List.cons.injEq] at hl
            rw [← hl.2.2.1] at hf
            simp [failed] at hf
          | cons a3 t3 =>
            have := hl.2.2
            simp at this
    · rw [h2] at h ⊢
      have hok : ∀ a ∈ g ++ [Event.readRaw s (toTmsize (bc s)),
          Event.writeRaw s (toTmsize (bc s)) b], failed r a = false := by
        intro a ha
        simp only [List.mem_append, List.mem_cons, List.mem_singleton, List.not_mem_nil,
          or_false] at ha
        rcases ha with ha | ha | ha
        · exact hgf a ha
        · subst ha; simp [failed, hrd]
        · subst ha; simp [failed, hwr]
      obtain ⟨pre1, _, hl⟩ := split_at_failed r _ _ pre post e hok hf h
      exact ih (s + 1) x1 pre1 e post hl hf

theorem mem_rawReads (log : List Event) (t : Nat) :
    t ∈ rawReads log ↔ ∃ n, Event.readRaw t n ∈ log := by
  induction log with
  | nil => simp [rawReads]
  | cons e l ih =>
    cases e
    case readRaw idx size => simp [rawReads, ih]; aesop
    all_goals simp [rawReads, ih]

theorem mem_rawWrites (log : List Event) (t : Nat) (b : List Nat) :
    (t, b) ∈ rawWrites log ↔ ∃ n, Event.writeRaw t n b ∈ log := by
  induction log with
  | nil => simp [rawWrites]
  | cons e l ih =>
    cases e
    case writeRaw idx size bytes => simp [rawWrites, ih]; aesop
    all_goals simp [rawWrites, ih]

/-- The loop writes a region at most once. -/
theorem cpLoop_write_unique (m : Mem) (r : Regions) (bc : Nat → Nat) (k : Nat) :
    ∀ s x t n b n1 b1, Event.writeRaw t n b ∈ (cpLoop m r bc k s x).2 →
      Event.writeRaw t n1 b1 ∈ (cpLoop m r bc k s x).2 → b = b1 := by
  induction k with
  | zero =>
    intro s x t n b n1 b1 h
    simp [cpLoop] at h
  | succ k ih =>
    intro s x t n b n1 b1 h h1
    obtain ⟨g, hg, hc⟩ := cpLoop_succ_cases m r bc k s x
    have hgw : ∀ t n b, Event.writeRaw t n b ∉ g := by
      intro t n b hmem
      rcases hg with hg | hg
      · subst hg; simp at hmem
      · subst hg; simp at hmem
    rcases hc with ⟨_, h2⟩ | ⟨_, h2⟩ | ⟨d, b2, _, _, h2⟩ | ⟨d, b2, x1, _, _, _, h2⟩
    · rw [h2] at h; exact absurd h (hgw t n b)
    · rw [h2] at h
      simp only [List.mem_append, List.mem_cons, List.mem_singleton, List.not_mem_nil,
        or_false] at h
      rcases h with h | h | h
      · exact absurd h (hgw t n b)
      · cases h
      · cases h
    · rw [h2] at h h1
      simp only [List.mem_append, List.mem_cons, List.mem_singleton, List.not_mem_nil,
        or_false] at h h1
      rcases h with h | h | h | h
      · exact absurd h (hgw t n b)
      · cases h
      · rcases h1 with h1 | h1 | h1 | h1
        · exact absurd h1 (hgw t n1 b1)
        · cases h1
        · cases h; cases h1; rfl
        · cases h1
      · cases h
    · rw [h2] at h h1
      simp only [List.mem_append, List.mem_cons, List.mem_singleton, List.not_mem_nil,
        or_false] at h h1
      rcases h with (h | h | h) | h
      · exact absurd h (hgw t n b)
      · cases h
      · rcases h1 with (h1 | h1 | h1) | h1
        · exact absurd h1 (hgw t n1 b1)
        · cases h1
        · cases h; cases h1; rfl
        · cases h
          have := ((cpLoop_calls m r bc k (s + 1) x1 _ h1).2 s n1 b1 rfl).1
          omega
      · rcases h1 with (h1 | h1 | h1) | h1
        · exact absurd h1 (hgw t n1 b1)
        · cases h1
        · cases h1
          have := ((cpLoop_calls m r bc k (s + 1) x1 _ h).2 s n b rfl).1
          omega
        · exact ih (s + 1) x1 t n b n1 b1 h h1

/-- The region copy returns 1 exactly when the byte-count table is there and the
read and the write of every region succeeded, provided no allocation fails. -/
theorem cpRegions_success_iff (m : Mem) (r : Regions) (hm : m.malloc r.size = true)
    (hre : ∀ s n, m.realloc s n = true) :
    (cpRegions m r).1 = 1 ↔
      ∃ bc, r.bytecounts = some bc ∧ ∀ s, s < r.count →
        r.read s (toTmsize (bc s)) ≠ none ∧
        ∃ b, Event.writeRaw s (toTmsize (bc s)) b ∈ (cpRegions m r).2 ∧
          r.write s (toTmsize (bc s)) b = true := by
  unfold cpRegions
  rw [if_pos hm]
  cases hbc : r.bytecounts with
  | none => simp
  | some bc =>
    simp only [Option.some.injEq, exists_eq_left']
    constructor
    · intro hret
      obtain ⟨i1, i2, i3, _⟩ := cpLoop_success m r bc r.count 0 _ hret
      intro s hs
      have hs1 : s ∈ List.range' 0 r.count := by simp [List.mem_range']; omega
      constructor
      · have h1 := hs1
        rw [← i1, mem_rawReads] at h1
        obtain ⟨n, hn⟩ := h1
        have hn1 := ((cpLoop_calls m r bc r.count 0 _ _ hn).1 s n rfl).2.2
        have := i3 _ hn
        rw [hn1] at this
        intro hnone
        simp [failed, hnone] at this
      · have h1 := hs1
        rw [← i2, List.mem_map] at h1
        obtain ⟨⟨t, b⟩, hmem, ht⟩ := h1
        simp only at ht
        subst ht
        rw [mem_rawWrites] at hmem
        obtain ⟨n, hn⟩ := hmem
        have hn1 := ((cpLoop_calls m r bc r.count 0 _ _ hn).2 t n b rfl).2.2
        have := i3 _ hn
        rw [hn1] at this hn
        exact ⟨b, by simp [hn], by simpa [failed] using this⟩
    · intro hall
      rcases cpLoop_ret m r bc r.count 0 { buf := fresh m (toU64 r.size), bufsize := r.size }
        with h0 | h1
      · exfalso
        obtain ⟨e, he, hf⟩ := cpLoop_failure m r bc hre r.count 0 _ h0
        obtain ⟨c1, c2⟩ := cpLoop_calls m r bc r.count 0 _ e he
        cases e with
        | readRaw t n =>
          obtain ⟨_, ht, hn⟩ := c1 t n rfl
          have := (hall t (by omega)).1
          rw [hn] at hf
          simp [failed] at hf
          exact this hf
        | writeRaw t n b =>
          obtain ⟨_, ht, hn⟩ := c2 t n b rfl
          obtain ⟨b1, hb1, hw⟩ := (hall t (by omega)).2
          simp only [List.mem_cons, reduceCtorEq, false_or] at hb1
          have hbb := cpLoop_write_unique m r bc r.count 0 _ t n b _ b1 he hb1
          rw [hn, hbb] at hf
          simp [failed, hw] at hf
        | _ => simp [failed] at hf
      · exact h1

theorem cpRegions_eq_loop (m : Mem) (r : Regions) (bc : Nat → Nat)
    (hm : m.malloc r.size = true) (hbc : r.bytecounts = some bc) :
    cpRegions m r
      = ((cpLoop m r bc r.count 0 { buf := fresh m (toU64 r.size), bufsize := r.size }).1,
         Event.malloc r.size ::
           (cpLoop m r bc r.count 0 { buf := fresh m (toU64 r.size), bufsize := r.size }).2) := by
  unfold cpRegions
  rw [if_pos hm, hbc]

theorem cpRegions_eq_no_table (m : Mem) (r : Regions)
    (hm : m.malloc r.size = true) (hbc : r.bytecounts = none) :
    cpRegions m r = (0, [Event.malloc r.size, Event.stderr, Event.free]) := by
  unfold cpRegions
  rw [if_pos hm, hbc]

theorem cpRegions_eq_no_buffer (m : Mem) (r : Regions) (hm : ¬ m.malloc r.size = true) :
    cpRegions m r = (0, [Event.malloc r.size]) := by
  unfold cpRegions
  rw [if_neg hm]

theorem cpRegions_ret (m : Mem) (r : Regions) :
    (cpRegions m r).1 = 0 ∨ (cpRegions m r).1 = 1 := by
  by_cases hm : m.malloc r.size = true
  · cases hbc : r.bytecounts with
    | none => rw [cpRegions_eq_no_table m r hm hbc]; left; rfl
    | some bc => rw [cpRegions_eq_loop m r bc hm hbc]; exact cpLoop_ret m r bc r.count 0 _
  · rw [cpRegions_eq_no_buffer m r hm]; left; rfl

/-- In the region copy a failed call is followed by `_TIFFfree(buf)` and nothing
else, and the result is 0. -/
theorem cpRegions_abort (m : Mem) (r : Regions) (pre post : List Event) (e : Event)
    (h : (cpRegions m r).2 = pre ++ e :: post) (hf : failed r e = true) :
    post = [Event.free] ∧ (cpRegions m r).1 = 0 := by
  by_cases hm : m.malloc r.size = true
  · cases hbc : r.bytecounts with
    | none =>
      exfalso
      rw [cpRegions_eq_no_table m r hm hbc] at h
      have hmem : e ∈ [Event.malloc r.size, Event.stderr, Event.free] := by
        simp only at h; rw [h]; simp
      simp only [List.mem_cons, List.mem_singleton, List.not_mem_nil, or_false] at hmem
      rcases hmem with h1 | h1 | h1 <;> (subst h1; simp [failed] at hf)
    | some bc =>
      rw [cpRegions_eq_loop m r bc hm hbc] at h ⊢
      have hok : ∀ a ∈ [Event.malloc r.size], failed r a = false := by
        intro a ha
        simp only [List.mem_singleton] at ha
        subst ha; rfl
      obtain ⟨pre1, _, hl⟩ := split_at_failed r [Event.malloc r.size] _ pre post e hok hf h
      exact cpLoop_abort m r bc r.count 0 _ pre1 e post hl hf
  · exfalso
    rw [cpRegions_eq_no_buffer m r hm] at h
    have hmem : e ∈ [Event.malloc r.size] := by simp only at h; rw [h]; simp
    simp only [List.mem_singleton] at hmem
    subst hmem
    simp [failed] at hf

/-- A region copy that returns 1 wrote the regions `0..count-1` once each, in
order, with the bytes their reads returned when reads return the requested length. -/
theorem cpRegions_fidelity (m : Mem) (r : Regions)
    (hex : ∀ t n d, r.read t n = some d → d.length = n.toNat) (hret : (cpRegions m r).1 = 1) :
    ∃ bc, r.bytecounts = some bc ∧
      rawWrites (cpRegions m r).2
        = (List.range r.count).map (fun s => (s, (r.read s (toTmsize (bc s))).getD [])) ∧
      rawReads (cpRegions m r).2 = List.range r.count ∧
      ∀ s, s < r.count → ∃ d, r.read s (toTmsize (bc s)) = some d ∧
        d.length = (toTmsize (bc s)).toNat ∧ (bc s < 2 ^ 63 → d.length = bc s) := by
  by_cases hm : m.malloc r.size = true
  · cases hbc : r.bytecounts with
    | none => rw [cpRegions_eq_no_table m r hm hbc] at hret; simp at hret
    | some bc =>
      rw [cpRegions_eq_loop m r bc hm hbc] at hret ⊢
      simp only at hret
      obtain ⟨i1, i2, i3, i4⟩ := cpLoop_success m r bc r.count 0 _ hret
      refine ⟨bc, rfl, ?_, ?_, ?_⟩
      · simp only [rawWrites, i4 hex, List.range_eq_range']
      · simp only [rawReads, i1, List.range_eq_range']
      · intro s hs
        have hs1 : s ∈ List.range' 0 r.count := by simp [List.mem_range']; omega
        rw [← i1, mem_rawReads] at hs1
        obtain ⟨n, hn⟩ := hs1
        have hn1 := ((cpLoop_calls m r bc r.count 0 _ _ hn).1 s n rfl).2.2
        have hnf := i3 _ hn
        rw [hn1] at hnf
        cases hrd : r.read s (toTmsize (bc s)) with
        | none => simp [failed, hrd] at hnf
        | some d =>
          refine ⟨d, rfl, hex _ _ _ hrd, ?_⟩
          intro hlt
          rw [hex _ _ _ hrd]
          unfold toTmsize
          have : bc s % 2 ^ 64 = bc s := Nat.mod_eq_of_lt (by omega)
          rw [this, if_pos hlt]
          simp
  · rw [cpRegions_eq_no_buffer m r hm] at hret; simp at hret

/-- Without a byte-count table the region copy returns 0 and makes no raw call. -/
theorem cpRegions_no_table (m : Mem) (r : Regions) (h : r.bytecounts = none) :
    (cpRegions m r).1 = 0 ∧ rawReads (cpRegions m r).2 = [] ∧ rawWrites (cpRegions m r).2 = [] := by
  by_cases hm : m.malloc r.size = true
  · rw [cpRegions_eq_no_table m r hm h]; simp [rawReads, rawWrites]
  · rw [cpRegions_eq_no_buffer m r hm]; simp [rawReads, rawWrites]

/-- The region copy returns 1 when the byte-count table is there, no allocation
fails and no call it made failed; in particular when every read succeeds and
every write succeeds whatever the bytes, and then every region is read and
written once, in order. -/
theorem cpRegions_if (m : Mem) (r : Regions) (hm : m.malloc r.size = true)
    (hre : ∀ s n, m.realloc s n = true) (bc : Nat → Nat) (hbc : r.bytecounts = some bc) :
    ((∀ e ∈ (cpRegions m r).2, failed r e = false) → (cpRegions m r).1 = 1) ∧
    ((∀ s, s < r.count → r.read s (toTmsize (bc s)) ≠ none ∧
        ∀ b, r.write s (toTmsize (bc s)) b = true) →
      (cpRegions m r).1 = 1 ∧ rawReads (cpRegions m r).2 = List.range r.count ∧
        (rawWrites (cpRegions m r).2).map Prod.fst = List.range r.count) := by
  have hloop := cpRegions_eq_loop m r bc hm hbc
  have key : (∀ e ∈ (cpRegions m r).2, failed r e = false) → (cpRegions m r).1 = 1 := by
    intro hall
    rcases cpRegions_ret m r with h0 | h1
    · exfalso
      rw [hloop] at h0
      obtain ⟨e, he, hf⟩ := cpLoop_failure m r bc hre r.count 0 _ h0
      have := hall e (by rw [hloop]; exact List.mem_cons_of_mem _ he)
      rw [this] at hf
      cases hf
    · exact h1
  refine ⟨key, fun hall => ?_⟩
  have h1 : (cpRegions m r).1 = 1 := by
    apply key
    intro e he
    rw [hloop] at he
    simp only [List.mem_cons] at he
    rcases he with he | he
    · subst he; rfl
    · have hc := cpLoop_calls m r bc r.count 0 _ e he
      cases e with
      | readRaw t n =>
        obtain ⟨_, ht, hn⟩ := hc.1 t n rfl
        subst hn
        have := (hall t (by omega)).1
        cases hr : r.read t (toTmsize (bc t)) with
        | none => exact absurd hr this
        | some d => simp [failed, hr]
      | writeRaw t n b =>
        obtain ⟨_, ht, hn⟩ := hc.2 t n b rfl
        subst hn
        simp [failed, (hall t (by omega)).2 b]
      | _ => rfl
  refine ⟨h1, ?_⟩
  have h2 := h1
  rw [hloop] at h2
  obtain ⟨i1, i2, _, _⟩ := cpLoop_success m r bc r.count 0 _ h2
  rw [hloop]
  simp only [rawReads, rawWrites, i1, i2, List.range_eq_range']
  exact ⟨trivial, trivial⟩

/-! ## The tag copy -/

theorem CopyField_fields (i : TIFF) (o : TIFFOut) (a t : Nat) :
    (CopyField i o a).fields t
      = if t = a then (match i.getField t with | some v => some v | none => o.fields t)
        else o.fields t := by
  unfold CopyField
  by_cases h : t = a
  · subst h
    cases hg : i.getField t <;> simp [TIFFSetField]
  · cases hg : i.getField a <;> simp [TIFFSetField, h]

/-- The tags on `out` after a run of `CopyField` lines over the tags `L`. -/
theorem foldl_CopyField_fields (i : TIFF) (L : List Nat) :
    ∀ (o : TIFFOut) (t : Nat), (L.foldl (CopyField i) o).fields t
      = if t ∈ L then (match i.getField t with | some v => some v | none => o.fields t)
        else o.fields t := by
  induction L with
  | nil => intro o t; simp
  | cons a L ih =>
    intro o t
    rw [List.foldl_cons, ih, CopyField_fields]
    by_cases h1 : t ∈ L
    · by_cases h2 : t = a
      · cases hg : i.getField t <;> simp [h1, h2, hg]
      · cases hg : i.getField t <;> simp [h1, h2, hg]
    · by_cases h2 : t = a
      · subst h2
        simp [h1]
      · simp [h1, h2]

theorem copyJpegTables_fields_of_ne (m : Mem) (i : TIFF) (o : TIFFOut) (t : Nat)
    (h : t ≠ TIFFTAG_JPEGTABLES) : (copyJpegTables m i o).fields t = o.fields t := by
  unfold copyJpegTables
  split
  · split
    · split <;> simp [TIFFSetField, h]
    · rfl
  · rfl

/-- What lines 209-216 leave under the JPEG tables tag of `out`. -/
theorem copyJpegTables_fields_jpeg (m : Mem) (i : TIFF) (o : TIFFOut)
    (ho : o.fields TIFFTAG_JPEGTABLES = none) :
    ((copyJpegTables m i o).fields TIFFTAG_JPEGTABLES ≠ none ↔
      compressionLocal m i = COMPRESSION_JPEG ∧
        ∃ c tbl, i.getField TIFFTAG_JPEGTABLES = some (.counted c (some tbl)) ∧ 0 < c) ∧
    ((copyJpegTables m i o).fields TIFFTAG_JPEGTABLES ≠ none →
      (copyJpegTables m i o).fields TIFFTAG_JPEGTABLES = i.getField TIFFTAG_JPEGTABLES) := by
  unfold copyJpegTables
  by_cases hc : compressionLocal m i = COMPRESSION_JPEG
  · rw [if_pos hc]
    cases hg : i.getField TIFFTAG_JPEGTABLES with
    | none => simp [ho]
    | some v =>
      cases v with
      | counted c data =>
        cases data with
        | none => simp [ho]
        | some tbl =>
          by_cases hpos : c > 0
          · simp [hpos, hc, TIFFSetField]
          · simp [hpos, ho]
      | _ => simp [ho]
  · rw [if_neg hc]
    simp [ho, hc]

theorem jpegtables_not_copied_by_table :
    TIFFTAG_JPEGTABLES ∉ tagsUpToCompression ∧ TIFFTAG_JPEGTABLES ∉ tagsAfterCompression := by
  constructor <;> decide

/-- The tags on a fresh `out` after the tag copy, for a tag other than the JPEG tables. -/
theorem copyTags_fields_of_ne (m : Mem) (i : TIFF) (o : TIFFOut) (hf : ∀ t, o.fields t = none)
    (t : Nat) (h : t ≠ TIFFTAG_JPEGTABLES) :
    (copyTags m i o).fields t
      = if t ∈ tagsUpToCompression ++ tagsAfterCompression then i.getField t else none := by
  unfold copyTags
  rw [foldl_CopyField_fields, copyJpegTables_fields_of_ne _ _ _ _ h, foldl_CopyField_fields, hf]
  by_cases h1 : t ∈ tagsAfterCompression
  · cases hg : i.getField t <;> simp [h1]
  · by_cases h2 : t ∈ tagsUpToCompression
    · cases hg : i.getField t <;> simp [h1, h2]
    · simp [h1, h2]

/-- The JPEG tables tag on a fresh `out` after the tag copy. -/
theorem copyTags_fields_jpeg (m : Mem) (i : TIFF) (o : TIFFOut) :
    (copyTags m i o).fields TIFFTAG_JPEGTABLES
      = (copyJpegTables m i (tagsUpToCompression.foldl (CopyField i) o)).fields
          TIFFTAG_JPEGTABLES := by
  unfold copyTags
  rw [foldl_CopyField_fields, if_neg jpegtables_not_copied_by_table.2]

theorem tiffcp_out (m : Mem) (i : TIFF) (o : TIFFOut) : (tiffcp m i o).2 = copyTags m i o := by
  unfold tiffcp
  split <;> rfl

theorem outPaths_cpLoop (m : Mem) (r : Regions) (bc : Nat → Nat) (k : Nat) :
    ∀ s x, outPaths (cpLoop m r bc k s x).2 = [] := by
  induction k with
  | zero => intro s x; rfl
  | succ k ih =>
    intro s x
    obtain ⟨g, hg, h⟩ := cpLoop_succ_cases m r bc k s x
    have hgo : outPaths g = [] := by rcases hg with hg | hg <;> (subst hg; rfl)
    rcases h with ⟨_, h2⟩ | ⟨_, h2⟩ | ⟨d, b, _, _, h2⟩ | ⟨d, b, x1, _, _, _, h2⟩
    · rw [h2]; exact hgo
    · rw [h2]; simp [outPaths_append, hgo, outPaths]
    · rw [h2]; simp [outPaths_append, hgo, outPaths]
    · rw [h2]; simp [outPaths_append, hgo, outPaths, ih]

theorem outPaths_cpRegions (m : Mem) (r : Regions) : outPaths (cpRegions m r).2 = [] := by
  by_cases hm : m.malloc r.size = true
  · cases hbc : r.bytecounts with
    | none => rw [cpRegions_eq_no_table m r hm hbc]; rfl
    | some bc => rw [cpRegions_eq_loop m r bc hm hbc]; simp [outPaths, outPaths_cpLoop]
  · rw [cpRegions_eq_no_buffer m r hm]; rfl

theorem outPaths_tiffcp (m : Mem) (i : TIFF) (o : TIFFOut) : outPaths (tiffcp m i o).1.2 = [] := by
  unfold tiffcp
  split
  · exact outPaths_cpRegions _ _
  · exact outPaths_cpRegions _ _

/-- The path built from the name of page counter `k`. -/
theorem outputPath_early (alloc : Int → Bool) (p : List Nat) (d : Int) (k : Nat)
    (hnz : ∀ c ∈ p, c ≠ 0) (hl : p.length + 3 < PATH_LENGTH)
    (ha : alloc ((p.length + 3 + sizeofSuffix : Nat) : Int) = true) :
    outputPath alloc (earlyState p d k).fname = .ok (pathOf p k) := by
  have hc := cstr_stem_letters p k hnz
  have hlen : (p ++ letters k).length = p.length + 3 := by simp [letters]
  have hsuf : ∀ c ∈ TIFF_SUFFIX, c ≠ 0 := by decide
  have hc2 : cstr (p ++ letters k ++ TIFF_SUFFIX) = p ++ letters k ++ TIFF_SUFFIX := by
    apply cstr_self
    intro c hcm
    rcases List.mem_append.mp hcm with h | h
    · rw [← hc] at h
      rw [hc] at h
      rcases List.mem_append.mp h with h | h
      · exact hnz c h
      · exact letters_no_nul k c h
    · exact hsuf c h
  unfold outputPath
  simp only [earlyState, strlen, hc, hlen, hl, if_true, bind, Except.bind, ha, pure, Except.pure,
    strncpy, poke]
  have h1 : List.take (p.length + 3 + sizeofSuffix) (p ++ letters k) = p ++ letters k :=
    List.take_of_length_le (by rw [hlen]; omega)
  have h2 : p.length + 3 + sizeofSuffix - 1 < p.length + 3 + sizeofSuffix := by
    unfold sizeofSuffix; simp [TIFF_SUFFIX]
  have h3 : setAt (p ++ letters k) (p.length + 3 + sizeofSuffix - 1) 0 = p ++ letters k := by
    unfold setAt
    have : ¬ (p.length + 3 + sizeofSuffix - 1 < (p ++ letters k).length) := by
      rw [hlen]; unfold sizeofSuffix; simp [TIFF_SUFFIX]
    rw [if_neg this, if_pos rfl]
  have h4 : p.length + 3 < p.length + 3 + sizeofSuffix := by unfold sizeofSuffix; omega
  rw [h1]
  simp only [h2, if_true, h3, hc, hlen, h4]
  have h5 : p.length + 3 + sizeofSuffix - (p.length + 3) - 1 = 4 := by
    unfold sizeofSuffix; simp [TIFF_SUFFIX]
  have h6 : cstr TIFF_SUFFIX = TIFF_SUFFIX := cstr_self _ hsuf
  have h7 : List.take 4 TIFF_SUFFIX = TIFF_SUFFIX := rfl
  have h8 : TIFF_SUFFIX.length = 4 := rfl
  unfold strncat
  simp only [h5, hc, hlen, h6, h7, h8]
  have h9 : p.length + 3 + 4 + 1 ≤ p.length + 3 + sizeofSuffix := by
    unfold sizeofSuffix; simp [TIFF_SUFFIX]
  simp only [h9, if_true, hc2, pathOf]

/-- One turn of the loop when the name and the path come out as expected. -/
theorem splitPages_step (w : World) (fnum : Nat) (nm nm1 : Namer) (cur : TIFF) (rest : List TIFF)
    (path : List Nat) (hn : newfilename (fnum : Int) nm = .ok nm1)
    (hp : outputPath (w.pathAlloc fnum) nm1.fname = .ok path) :
    splitPages w fnum nm cur rest =
      match w.openOut fnum path w.isBigEndian with
      | none =>
        { result := .ok EXIT_FAILURE,
          log := [Event.malloc (pathLen nm1.fname), Event.openOut path w.isBigEndian,
            Event.free] }
      | some out =>
        if (tiffcp (w.mem fnum) cur out).1.1 = 0 then
          { result := .ok EXIT_FAILURE,
            log := Event.malloc (pathLen nm1.fname) :: Event.openOut path w.isBigEndian ::
              Event.free :: (tiffcp (w.mem fnum) cur out).1.2 }
        else
          Run.after (Event.malloc (pathLen nm1.fname) :: Event.openOut path w.isBigEndian ::
              Event.free :: ((tiffcp (w.mem fnum) cur out).1.2 ++ [Event.closeOut]))
            (match rest with
             | [] => { result := .ok EXIT_SUCCESS, log := [Event.closeIn] }
             | nxt :: rest1 => splitPages w (fnum + 1) nm1 nxt rest1) := by
  cases rest <;> (rw [splitPages]; simp only [hn, hp])

theorem outputPath_early_of_ok (alloc : Int → Bool) (p : List Nat) (d : Int) (k : Nat)
    (hnz : ∀ c ∈ p, c ≠ 0) (hl : p.length + 3 < PATH_LENGTH) (path : List Nat)
    (h : outputPath alloc (earlyState p d k).fname = .ok path) : path = pathOf p k := by
  by_cases ha : alloc ((p.length + 3 + sizeofSuffix : Nat) : Int) = true
  · rw [outputPath_early alloc p d k hnz hl ha] at h
    cases h
    rfl
  · exfalso
    have hc := cstr_stem_letters p k hnz
    have hlen : (p ++ letters k).length = p.length + 3 := by simp [letters]
    unfold outputPath at h
    simp only [earlyState, strlen, hc, hlen, hl, if_true, bind, Except.bind, ha] at h
    cases h

theorem outPaths_turn (n : Int) (path : List Nat) (big : Bool) (l : List Event) (R : Run)
    (hl : outPaths l = []) :
    outPaths (Run.after (Event.malloc n :: Event.openOut path big :: Event.free ::
        (l ++ [Event.closeOut])) R).log
      = path :: outPaths R.log := by
  simp [Run.after, outPaths, outPaths_append, hl]

/-- The paths opened by the loop from page counter `fnum` on: the first is the
path of `fnum`, the others are those of the rest of the loop. -/
theorem splitPages_outPaths (w : World) (p : List Nat) (d : Int)
    (hnz : ∀ c ∈ p, c ≠ 0) (hl : p.length + 3 < PATH_LENGTH)
    (fnum : Nat) (nm : Namer) (cur : TIFF) (rest : List TIFF)
    (hn : newfilename (fnum : Int) nm = .ok (earlyState p d fnum)) :
    outPaths (splitPages w fnum nm cur rest).log = [] ∨
    outPaths (splitPages w fnum nm cur rest).log = [pathOf p fnum] ∨
    ∃ nxt rest1, rest = nxt :: rest1 ∧
      outPaths (splitPages w fnum nm cur rest).log
        = pathOf p fnum :: outPaths (splitPages w (fnum + 1) (earlyState p d fnum) nxt rest1).log := by
  cases hp : outputPath (w.pathAlloc fnum) (earlyState p d fnum).fname with
  | error a =>
    left
    cases rest <;> (rw [splitPages]; simp only [hn, hp]; split <;> rfl)
  | ok path0 =>
    have hp0 := outputPath_early_of_ok _ p d fnum hnz hl path0 hp
    subst hp0
    rw [splitPages_step w fnum nm _ cur rest _ hn hp]
    cases w.openOut fnum (pathOf p fnum) w.isBigEndian with
    | none => right; left; rfl
    | some out =>
      simp only
      by_cases hr : (tiffcp (w.mem fnum) cur out).1.1 = 0
      · right; left
        rw [if_pos hr]
        simp [outPaths, outPaths_tiffcp]
      · rw [if_neg hr]
        cases rest with
        | nil =>
          right; left
          rw [outPaths_turn _ _ _ _ _ (outPaths_tiffcp _ _ _)]
          rfl
        | cons nxt rest1 =>
          right; right
          exact ⟨nxt, rest1, rfl, outPaths_turn _ _ _ _ _ (outPaths_tiffcp _ _ _)⟩

/-- Every path the loop opens for writing is the path of its page counter. -/
theorem splitPages_paths (w : World) (p : List Nat) (d : Int)
    (hnz : ∀ c ∈ p, c ≠ 0) (hl : p.length + 3 < PATH_LENGTH) (rest : List TIFF) :
    ∀ (fnum : Nat) (nm : Namer) (cur : TIFF),
      newfilename (fnum : Int) nm = .ok (earlyState p d fnum) →
      ∀ j path, fnum + j < 17576 →
        (outPaths (splitPages w fnum nm cur rest).log)[j]? = some path →
        path = pathOf p (fnum + j) := by
  induction rest with
  | nil =>
    intro fnum nm cur hn j path hj hget
    rcases splitPages_outPaths w p d hnz hl fnum nm cur [] hn with h | h | ⟨nxt, rest1, h, _⟩
    · rw [h] at hget; simp at hget
    · rw [h] at hget
      cases j with
      | zero => simp at hget; exact hget.symm
      | succ j => simp at hget
    · cases h
  | cons nxt rest1 ih =>
    intro fnum nm cur hn j path hj hget
    rcases splitPages_outPaths w p d hnz hl fnum nm cur (nxt :: rest1) hn with
      h | h | ⟨nxt2, rest2, h, h2⟩
    · rw [h] at hget; simp at hget
    · rw [h] at hget
      cases j with
      | zero => simp at hget; exact hget.symm
      | succ j => simp at hget
    · cases h
      rw [h2] at hget
      cases j with
      | zero => simp at hget; exact hget.symm
      | succ j =>
        simp only [List.getElem?_cons_succ] at hget
        have hstep := newfilename_early p d fnum (by omega) (by omega)
        have := ih (fnum + 1) (earlyState p d fnum) nxt hstep j path (by omega) hget
        rw [this]
        congr 1
        omega

theorem exit_codes_ne : (Except.ok EXIT_FAILURE : Except Abort Int) ≠ .ok EXIT_SUCCESS := by
  intro h
  cases h

/-- The loop returns `EXIT_SUCCESS` exactly when every page's output opens and
its `tiffcp` does not return 0, and returns `EXIT_FAILURE` otherwise; on success
it opened the path of every page counter in turn. Page counters stay below
17576 and no path allocation fails. -/
theorem splitPages_result (w : World) (p : List Nat) (d : Int)
    (hnz : ∀ c ∈ p, c ≠ 0) (hl : p.length + 3 < PATH_LENGTH)
    (hpa : ∀ k, w.pathAlloc k ((p.length + 3 + sizeofSuffix : Nat) : Int) = true)
    (rest : List TIFF) :
    ∀ (fnum : Nat) (nm : Namer) (cur : TIFF),
      newfilename (fnum : Int) nm = .ok (earlyState p d fnum) →
      fnum + rest.length < 17576 →
      ((splitPages w fnum nm cur rest).result = .ok EXIT_SUCCESS ∨
        (splitPages w fnum nm cur rest).result = .ok EXIT_FAILURE) ∧
      ((splitPages w fnum nm cur rest).result = .ok EXIT_SUCCESS ↔
        ∀ j pg, (cur :: rest)[j]? = some pg →
          ∃ out, w.openOut (fnum + j) (pathOf p (fnum + j)) w.isBigEndian = some out ∧
            (tiffcp (w.mem (fnum + j)) pg out).1.1 ≠ 0) ∧
      ((splitPages w fnum nm cur rest).result = .ok EXIT_SUCCESS →
        outPaths (splitPages w fnum nm cur rest).log
          = (List.range' fnum (rest.length + 1)).map (pathOf p)) := by
  induction rest with
  | nil =>
    intro fnum nm cur hn _
    rw [splitPages_step w fnum nm _ cur [] _ hn (outputPath_early _ p d fnum hnz hl (hpa fnum))]
    cases ho : w.openOut fnum (pathOf p fnum) w.isBigEndian with
    | none =>
      refine ⟨Or.inr rfl, ⟨fun h => absurd h exit_codes_ne, fun h => ?_⟩,
        fun h => absurd h exit_codes_ne⟩
      obtain ⟨out, h1, _⟩ := h 0 cur rfl
      rw [Nat.add_zero, ho] at h1
      cases h1
    | some out =>
      simp only
      by_cases hr : (tiffcp (w.mem fnum) cur out).1.1 = 0
      · rw [if_pos hr]
        refine ⟨Or.inr rfl, ⟨fun h => absurd h exit_codes_ne, fun h => ?_⟩,
          fun h => absurd h exit_codes_ne⟩
        obtain ⟨out1, h1, h2⟩ := h 0 cur rfl
        rw [Nat.add_zero, ho] at h1
        cases h1
        exact absurd hr h2
      · rw [if_neg hr]
        refine ⟨Or.inl rfl, ⟨fun _ => ?_, fun _ => rfl⟩, fun _ => ?_⟩
        · intro j pg hj
          cases j with
          | zero =>
            simp only [List.getElem?_cons_zero, Option.some.injEq] at hj
            subst hj
            exact ⟨out, ho, hr⟩
          | succ j => simp at hj
        · rw [outPaths_turn _ _ _ _ _ (outPaths_tiffcp _ _ _)]
          rfl
  | cons nxt rest1 ih =>
    intro fnum nm cur hn hlt
    simp only [List.length_cons] at hlt
    rw [splitPages_step w fnum nm _ cur _ _ hn (outputPath_early _ p d fnum hnz hl (hpa fnum))]
    cases ho : w.openOut fnum (pathOf p fnum) w.isBigEndian with
    | none =>
      refine ⟨Or.inr rfl, ⟨fun h => absurd h exit_codes_ne, fun h => ?_⟩,
        fun h => absurd h exit_codes_ne⟩
      obtain ⟨out, h1, _⟩ := h 0 cur rfl
      rw [Nat.add_zero, ho] at h1
      cases h1
    | some out =>
      simp only
      by_cases hr : (tiffcp (w.mem fnum) cur out).1.1 = 0
      · rw [if_pos hr]
        refine ⟨Or.inr rfl, ⟨fun h => absurd h exit_codes_ne, fun h => ?_⟩,
          fun h => absurd h exit_codes_ne⟩
        obtain ⟨out1, h1, h2⟩ := h 0 cur rfl
        rw [Nat.add_zero, ho] at h1
        cases h1
        exact absurd hr h2
      · rw [if_neg hr]
        have hstep := newfilename_early p d fnum (by omega) (by omega)
        obtain ⟨i1, i2, i3⟩ := ih (fnum + 1) (earlyState p d fnum) nxt hstep (by omega)
        refine ⟨i1, ⟨fun h => ?_, fun h => ?_⟩, fun h => ?_⟩
        · intro j pg hj
          cases j with
          | zero =>
            simp only [List.getElem?_cons_zero, Option.some.injEq] at hj
            subst hj
            exact ⟨out, ho, hr⟩
          | succ j =>
            simp only [List.getElem?_cons_succ] at hj
            have := i2.mp h j pg hj
            rw [show fnum + (j + 1) = fnum + 1 + j by omega]
            exact this
        · apply i2.mpr
          intro j pg hj
          have := h (j + 1) pg (by simpa using hj)
          rw [show fnum + (j + 1) = fnum + 1 + j by omega] at this
          exact this
        · rw [outPaths_turn _ _ _ _ _ (outPaths_tiffcp _ _ _), i3 h]
          simp [List.range'_succ]

/-! ## `main` -/

theorem main_opened (w : World) (argv : List (List Nat)) (first : TIFF) (rest : List TIFF)
    (h : 2 ≤ argv.length) (ho : w.openIn (cstr (argv.getD 1 [])) = some (first, rest)) :
    main w argv = Run.after [Event.openIn (cstr (argv.getD 1 []))]
      (splitPages w 0 (namerInit argv) first rest) := by
  unfold main
  rw [if_neg (by omega), ho]

/-- The paths `main` opens for writing are those its loop opens. -/
theorem main_outPaths (w : World) (argv : List (List Nat)) :
    outPaths (main w argv).log = [] ∨
    ∃ first rest, 2 ≤ argv.length ∧ w.openIn (cstr (argv.getD 1 [])) = some (first, rest) ∧
      outPaths (main w argv).log = outPaths (splitPages w 0 (namerInit argv) first rest).log := by
  by_cases h : argv.length < 2
  · left; unfold main; rw [if_pos h]; rfl
  · cases ho : w.openIn (cstr (argv.getD 1 [])) with
    | none => left; unfold main; rw [if_neg h, ho]; rfl
    | some fr =>
      right
      refine ⟨fr.1, fr.2, by omega, rfl, ?_⟩
      rw [main_opened w argv fr.1 fr.2 (by omega) ho]
      simp [Run.after, outPaths]

/-- The path `main` opens for page counter `k < 17576` is stem, letters, ".tif". -/
theorem main_paths (w : World) (argv : List (List Nat)) (p : List Nat) (hs : StemOf argv p)
    (k : Nat) (hk : k < 17576) (path : List Nat)
    (h : (outPaths (main w argv).log)[k]? = some path) : path = pathOf p k := by
  obtain ⟨d, _, h0, _⟩ := namerRun_stem argv p hs
  rcases main_outPaths w argv with h1 | ⟨first, rest, _, _, h1⟩
  · rw [h1] at h; simp at h
  · rw [h1] at h
    have := splitPages_paths w p d hs.no_nul hs.length_le rest 0 (namerInit argv) first
      (by simpa using h0) k path (by omega) h
    simpa using this

/-- The exit status of `main` on a container of at most 17576 pages, when the
stem fits and no path allocation fails. -/
theorem main_result (w : World) (argv : List (List Nat)) (p : List Nat) (hs : StemOf argv p)
    (hpa : ∀ k, w.pathAlloc k ((p.length + 3 + sizeofSuffix : Nat) : Int) = true)
    (first : TIFF) (rest : List TIFF) (h2 : 2 ≤ argv.length)
    (ho : w.openIn (cstr (argv.getD 1 [])) = some (first, rest)) (hn : rest.length < 17576) :
    ((main w argv).result = .ok EXIT_SUCCESS ∨ (main w argv).result = .ok EXIT_FAILURE) ∧
    ((main w argv).result = .ok EXIT_SUCCESS ↔
      ∀ j pg, (first :: rest)[j]? = some pg →
        ∃ out, w.openOut j (pathOf p j) w.isBigEndian = some out ∧
          (tiffcp (w.mem j) pg out).1.1 ≠ 0) ∧
    ((main w argv).result = .ok EXIT_SUCCESS →
      outPaths (main w argv).log = (List.range (rest.length + 1)).map (pathOf p)) := by
  obtain ⟨d, _, h0, _⟩ := namerRun_stem argv p hs
  obtain ⟨i1, i2, i3⟩ := splitPages_result w p d hs.no_nul hs.length_le hpa rest 0
    (namerInit argv) first (by simpa using h0) (by omega)
  rw [main_opened w argv first rest h2 ho]
  simp only [Nat.zero_add] at i2
  refine ⟨i1, i2, fun h => ?_⟩
  have := i3 h
  rw [List.range_eq_range', ← this]
  simp [Run.after, outPaths]

theorem toU64_toTmsize (n : Nat) : toU64 (toTmsize n) = n % 2 ^ 64 := by
  unfold toU64 toTmsize
  split <;> omega

/-- After the growth step the tracked capacity covers the byte count, and it is
the larger of the old capacity and the byte count, as `uint64` values. -/
theorem cpGrow_bufsize (m : Mem) (bc : Nat → Nat) (s : Nat) (x x1 : Xfer)
    (h : (cpGrow m bc s x).2 = some x1) :
    toU64 x1.bufsize = max (toU64 x.bufsize) (bc s % 2 ^ 64) := by
  unfold cpGrow at h
  split at h
  · rename_i hgt
    split at h
    · simp only [Option.some.injEq] at h
      subst h
      simp only [toU64_toTmsize]
      omega
    · simp at h
  · rename_i hle
    simp only [Option.some.injEq] at h
    subst h
    omega

theorem cpMove_bufsize (r : Regions) (bc : Nat → Nat) (s : Nat) (x x1 : Xfer)
    (h : (cpMove r bc s x).2 = some x1) : x1.bufsize = x.bufsize := by
  rcases cpMove_cases r bc s x with ⟨_, h2⟩ | ⟨d, _, _, h2⟩ | ⟨d, _, _, h2⟩
  · rw [h2] at h; simp at h
  · rw [h2] at h; simp at h
  · rw [h2] at h
    simp only [Option.some.injEq] at h
    subst h
    rfl

/-- One pass of the loop body takes the capacity to the larger of the old
capacity and the region's byte count. -/
theorem cpStep_bufsize (m : Mem) (r : Regions) (bc : Nat → Nat) (s : Nat) (x x2 : Xfer)
    (h : (cpStep m r bc s x).2 = some x2) :
    toU64 x2.bufsize = max (toU64 x.bufsize) (bc s % 2 ^ 64) := by
  unfold cpStep at h
  cases hg : cpGrow m bc s x with
  | mk ev res =>
    rw [hg] at h
    cases res with
    | none => simp at h
    | some x1 =>
      simp only at h
      have h1 := cpGrow_bufsize m bc s x x1 (by rw [hg])
      have h2 := cpMove_bufsize r bc s x1 x2 h
      rw [h2, h1]

theorem maxCount_succ (bc : Nat → Nat) (init n : Nat) :
    maxCount bc init (n + 1) = max (maxCount bc init n) (bc n % 2 ^ 64) := by
  unfold maxCount
  rw [List.range_succ, List.foldl_append]
  rfl

/-- The capacity after `n` regions is the largest of the initial size and the
byte counts so far. -/
theorem cpLocals_bufsize (m : Mem) (r : Regions) (bc : Nat → Nat) (n : Nat) :
    ∀ x, cpLocals m r bc n = some x → toU64 x.bufsize = maxCount bc (toU64 r.size) n := by
  induction n with
  | zero =>
    intro x h
    simp only [cpLocals, Option.some.injEq] at h
    subst h
    rfl
  | succ n ih =>
    intro x h
    rw [cpLocals] at h
    cases hl : cpLocals m r bc n with
    | none => rw [hl] at h; simp at h
    | some x0 =>
      rw [hl] at h
      simp only [Option.bind] at h
      rw [cpStep_bufsize m r bc n x0 x h, ih x0 hl, maxCount_succ]

/-- The growth step sets the capacity to exactly the byte count when that
exceeds it, and leaves it alone otherwise. -/
theorem cpGrow_bufsize_eq (m : Mem) (bc : Nat → Nat) (s : Nat) (x x1 : Xfer)
    (h : (cpGrow m bc s x).2 = some x1) :
    x1.bufsize = if bc s % 2 ^ 64 > toU64 x.bufsize then toTmsize (bc s) else x.bufsize := by
  unfold cpGrow at h
  split at h
  · rename_i hgt
    split at h
    · simp only [Option.some.injEq] at h
      subst h
      rw [if_pos hgt]
    · simp at h
  · rename_i hgt
    simp only [Option.some.injEq] at h
    subst h
    rw [if_neg hgt]

theorem cpStep_bufsize_eq (m : Mem) (r : Regions) (bc : Nat → Nat) (s : Nat) (x x2 : Xfer)
    (h : (cpStep m r bc s x).2 = some x2) :
    x2.bufsize = if bc s % 2 ^ 64 > toU64 x.bufsize then toTmsize (bc s) else x.bufsize := by
  unfold cpStep at h
  cases hg : cpGrow m bc s x with
  | mk ev res =>
    rw [hg] at h
    cases res with
    | none => simp at h
    | some x1 =>
      simp only at h
      rw [cpMove_bufsize r bc s x1 x2 h]
      exact cpGrow_bufsize_eq m bc s x x1 (by rw [hg])

/-- A raw read or write of one pass of the loop body is made after a growth
step that did not return, for the region of the pass and its byte count. -/
theorem cpStep_raw_events (m : Mem) (r : Regions) (bc : Nat → Nat) (s : Nat) (x : Xfer)
    (e : Event) (he : e ∈ (cpStep m r bc s x).1)
    (hraw : (∃ t n, e = Event.readRaw t n) ∨ (∃ t n b, e = Event.writeRaw t n b)) :
    (∃ x1, (cpGrow m bc s x).2 = some x1) ∧
    (e = Event.readRaw s (toTmsize (bc s)) ∨ ∃ b, e = Event.writeRaw s (toTmsize (bc s)) b) := by
  obtain ⟨hg1, _⟩ := cpGrow_cases m bc s x
  have hgno : ∀ a ∈ (cpGrow m bc s x).1, a = Event.realloc (toTmsize (bc s)) := by
    intro a ha
    rcases hg1 with hg | hg
    · rw [hg] at ha; simp at ha
    · rw [hg] at ha; simpa using ha
  have hnot : e ≠ Event.realloc (toTmsize (bc s)) := by
    intro h
    rcases hraw with ⟨t, n, h1⟩ | ⟨t, n, b, h1⟩ <;> (rw [h1] at h; cases h)
  have hnf : e ≠ Event.free := by
    intro h
    rcases hraw with ⟨t, n, h1⟩ | ⟨t, n, b, h1⟩ <;> (rw [h1] at h; cases h)
  unfold cpStep at he
  cases hg : cpGrow m bc s x with
  | mk ev res =>
    rw [hg] at he hgno
    cases res with
    | none => exact absurd (hgno e he) hnot
    | some x1 =>
      refine ⟨⟨x1, rfl⟩, ?_⟩
      simp only at he
      rcases List.mem_append.mp he with h1 | h1
      · exact absurd (hgno e h1) hnot
      · rcases cpMove_cases r bc s x1 with ⟨_, h2⟩ | ⟨d, _, _, h2⟩ | ⟨d, _, _, h2⟩
        · rw [h2] at h1
          simp only [List.mem_cons, List.mem_singleton, List.not_mem_nil, or_false] at h1
          rcases h1 with h1 | h1
          · left; exact h1
          · exact absurd h1 hnf
        · rw [h2] at h1
          simp only [List.mem_cons, List.mem_singleton, List.not_mem_nil, or_false] at h1
          rcases h1 with h1 | h1 | h1
          · left; exact h1
          · right; exact ⟨_, h1⟩
          · exact absurd h1 hnf
        · rw [h2] at h1
          simp only [List.mem_cons, List.mem_singleton, List.not_mem_nil, or_false] at h1
          rcases h1 with h1 | h1
          · left; exact h1
          · right; exact ⟨_, h1⟩

theorem fresh_length (m : Mem) (n : Nat) : (fresh m n).length = n := by
  simp [fresh]

theorem resized_length (m : Mem) (buf : List Nat) (n : Nat) : (resized m buf n).length = n := by
  simp only [resized, List.length_take, List.length_append, List.length_drop, fresh_length]
  omega

/-- The growth step leaves a buffer at least as long as the tracked capacity. -/
theorem cpGrow_buf (m : Mem) (bc : Nat → Nat) (s : Nat) (x x1 : Xfer)
    (h : (cpGrow m bc s x).2 = some x1) (hx : toU64 x.bufsize ≤ x.buf.length) :
    toU64 x1.bufsize ≤ x1.buf.length := by
  unfold cpGrow at h
  split at h
  · split at h
    · simp only [Option.some.injEq] at h
      subst h
      simp only [resized_length]
      exact le_refl _
    · simp at h
  · simp only [Option.some.injEq] at h
    subst h
    exact hx

/-- The read and write of a region keep the tracked capacity and do not
shorten the buffer. -/
theorem cpMove_buf (r : Regions) (bc : Nat → Nat) (s : Nat) (x x2 : Xfer)
    (h : (cpMove r bc s x).2 = some x2) :
    x2.bufsize = x.bufsize ∧ x.buf.length ≤ x2.buf.length := by
  rcases cpMove_cases r bc s x with ⟨_, h2⟩ | ⟨d, _, _, h2⟩ | ⟨d, _, _, h2⟩
  · rw [h2] at h; simp at h
  · rw [h2] at h; simp at h
  · rw [h2] at h
    simp only [Option.some.injEq] at h
    subst h
    simp only [List.length_append, List.length_drop]
    exact ⟨trivial, by omega⟩

theorem cpStep_buf (m : Mem) (r : Regions) (bc : Nat → Nat) (s : Nat) (x x2 : Xfer)
    (h : (cpStep m r bc s x).2 = some x2) (hx : toU64 x.bufsize ≤ x.buf.length) :
    toU64 x2.bufsize ≤ x2.buf.length := by
  unfold cpStep at h
  cases hg : cpGrow m bc s x with
  | mk ev res =>
    rw [hg] at h
    cases res with
    | none => simp at h
    | some x1 =>
      simp only at h
      have h1 := cpGrow_buf m bc s x x1 (by rw [hg]) hx
      obtain ⟨h2, h3⟩ := cpMove_buf r bc s x1 x2 h
      rw [h2]
      omega

/-- At the head of every pass of the loop the buffer is at least as long as
the tracked capacity. -/
theorem cpLocals_buf (m : Mem) (r : Regions) (bc : Nat → Nat) :
    ∀ n x, cpLocals m r bc n = some x → toU64 x.bufsize ≤ x.buf.length := by
  intro n
  induction n with
  | zero =>
    intro x h
    simp only [cpLocals, Option.some.injEq] at h
    subst h
    simp [fresh_length]
  | succ n ih =>
    intro x h
    rw [cpLocals] at h
    cases hn : cpLocals m r bc n with
    | none => rw [hn] at h; simp at h
    | some x0 =>
      rw [hn] at h
      simp only [Option.bind] at h
      exact cpStep_buf m r bc n x0 x h (ih x0 hn)

/-- The pass of the loop body is the growth step followed by the read and write
with the locals the growth step returned. -/
theorem cpStep_eq (m : Mem) (r : Regions) (bc : Nat → Nat) (s : Nat) (x x1 : Xfer)
    (h : (cpGrow m bc s x).2 = some x1) :
    cpStep m r bc s x
      = ((cpGrow m bc s x).1 ++ (cpMove r bc s x1).1, (cpMove r bc s x1).2) := by
  unfold cpStep
  cases hg : cpGrow m bc s x with
  | mk ev res =>
    rw [hg] at h
    simp only at h
    subst h
    rfl

/-- A raw read or write in the calls of one pass is a call of the read and
write made with the locals the growth step returned. -/
theorem cpStep_raw_mem (m : Mem) (r : Regions) (bc : Nat → Nat) (s : Nat) (x : Xfer)
    (e : Event) (he : e ∈ (cpStep m r bc s x).1)
    (hraw : (∃ t n, e = Event.readRaw t n) ∨ (∃ t n b, e = Event.writeRaw t n b)) :
    ∃ x1, (cpGrow m bc s x).2 = some x1 ∧ e ∈ (cpMove r bc s x1).1 := by
  obtain ⟨⟨x1, hx1⟩, _⟩ := cpStep_raw_events m r bc s x e he hraw
  refine ⟨x1, hx1, ?_⟩
  rw [cpStep_eq m r bc s x x1 hx1] at he
  rcases List.mem_append.mp he with h | h
  · exfalso
    obtain ⟨hg1, _⟩ := cpGrow_cases m bc s x
    rcases hg1 with hg | hg
    · rw [hg] at h; simp at h
    · rw [hg] at h
      simp only [List.mem_singleton] at h
      rcases hraw with ⟨t, n, h1⟩ | ⟨t, n, b, h1⟩ <;> (rw [h1] at h; cases h)
  · exact h

/-- Every raw read and write of the loop, started at the head of pass `n`, is
made in some pass `t` with the locals the growth step of that pass returned. -/
theorem cpLoop_raw_locals (m : Mem) (r : Regions) (bc : Nat → Nat) (k : Nat) :
    ∀ n x, cpLocals m r bc n = some x → ∀ e ∈ (cpLoop m r bc k n x).2,
      ((∃ t n1, e = Event.readRaw t n1) ∨ (∃ t n1 b, e = Event.writeRaw t n1 b)) →
      ∃ t xt xt1, cpLocals m r bc t = some xt ∧ (cpGrow m bc t xt).2 = some xt1 ∧
        e ∈ (cpMove r bc t xt1).1 ∧
        (e = Event.readRaw t (toTmsize (bc t)) ∨ ∃ b, e = Event.writeRaw t (toTmsize (bc t)) b) := by
  induction k with
  | zero =>
    intro n x _ e he hraw
    simp only [cpLoop, List.mem_singleton] at he
    rcases hraw with ⟨t, n1, h1⟩ | ⟨t, n1, b, h1⟩ <;> (rw [h1] at he; cases he)
  | succ k ih =>
    intro n x hx e he hraw
    have hstep : ∀ e1 ∈ (cpStep m r bc n x).1,
        ((∃ t n1, e1 = Event.readRaw t n1) ∨ (∃ t n1 b, e1 = Event.writeRaw t n1 b)) →
        ∃ t xt xt1, cpLocals m r bc t = some xt ∧ (cpGrow m bc t xt).2 = some xt1 ∧
          e1 ∈ (cpMove r bc t xt1).1 ∧
          (e1 = Event.readRaw t (toTmsize (bc t)) ∨
            ∃ b, e1 = Event.writeRaw t (toTmsize (bc t)) b) := by
      intro e1 he1 hraw1
      obtain ⟨x1, hx1, hm⟩ := cpStep_raw_mem m r bc n x e1 he1 hraw1
      exact ⟨n, x, x1, hx, hx1, hm, (cpStep_raw_events m r bc n x e1 he1 hraw1).2⟩
    rw [cpLoop] at he
    cases hs : cpStep m r bc n x with
    | mk ev res =>
      rw [hs] at he hstep
      cases res with
      | none => exact hstep e he hraw
      | some x1 =>
        simp only at he
        rcases List.mem_append.mp he with h | h
        · exact hstep e h hraw
        · have hn1 : cpLocals m r bc (n + 1) = some x1 := by
            rw [cpLocals, hx]
            simp only [Option.bind, hs]
          exact ih (n + 1) x1 hn1 e h hraw

/-- Every raw read and write of the region copy is made in some pass `t` of the
loop with the locals the growth step of that pass returned. -/
theorem cpRegions_raw_locals (m : Mem) (r : Regions) (bc : Nat → Nat)
    (hbc : r.bytecounts = some bc) (e : Event) (he : e ∈ (cpRegions m r).2)
    (hraw : (∃ t n1, e = Event.readRaw t n1) ∨ (∃ t n1 b, e = Event.writeRaw t n1 b)) :
    ∃ t xt xt1, cpLocals m r bc t = some xt ∧ (cpGrow m bc t xt).2 = some xt1 ∧
      e ∈ (cpMove r bc t xt1).1 ∧
      (e = Event.readRaw t (toTmsize (bc t)) ∨ ∃ b, e = Event.writeRaw t (toTmsize (bc t)) b) := by
  by_cases hm : m.malloc r.size = true
  · rw [cpRegions_eq_loop m r bc hm hbc] at he
    simp only [List.mem_cons] at he
    rcases he with he | he
    · rcases hraw with ⟨t, n1, h1⟩ | ⟨t, n1, b, h1⟩ <;> (rw [h1] at he; cases he)
    · exact cpLoop_raw_locals m r bc r.count 0 _ rfl e he hraw
  · rw [cpRegions_eq_no_buffer m r hm] at he
    simp only [List.mem_singleton] at he
    rcases hraw with ⟨t, n1, h1⟩ | ⟨t, n1, b, h1⟩ <;> (rw [h1] at he; cases he)

/-! # The claims -/

/-- Claim C1 (region transfer fidelity). When raw reads return the number of
bytes asked for, a `cpStrips` (resp. `cpTiles`) that returns 1 found the
byte-count table and made exactly one raw write per region, at the indices
`0, 1, ..., N-1` in that order, and the bytes written to index `s` are the bytes
the raw read of region `s` returned, `bytecounts[s]` of them. -/
theorem C1_region_transfer_fidelity (m : Mem) (i : TIFF) (o : TIFFOut)
    (hs : ∀ s n d, i.readRawStrip s n = some d → d.length = n.toNat)
    (ht : ∀ s n d, i.readRawTile s n = some d → d.length = n.toNat) :
    ((cpStrips m i o).1 = 1 →
      ∃ bc, i.stripByteCounts = some bc ∧
        rawWrites (cpStrips m i o).2
          = (List.range i.numberOfStrips).map
              (fun s => (s, (i.readRawStrip s (toTmsize (bc s))).getD [])) ∧
        ∀ s, s < i.numberOfStrips → ∃ d, i.readRawStrip s (toTmsize (bc s)) = some d ∧
          d.length = (toTmsize (bc s)).toNat ∧ (bc s < 2 ^ 63 → d.length = bc s)) ∧
    ((cpTiles m i o).1 = 1 →
      ∃ bc, i.tileByteCounts = some bc ∧
        rawWrites (cpTiles m i o).2
          = (List.range i.numberOfTiles).map
              (fun s => (s, (i.readRawTile s (toTmsize (bc s))).getD [])) ∧
        ∀ s, s < i.numberOfTiles → ∃ d, i.readRawTile s (toTmsize (bc s)) = some d ∧
          d.length = (toTmsize (bc s)).toNat ∧ (bc s < 2 ^ 63 → d.length = bc s)) := by
  constructor
  · intro hret
    obtain ⟨bc, h1, h2, _, h4⟩ := cpRegions_fidelity m (stripCalls i o) hs hret
    exact ⟨bc, h1, h2, h4⟩
  · intro hret
    obtain ⟨bc, h1, h2, _, h4⟩ := cpRegions_fidelity m (tileCalls i o) ht hret
    exact ⟨bc, h1, h2, h4⟩

/-- Witness of C1: the strip page with byte counts 2, 1, 4 is copied with
success, and the three writes carry the bytes read. -/
theorem C1_region_transfer_fidelity_witness :
    (∀ s n d, (stripPage [2, 1, 4]).readRawStrip s n = some d → d.length = n.toNat) ∧
    (∀ s n d, (stripPage [2, 1, 4]).readRawTile s n = some d → d.length = n.toNat) ∧
    (cpStrips memOk (stripPage [2, 1, 4]) outOk).1 = 1 ∧
    rawWrites (cpStrips memOk (stripPage [2, 1, 4]) outOk).2
      = [(0, [7, 7]), (1, [7]), (2, [7, 7, 7, 7])] := by
  have hex : ∀ (s : Nat) (n : Int) (d : List Nat),
      some (List.replicate n.toNat 7) = some d → d.length = n.toNat := by
    intro s n d h
    cases h
    simp
  have hret : (cpStrips memOk (stripPage [2, 1, 4]) outOk).1 = 1 := by decide
  obtain ⟨bc, h1, h2, _⟩ :=
    (C1_region_transfer_fidelity memOk (stripPage [2, 1, 4]) outOk hex hex).1 hret
  cases h1
  exact ⟨hex, hex, hret, h2⟩

/-- Counterexample to C2 as stated: the page `stripPage [2, 1, 4]` holds a
copyright string under tag 33432, the output is fresh, and after `tiffcp` the
output has nothing under that tag: not every tag present on the source is copied. -/
theorem C2_counterexample :
    (∀ t, outOk.fields t = none) ∧
    (stripPage [2, 1, 4]).getField 33432 = some (.text [67]) ∧
    (tiffcp memOk (stripPage [2, 1, 4]) outOk).2.fields 33432 = none := by
  refine ⟨fun _ => rfl, by decide, by decide⟩

/-- Claim C2, amended (tag copy). After `tiffcp` on a fresh output, every tag of
the fixed table of `CopyField` lines reads back from the output as it reads from
the source (present with the same value, or absent on both); every tag absent
on the source is absent on the output; a tag outside the table, other than the
JPEG tables, is absent on the output; and when the source has the compression
tag, the JPEG tables are on the output exactly when the compression is
`COMPRESSION_JPEG` and the source delivers them with a positive count and a
non-null pointer, and then with the source's value. -/
theorem C2_tag_copy (m : Mem) (i : TIFF) (o : TIFFOut) (hfresh : ∀ t, o.fields t = none) :
    (∀ t, t ∈ tagsUpToCompression ++ tagsAfterCompression →
      (tiffcp m i o).2.fields t = i.getField t) ∧
    (∀ t, i.getField t = none → (tiffcp m i o).2.fields t = none) ∧
    (∀ t, t ∉ tagsUpToCompression ++ tagsAfterCompression → t ≠ TIFFTAG_JPEGTABLES →
      (tiffcp m i o).2.fields t = none) ∧
    (∀ v, i.getField TIFFTAG_COMPRESSION = some (.scalar v) →
      ((tiffcp m i o).2.fields TIFFTAG_JPEGTABLES ≠ none ↔
        v = COMPRESSION_JPEG ∧
          ∃ c tbl, i.getField TIFFTAG_JPEGTABLES = some (.counted c (some tbl)) ∧ 0 < c) ∧
      ((tiffcp m i o).2.fields TIFFTAG_JPEGTABLES ≠ none →
        (tiffcp m i o).2.fields TIFFTAG_JPEGTABLES = i.getField TIFFTAG_JPEGTABLES)) := by
  have hfold : (tagsUpToCompression.foldl (CopyField i) o).fields TIFFTAG_JPEGTABLES = none := by
    rw [foldl_CopyField_fields, if_neg jpegtables_not_copied_by_table.1, hfresh]
  have hj := copyJpegTables_fields_jpeg m i (tagsUpToCompression.foldl (CopyField i) o) hfold
  rw [tiffcp_out]
  refine ⟨?_, ?_, ?_, ?_⟩
  · intro t ht
    have hne : t ≠ TIFFTAG_JPEGTABLES := by
      intro h
      subst h
      rcases List.mem_append.mp ht with h1 | h1
      · exact jpegtables_not_copied_by_table.1 h1
      · exact jpegtables_not_copied_by_table.2 h1
    rw [copyTags_fields_of_ne m i o hfresh t hne, if_pos ht]
  · intro t ht
    by_cases hne : t = TIFFTAG_JPEGTABLES
    · subst hne
      rw [copyTags_fields_jpeg]
      by_contra hcon
      obtain ⟨_, c, tbl, hg, _⟩ := hj.1.mp hcon
      rw [ht] at hg
      cases hg
    · rw [copyTags_fields_of_ne m i o hfresh t hne]
      split
      · exact ht
      · rfl
  · intro t ht hne
    rw [copyTags_fields_of_ne m i o hfresh t hne, if_neg ht]
  · intro v hv
    rw [copyTags_fields_jpeg]
    have hc : compressionLocal m i = v := by
      unfold compressionLocal
      rw [hv]
    rw [hc] at hj
    exact hj

/-- Witness of C2 amended: on the fresh output `outOk` the image width of the
page is copied and the absent compression tag stays absent. -/
theorem C2_tag_copy_witness :
    (∀ t, outOk.fields t = none) ∧
    (tiffcp memOk (stripPage [2, 1, 4]) outOk).2.fields TIFFTAG_IMAGEWIDTH = some (.scalar 10) ∧
    (tiffcp memOk (stripPage [2, 1, 4]) outOk).2.fields TIFFTAG_COMPRESSION = none :=
  ⟨fun _ => rfl,
   (C2_tag_copy memOk (stripPage [2, 1, 4]) outOk (fun _ => rfl)).1 TIFFTAG_IMAGEWIDTH (by decide),
   (C2_tag_copy memOk (stripPage [2, 1, 4]) outOk (fun _ => rfl)).2.1 TIFFTAG_COMPRESSION rfl⟩

/-- Claim C3 (name formula). For the stem `p` of the command line (the third
argument when it is a non-empty string that leaves room for three letters, the
default "x" otherwise) and every `k < 17576`: after the calls `newfilename(0)`,
..., `newfilename(k)` the name is `p` followed by the three letters
`'a' + k/676`, `'a' + (k/26 mod 26)`, `'a' + (k mod 26)`; in block `b` the call
`676*b + j` gives the letter `'a' + b` followed by the `j`-th pair of
`aa, ab, ..., zz`; the path `main` opens for page `k` is the name followed by
".tif"; and a run of `main` that succeeds opened these paths for all its pages,
in order. -/
theorem C3_name_formula (argv : List (List Nat)) (p : List Nat) (hs : StemOf argv p)
    (k : Nat) (hk : k < 17576) :
    nameAt argv k = .ok (p ++ [97 + k / 676, 97 + k / 26 % 26, 97 + k % 26]) ∧
    (∀ b j, b < 26 → j < 676 →
      nameAt argv (676 * b + j) = .ok (p ++ [97 + b, 97 + j / 26, 97 + j % 26])) ∧
    (∀ (w : World) (path : List Nat), (outPaths (main w argv).log)[k]? = some path →
      path = p ++ [97 + k / 676, 97 + k / 26 % 26, 97 + k % 26] ++ TIFF_SUFFIX) ∧
    (∀ (w : World) (first : TIFF) (rest : List TIFF),
      (∀ n, w.pathAlloc n ((p.length + 3 + sizeofSuffix : Nat) : Int) = true) →
      2 ≤ argv.length → w.openIn (cstr (argv.getD 1 [])) = some (first, rest) →
      rest.length < 17576 → (main w argv).result = .ok EXIT_SUCCESS →
      outPaths (main w argv).log
        = (List.range (rest.length + 1)).map
            (fun n => p ++ [97 + n / 676, 97 + n / 26 % 26, 97 + n % 26] ++ TIFF_SUFFIX)) := by
  refine ⟨nameAt_stem argv p hs k hk, ?_, ?_, ?_⟩
  · intro b j hb hj
    have h := nameAt_stem argv p hs (676 * b + j) (by omega)
    rw [h, letters]
    have e1 : (676 * b + j) / 676 = b := by omega
    have e2 : (676 * b + j) / 26 % 26 = j / 26 := by omega
    have e3 : (676 * b + j) % 26 = j % 26 := by omega
    rw [e1, e2, e3]
  · intro w path h
    exact main_paths w argv p hs k hk path h
  · intro w first rest hpa h2 ho hn hres
    exact (main_result w argv p hs hpa first rest h2 ho hn).2.2 hres

/-- Witness of C3: `tiffsplit in.tif img` on the three-page container `world3`
names page 2 "imgaac" and opens imgaaa.tif, imgaab.tif, imgaac.tif. -/
theorem C3_name_formula_witness :
    StemOf argvImg [105, 109, 103] ∧ 2 < 17576 ∧
    nameAt argvImg 2 = .ok [105, 109, 103, 97, 97, 99] ∧
    outPaths (main world3 argvImg).log
      = [[105, 109, 103, 97, 97, 97, 46, 116, 105, 102],
         [105, 109, 103, 97, 97, 98, 46, 116, 105, 102],
         [105, 109, 103, 97, 97, 99, 46, 116, 105, 102]] := by
  have hs : StemOf argvImg [105, 109, 103] :=
    Or.inr ⟨by decide, rfl, by decide, by decide, by decide⟩
  have hres : (main world3 argvImg).result = .ok EXIT_SUCCESS := by
    apply (main_result world3 argvImg [105, 109, 103] hs (fun _ => rfl) (stripPage [2, 1, 4])
      [stripPage [3], stripPage []] (by decide) rfl (by decide)).2.1.mpr
    intro j pg hj
    match j, hj with
    | 0, hj => cases hj; exact ⟨outOk, rfl, by decide⟩
    | 1, hj => cases hj; exact ⟨outOk, rfl, by decide⟩
    | 2, hj => cases hj; exact ⟨outOk, rfl, by decide⟩
    | j + 3, hj => simp at hj
  have h := C3_name_formula argvImg [105, 109, 103] hs 2 (by decide)
  exact ⟨hs, by decide, h.1,
    h.2.2.2 world3 (stripPage [2, 1, 4]) [stripPage [3], stripPage []] (fun _ => rfl)
      (by decide) rfl (by decide) hres⟩

/-- Claim C6 (abort on first failure). When the initial allocation and every
buffer growth succeed, `cpStrips` (resp. `cpTiles`) returns 1 exactly when the
byte-count table is there and, for every region index below the count, the raw
read succeeds and the raw write the function makes for it succeeds. The "if"
half in terms of the library alone: with the table there, when no call the
function made failed it returns 1, and when every read succeeds and every write
succeeds whatever the bytes, it returns 1 after reading and writing each region
once, in order. The result is 0 or 1; and a raw read or write that fails is
followed by `_TIFFfree(buf)` and nothing else, with result 0: no write after a
failed read, no call for a region of higher index, no second attempt. -/
theorem C6_abort_on_first_failure (m : Mem) (i : TIFF) (o : TIFFOut)
    (hre : ∀ s n, m.realloc s n = true) :
    (m.malloc i.stripSize = true →
      ((cpStrips m i o).1 = 1 ↔
        ∃ bc, i.stripByteCounts = some bc ∧ ∀ s, s < i.numberOfStrips →
          i.readRawStrip s (toTmsize (bc s)) ≠ none ∧
          ∃ b, Event.writeRaw s (toTmsize (bc s)) b ∈ (cpStrips m i o).2 ∧
            o.writeRawStrip s (toTmsize (bc s)) b = true) ∧
      (∀ bc, i.stripByteCounts = some bc →
        ((∀ e ∈ (cpStrips m i o).2, failed (stripCalls i o) e = false) →
          (cpStrips m i o).1 = 1) ∧
        ((∀ s, s < i.numberOfStrips → i.readRawStrip s (toTmsize (bc s)) ≠ none ∧
            ∀ b, o.writeRawStrip s (toTmsize (bc s)) b = true) →
          (cpStrips m i o).1 = 1 ∧ rawReads (cpStrips m i o).2 = List.range i.numberOfStrips ∧
            (rawWrites (cpStrips m i o).2).map Prod.fst = List.range i.numberOfStrips)) ∧
      ((cpStrips m i o).1 = 0 ∨ (cpStrips m i o).1 = 1) ∧
      (∀ pre e post, (cpStrips m i o).2 = pre ++ e :: post →
        failed (stripCalls i o) e = true → post = [Event.free] ∧ (cpStrips m i o).1 = 0)) ∧
    (m.malloc i.tileSize = true →
      ((cpTiles m i o).1 = 1 ↔
        ∃ bc, i.tileByteCounts = some bc ∧ ∀ s, s < i.numberOfTiles →
          i.readRawTile s (toTmsize (bc s)) ≠ none ∧
          ∃ b, Event.writeRaw s (toTmsize (bc s)) b ∈ (cpTiles m i o).2 ∧
            o.writeRawTile s (toTmsize (bc s)) b = true) ∧
      (∀ bc, i.tileByteCounts = some bc →
        ((∀ e ∈ (cpTiles m i o).2, failed (tileCalls i o) e = false) →
          (cpTiles m i o).1 = 1) ∧
        ((∀ s, s < i.numberOfTiles → i.readRawTile s (toTmsize (bc s)) ≠ none ∧
            ∀ b, o.writeRawTile s (toTmsize (bc s)) b = true) →
          (cpTiles m i o).1 = 1 ∧ rawReads (cpTiles m i o).2 = List.range i.numberOfTiles ∧
            (rawWrites (cpTiles m i o).2).map Prod.fst = List.range i.numberOfTiles)) ∧
      ((cpTiles m i o).1 = 0 ∨ (cpTiles m i o).1 = 1) ∧
      (∀ pre e post, (cpTiles m i o).2 = pre ++ e :: post →
        failed (tileCalls i o) e = true → post = [Event.free] ∧ (cpTiles m i o).1 = 0)) :=
  ⟨fun hms => ⟨cpRegions_success_iff m (stripCalls i o) hms hre,
     fun bc hbc => cpRegions_if m (stripCalls i o) hms hre bc hbc,
     cpRegions_ret m (stripCalls i o),
     fun pre e post h hf => cpRegions_abort m (stripCalls i o) pre post e h hf⟩,
   fun hmt => ⟨cpRegions_success_iff m (tileCalls i o) hmt hre,
     fun bc hbc => cpRegions_if m (tileCalls i o) hmt hre bc hbc,
     cpRegions_ret m (tileCalls i o),
     fun pre e post h hf => cpRegions_abort m (tileCalls i o) pre post e h hf⟩⟩

/-- Witness of C6: on `brokenPage` the read of strip 1 fails; `cpStrips` returns
0 and its calls end with that read and the release of the buffer, so strip 1 is
not written and strip 2 is not touched. On the strip page with byte counts 2,
1, 4, where every read and write succeeds, `cpStrips` returns 1 after the
strips 0, 1, 2. -/
theorem C6_abort_on_first_failure_witness :
    memOk.malloc brokenPage.stripSize = true ∧ (∀ s n, memOk.realloc s n = true) ∧
    (cpStrips memOk brokenPage outOk).2
      = [Event.malloc 3, Event.readRaw 0 2, Event.writeRaw 0 2 [7, 7]] ++
          Event.readRaw 1 1 :: [Event.free] ∧
    (cpStrips memOk brokenPage outOk).1 = 0 ∧
    (cpStrips memOk (stripPage [2, 1, 4]) outOk).1 = 1 ∧
    rawReads (cpStrips memOk (stripPage [2, 1, 4]) outOk).2 = List.range 3 :=
  ⟨rfl, fun _ _ => rfl, by decide,
   (((C6_abort_on_first_failure memOk brokenPage outOk (fun _ _ => rfl)).1 rfl).2.2.2
      [Event.malloc 3, Event.readRaw 0 2, Event.writeRaw 0 2 [7, 7]] (Event.readRaw 1 1)
      [Event.free] (by decide) (by decide)).2,
   ((((C6_abort_on_first_failure memOk (stripPage [2, 1, 4]) outOk
      (fun _ _ => rfl)).1 rfl).2.1 _ rfl).2
      (fun _ _ => ⟨by simp [stripPage], fun _ => rfl⟩)).1,
   ((((C6_abort_on_first_failure memOk (stripPage [2, 1, 4]) outOk
      (fun _ _ => rfl)).1 rfl).2.1 _ rfl).2
      (fun _ _ => ⟨by simp [stripPage], fun _ => rfl⟩)).2.1⟩

/-- Claim C7 (missing byte-count table). When the strip (resp. tile) byte-count
table cannot be obtained, `cpStrips` (resp. `cpTiles`) returns 0 and has made no
raw read and no raw write, whatever the number of regions. -/
theorem C7_missing_byte_counts (m : Mem) (i : TIFF) (o : TIFFOut) :
    (i.stripByteCounts = none →
      (cpStrips m i o).1 = 0 ∧ rawReads (cpStrips m i o).2 = [] ∧
        rawWrites (cpStrips m i o).2 = []) ∧
    (i.tileByteCounts = none →
      (cpTiles m i o).1 = 0 ∧ rawReads (cpTiles m i o).2 = [] ∧
        rawWrites (cpTiles m i o).2 = []) :=
  ⟨fun h => cpRegions_no_table m (stripCalls i o) h,
   fun h => cpRegions_no_table m (tileCalls i o) h⟩

/-- Witness of C7: `barePage` has two strips and no byte-count table; the copy
returns 0 after `malloc`, the message and `free`. -/
theorem C7_missing_byte_counts_witness :
    barePage.stripByteCounts = none ∧ barePage.numberOfStrips = 2 ∧
    (cpStrips memOk barePage outOk).1 = 0 ∧ rawReads (cpStrips memOk barePage outOk).2 = [] ∧
    rawWrites (cpStrips memOk barePage outOk).2 = [] :=
  ⟨rfl, rfl, (C7_missing_byte_counts memOk barePage outOk).1 rfl⟩

/-- Counterexample to C9 as stated: for `tiffsplit in.tif` (default stem) the
call with page counter 17576, the 17577th, does not fail. -/
theorem C9_counterexample :
    ¬ ∃ a, namerRun (namerInit argvPlain) 17577 = .error a := by
  rintro ⟨a, h⟩
  rw [namerRun_default_turn argvPlain (Or.inl (by decide))] at h
  cases h

/-- Claim C9, amended. With the default stem, once the 17576 names of the
calls `0..17575` have been produced (the last one is "xzzz"), the 17577th call
(page counter 17576) does not fail: it advances the leading character from 'x'
to 'y' and produces the name "yaaa". -/
theorem C9_default_stem_turns (argv : List (List Nat))
    (h : argv.length ≤ 2 ∨ argv.getD 2 [] = []) :
    nameAt argv 17575 = .ok [120, 122, 122, 122] ∧
    nameAt argv 17576 = .ok [121, 97, 97, 97] ∧
    namerRun (namerInit argv) 17577
      = .ok { fname := [121, 97, 97, 97], lastTurn := 0, defname := 1, fpnt := some 1 } := by
  refine ⟨?_, ?_, ?_⟩
  · unfold nameAt
    rw [namerRun_default argv h 17575 (by decide)]
    exact congrArg Except.ok (by decide)
  · unfold nameAt
    rw [namerRun_default_turn argv h]
    exact congrArg Except.ok (by decide)
  · rw [namerRun_default_turn argv h]
    exact congrArg Except.ok (by decide)

/-- Witness of C9 amended: the command line `tiffsplit in.tif`. -/
theorem C9_default_stem_turns_witness :
    (argvPlain.length ≤ 2 ∨ argvPlain.getD 2 [] = []) ∧
    nameAt argvPlain 17576 = .ok [121, 97, 97, 97] :=
  ⟨Or.inl (by decide), (C9_default_stem_turns argvPlain (Or.inl (by decide))).2.1⟩

/-- Claim C10, the code at the failing input. For `tiffsplit in.tif` (default
stem) the leading character advances once only: at page counter 35152, twice
17576, the name is "y" followed by the byte 123 and "aa", not a name starting
with 'z'; and no call from page counter 17576 on fails, each leaves 'y' as the
leading character, so the run never stops for lack of names. -/
theorem C10_single_rollover :
    nameAt argvPlain 35152 = .ok [121, 123, 97, 97] ∧
    nameAt argvPlain 52728 = .ok [121, 149, 97, 97] ∧
    ∀ j, ∃ st, namerRun (namerInit argvPlain) (17576 + j + 1) = .ok st ∧
      peek st.fname 0 = 121 := by
  have hd : argvPlain.length ≤ 2 ∨ argvPlain.getD 2 [] = [] := Or.inl (by decide)
  refine ⟨?_, ?_, ?_⟩
  · have h := namerRun_default_late argvPlain hd 17576
    unfold nameAt
    rw [show 35152 + 1 = 17576 + 17576 + 1 from rfl, h]
    exact congrArg Except.ok (by decide)
  · have h := namerRun_default_late argvPlain hd 35152
    unfold nameAt
    rw [show 52728 + 1 = 17576 + 35152 + 1 from rfl, h]
    exact congrArg Except.ok (by decide)
  · intro j
    exact ⟨lateState (17576 + j), namerRun_default_late argvPlain hd j, rfl⟩

/-- Counterexample to C11 as stated: for a strip page whose `TIFFStripSize` is
500 and whose byte counts are 100, 50, 300, 10 the buffer starts with capacity
500, not with the first byte count, and the capacities after the four regions
are 500, 500, 500, 500, not the running maxima 100, 100, 300, 300. -/
theorem C11_counterexample :
    (cpLocals memOk (stripCalls (sizedPage 500 [100, 50, 300, 10]) outOk)
        (fun s => [100, 50, 300, 10].getD s 0) 0).map (fun x => x.bufsize) = some 500 ∧
    (List.range 4).map (fun k =>
        (cpLocals memOk (stripCalls (sizedPage 500 [100, 50, 300, 10]) outOk)
          (fun s => [100, 50, 300, 10].getD s 0) (k + 1)).map (fun x => x.bufsize))
      = [some 500, some 500, some 500, some 500] := by
  constructor <;> decide

/-- Claim C11, amended (buffer growth). In `cpStrips` and `cpTiles` the buffer
is first sized to `TIFFStripSize(in)` (resp. `TIFFTileSize(in)`); a pass of the
loop sets the capacity to exactly the region's byte count when that exceeds the
capacity and leaves it alone otherwise, so it never shrinks; after region `n-1`
the capacity is the largest of the initial size and the byte counts of the
regions before `n` (as `uint64` values); and for the byte counts 100, 50, 300,
10 with an initial size of 100 the capacities after the four regions are 100,
100, 300, 300. -/
theorem C11_buffer_growth (m : Mem) (i : TIFF) (o : TIFFOut) (bc : Nat → Nat) :
    (cpLocals m (stripCalls i o) bc 0).map (fun x => x.bufsize) = some i.stripSize ∧
    (cpLocals m (tileCalls i o) bc 0).map (fun x => x.bufsize) = some i.tileSize ∧
    (∀ n x x1, cpLocals m (stripCalls i o) bc n = some x →
      cpLocals m (stripCalls i o) bc (n + 1) = some x1 →
      x1.bufsize = (if bc n % 2 ^ 64 > toU64 x.bufsize then toTmsize (bc n) else x.bufsize) ∧
      toU64 x.bufsize ≤ toU64 x1.bufsize) ∧
    (∀ n x x1, cpLocals m (tileCalls i o) bc n = some x →
      cpLocals m (tileCalls i o) bc (n + 1) = some x1 →
      x1.bufsize = (if bc n % 2 ^ 64 > toU64 x.bufsize then toTmsize (bc n) else x.bufsize) ∧
      toU64 x.bufsize ≤ toU64 x1.bufsize) ∧
    (∀ n x, cpLocals m (stripCalls i o) bc n = some x →
      toU64 x.bufsize = maxCount bc (toU64 i.stripSize) n) ∧
    (∀ n x, cpLocals m (tileCalls i o) bc n = some x →
      toU64 x.bufsize = maxCount bc (toU64 i.tileSize) n) ∧
    (List.range 4).map (fun k =>
        (cpLocals memOk (stripCalls (sizedPage 100 [100, 50, 300, 10]) outOk)
          (fun s => [100, 50, 300, 10].getD s 0) (k + 1)).map (fun x => x.bufsize))
      = [some 100, some 100, some 300, some 300] := by
  have step : ∀ (r : Regions) (n : Nat) (x x1 : Xfer), cpLocals m r bc n = some x →
      cpLocals m r bc (n + 1) = some x1 →
      x1.bufsize = (if bc n % 2 ^ 64 > toU64 x.bufsize then toTmsize (bc n) else x.bufsize) ∧
      toU64 x.bufsize ≤ toU64 x1.bufsize := by
    intro r n x x1 h h1
    rw [cpLocals, h] at h1
    simp only [Option.bind] at h1
    refine ⟨cpStep_bufsize_eq m r bc n x x1 h1, ?_⟩
    rw [cpStep_bufsize m r bc n x x1 h1]
    exact Nat.le_max_left _ _
  exact ⟨rfl, rfl, step _, step _, cpLocals_bufsize m _ bc, cpLocals_bufsize m _ bc, by decide⟩

/-- Witness of C11 amended: on the strip page with byte counts 100, 50, 300, 10
and initial size 100 the third region is reached and left with locals that obey
the growth rule, and the capacity does not shrink. -/
theorem C11_buffer_growth_witness :
    ∃ x x1, cpLocals memOk (stripCalls (sizedPage 100 [100, 50, 300, 10]) outOk)
        (fun s => [100, 50, 300, 10].getD s 0) 2 = some x ∧
      cpLocals memOk (stripCalls (sizedPage 100 [100, 50, 300, 10]) outOk)
        (fun s => [100, 50, 300, 10].getD s 0) 3 = some x1 ∧
      x1.bufsize = (if [100, 50, 300, 10].getD 2 0 % 2 ^ 64 > toU64 x.bufsize
        then toTmsize ([100, 50, 300, 10].getD 2 0) else x.bufsize) ∧
      toU64 x.bufsize ≤ toU64 x1.bufsize := by
  have h2 : (cpLocals memOk (stripCalls (sizedPage 100 [100, 50, 300, 10]) outOk)
      (fun s => [100, 50, 300, 10].getD s 0) 2).isSome = true := by decide
  have h3 : (cpLocals memOk (stripCalls (sizedPage 100 [100, 50, 300, 10]) outOk)
      (fun s => [100, 50, 300, 10].getD s 0) 3).isSome = true := by decide
  obtain ⟨x, hx⟩ := Option.isSome_iff_exists.mp h2
  obtain ⟨x1, hx1⟩ := Option.isSome_iff_exists.mp h3
  have h := (C11_buffer_growth memOk (sizedPage 100 [100, 50, 300, 10]) outOk
    (fun s => [100, 50, 300, 10].getD s 0)).2.2.1 2 x x1 hx hx1
  exact ⟨x, x1, hx, hx1, h.1, h.2⟩

/-- Claim C12, the code at the failing input. The strip page has
`TIFFStripSize` 3 and one strip of 5 bytes, the first allocation succeeds and
the growth fails: `cpStrips` returns 0 after `malloc` and `realloc` without any
`_TIFFfree`, so the buffer is released zero times on this exit path; with an
allocator that lets the growth succeed the same page ends with one release. -/
theorem C12_growth_failure_leaks :
    memNoGrow.malloc (stripPage [5]).stripSize = true ∧
    cpStrips memNoGrow (stripPage [5]) outOk = (0, [Event.malloc 3, Event.realloc 5]) ∧
    frees (cpStrips memNoGrow (stripPage [5]) outOk).2 = 0 ∧
    frees (cpStrips memOk (stripPage [5]) outOk).2 = 1 := by
  refine ⟨rfl, by decide, by decide, by decide⟩

/-- Claim C17 (buffer sufficiency). For every byte-count table `bc` and every
initial size, each raw read and raw write of region `t` found in the calls of
`cpStrips` (resp. `cpTiles`) is made in pass `t` of the loop: the pass starts
from the locals `x` of the loop at that point (`cpLocals`), its growth step
returns locals `x1`, the pass is the growth step followed by the read and write
with `x1`, and the call is one of these. It asks for `(tmsize_t)bytecounts[t]`
bytes; the tracked capacity of `x1` is at least `bytecounts[t]`, compared as
`uint64` values, and the buffer of `x1` is at least as long as its tracked
capacity, hence as `bytecounts[t]`. Moreover, whatever the locals a pass starts
from, the locals it hands on have a tracked capacity of at least
`bytecounts[s]`. -/
theorem C17_buffer_sufficiency (m : Mem) (i : TIFF) (o : TIFFOut) (bc : Nat → Nat) :
    (i.stripByteCounts = some bc → ∀ e ∈ (cpStrips m i o).2, ∀ t,
      ((∃ n, e = Event.readRaw t n) ∨ (∃ n b, e = Event.writeRaw t n b)) →
      ∃ x x1, cpLocals m (stripCalls i o) bc t = some x ∧ (cpGrow m bc t x).2 = some x1 ∧
        cpStep m (stripCalls i o) bc t x
          = ((cpGrow m bc t x).1 ++ (cpMove (stripCalls i o) bc t x1).1,
              (cpMove (stripCalls i o) bc t x1).2) ∧
        e ∈ (cpMove (stripCalls i o) bc t x1).1 ∧
        (e = Event.readRaw t (toTmsize (bc t)) ∨
          ∃ b, e = Event.writeRaw t (toTmsize (bc t)) b) ∧
        bc t % 2 ^ 64 ≤ toU64 x1.bufsize ∧ toU64 x1.bufsize ≤ x1.buf.length ∧
        bc t % 2 ^ 64 ≤ x1.buf.length) ∧
    (i.tileByteCounts = some bc → ∀ e ∈ (cpTiles m i o).2, ∀ t,
      ((∃ n, e = Event.readRaw t n) ∨ (∃ n b, e = Event.writeRaw t n b)) →
      ∃ x x1, cpLocals m (tileCalls i o) bc t = some x ∧ (cpGrow m bc t x).2 = some x1 ∧
        cpStep m (tileCalls i o) bc t x
          = ((cpGrow m bc t x).1 ++ (cpMove (tileCalls i o) bc t x1).1,
              (cpMove (tileCalls i o) bc t x1).2) ∧
        e ∈ (cpMove (tileCalls i o) bc t x1).1 ∧
        (e = Event.readRaw t (toTmsize (bc t)) ∨
          ∃ b, e = Event.writeRaw t (toTmsize (bc t)) b) ∧
        bc t % 2 ^ 64 ≤ toU64 x1.bufsize ∧ toU64 x1.bufsize ≤ x1.buf.length ∧
        bc t % 2 ^ 64 ≤ x1.buf.length) ∧
    (∀ s x x2, (cpStep m (stripCalls i o) bc s x).2 = some x2 →
      bc s % 2 ^ 64 ≤ toU64 x2.bufsize) ∧
    (∀ s x x2, (cpStep m (tileCalls i o) bc s x).2 = some x2 →
      bc s % 2 ^ 64 ≤ toU64 x2.bufsize) := by
  have key : ∀ (r : Regions), r.bytecounts = some bc → ∀ e ∈ (cpRegions m r).2, ∀ t,
      ((∃ n, e = Event.readRaw t n) ∨ (∃ n b, e = Event.writeRaw t n b)) →
      ∃ x x1, cpLocals m r bc t = some x ∧ (cpGrow m bc t x).2 = some x1 ∧
        cpStep m r bc t x = ((cpGrow m bc t x).1 ++ (cpMove r bc t x1).1, (cpMove r bc t x1).2) ∧
        e ∈ (cpMove r bc t x1).1 ∧
        (e = Event.readRaw t (toTmsize (bc t)) ∨
          ∃ b, e = Event.writeRaw t (toTmsize (bc t)) b) ∧
        bc t % 2 ^ 64 ≤ toU64 x1.bufsize ∧ toU64 x1.bufsize ≤ x1.buf.length ∧
        bc t % 2 ^ 64 ≤ x1.buf.length := by
    intro r hbc e he t hraw
    have hraw1 : (∃ t n1, e = Event.readRaw t n1) ∨ (∃ t n1 b, e = Event.writeRaw t n1 b) := by
      rcases hraw with ⟨n, h⟩ | ⟨n, b, h⟩
      · exact Or.inl ⟨t, n, h⟩
      · exact Or.inr ⟨t, n, b, h⟩
    obtain ⟨t1, x, x1, hx, hx1, hmem, hshape⟩ := cpRegions_raw_locals m r bc hbc e he hraw1
    have ht : t1 = t := by
      rcases hraw with ⟨n, h⟩ | ⟨n, b, h⟩
      · rcases hshape with h1 | ⟨b1, h1⟩
        · rw [h] at h1; cases h1; rfl
        · rw [h] at h1; cases h1
      · rcases hshape with h1 | ⟨b1, h1⟩
        · rw [h] at h1; cases h1
        · rw [h] at h1; cases h1; rfl
    subst ht
    have hcap : bc t1 % 2 ^ 64 ≤ toU64 x1.bufsize := by
      rw [cpGrow_bufsize m bc t1 x x1 hx1]
      exact Nat.le_max_right _ _
    have hbuf : toU64 x1.bufsize ≤ x1.buf.length :=
      cpGrow_buf m bc t1 x x1 hx1 (cpLocals_buf m r bc t1 x hx)
    exact ⟨x, x1, hx, hx1, cpStep_eq m r bc t1 x x1 hx1, hmem, hshape, hcap, hbuf,
      le_trans hcap hbuf⟩
  have step : ∀ (r : Regions) s x x2, (cpStep m r bc s x).2 = some x2 →
      bc s % 2 ^ 64 ≤ toU64 x2.bufsize := by
    intro r s x x2 h
    rw [cpStep_bufsize m r bc s x x2 h]
    exact Nat.le_max_right _ _
  exact ⟨key (stripCalls i o), key (tileCalls i o), step _, step _⟩

/-- Witness of C17: on the strip page with strip size 3 and one strip of 5
bytes the read of strip 0 is made with locals of capacity at least 5 and a
buffer of at least 5 bytes. -/
theorem C17_buffer_sufficiency_witness :
    (stripPage [5]).stripByteCounts = some (fun s => [5].getD s 0) ∧
    (cpStrips memOk (stripPage [5]) outOk).2
      = [Event.malloc 3, Event.realloc 5, Event.readRaw 0 5,
          Event.writeRaw 0 5 [7, 7, 7, 7, 7], Event.free] ∧
    ∃ x x1, cpLocals memOk (stripCalls (stripPage [5]) outOk) (fun s => [5].getD s 0) 0
        = some x ∧
      (cpGrow memOk (fun s => [5].getD s 0) 0 x).2 = some x1 ∧
      x.bufsize = 3 ∧ 5 ≤ toU64 x1.bufsize ∧ 5 ≤ x1.buf.length := by
  refine ⟨rfl, by decide, ?_⟩
  obtain ⟨x, x1, hx, hx1, _, _, _, hcap, _, hbuf⟩ :=
    (C17_buffer_sufficiency memOk (stripPage [5]) outOk (fun s => [5].getD s 0)).1 rfl
      (Event.readRaw 0 5) (by decide) 0 (Or.inl ⟨5, rfl⟩)
  refine ⟨x, x1, hx, hx1, ?_, hcap, hbuf⟩
  simp only [cpLocals, Option.some.injEq] at hx
  rw [← hx]
  rfl

/-- Claim C18, the code at the failing input. For `tiffsplit in.tif` (default
stem) the call with page counter 17577 leaves the name "ya", the byte 5, "b":
the second generated character is `'a' + 17577/26` cut to a `char`, not a
letter, because `lastTurn` was set to 0 at the rollover while the counter of
`main` went on from 17576; this lasts up to page counter 18251. -/
theorem C18_letters_leave_range :
    nameAt argvPlain 17577 = .ok [121, 97, 5, 98] ∧
    nameAt argvPlain 18251 = .ok [121, 97, 30, 122] ∧
    nameAt argvPlain 18252 = .ok [121, 98, 97, 97] := by
  have hd : argvPlain.length ≤ 2 ∨ argvPlain.getD 2 [] = [] := Or.inl (by decide)
  refine ⟨?_, ?_, ?_⟩
  · have h := namerRun_default_late argvPlain hd 1
    unfold nameAt
    rw [show 17577 + 1 = 17576 + 1 + 1 from rfl, h]
    exact congrArg Except.ok (by decide)
  · have h := namerRun_default_late argvPlain hd 675
    unfold nameAt
    rw [show 18251 + 1 = 17576 + 675 + 1 from rfl, h]
    exact congrArg Except.ok (by decide)
  · have h := namerRun_default_late argvPlain hd 676
    unfold nameAt
    rw [show 18252 + 1 = 17576 + 676 + 1 from rfl, h]
    exact congrArg Except.ok (by decide)

end Tiffsplit

namespace TiffInfo

/-! # Lemmas about the diagnostic walker -/

/-- A loop whose body always answers, adding at most `c` reads, returns when
some multiple `n * step` of the step reaches the bound below `wrap`; it adds at
most `c` reads for each pass. -/
theorem forLoop_total (wrap bound step c : Nat)
    (body : Nat → List Read → Option (List Read × Bool))
    (hbody : ∀ x log, ∃ log1 b, body x log = some (log1, b) ∧ log1.length ≤ log.length + c)
    (n : Nat) (hb : bound ≤ n * step) (hw : n * step < wrap) :
    ∀ (d k : Nat), k + d = n → ∀ fuel, d + 1 ≤ fuel → ∀ log,
      ∃ r, forLoop wrap bound step body fuel (k * step) log = some r ∧
        r.length ≤ log.length + d * c := by
  intro d
  induction d with
  | zero =>
    intro k hk fuel hf log
    obtain ⟨f, rfl⟩ : ∃ f, fuel = f + 1 := ⟨fuel - 1, by omega⟩
    have hx : ¬ k * step < bound := by
      have : k = n := by omega
      subst this
      omega
    refine ⟨log, ?_, by simp⟩
    rw [forLoop, if_neg hx]
  | succ d ih =>
    intro k hk fuel hf log
    obtain ⟨f, rfl⟩ : ∃ f, fuel = f + 1 := ⟨fuel - 1, by omega⟩
    rw [forLoop]
    by_cases hx : k * step < bound
    · rw [if_pos hx]
      obtain ⟨log1, b, hb1, hl⟩ := hbody (k * step) log
      rw [hb1]
      have hmul : (d + 1) * c = d * c + c := Nat.succ_mul d c
      cases b with
      | true => exact ⟨log1, rfl, by omega⟩
      | false =>
        have hle : (k + 1) * step ≤ n * step := Nat.mul_le_mul_right _ (by omega)
        have hk1 : (k + 1) * step = k * step + step := Nat.succ_mul k step
        have hnext : (k * step + step) % wrap = (k + 1) * step := by
          rw [← hk1]
          exact Nat.mod_eq_of_lt (by omega)
        simp only
        rw [hnext]
        obtain ⟨r, hr, hrl⟩ := ih (k + 1) (by omega) f (by omega) log1
        exact ⟨r, hr, by omega⟩
    · rw [if_neg hx]
      exact ⟨log, rfl, by omega⟩

/-- A loop whose body never leaves it and appends `out x` at counter `x` makes
exactly the passes `0, step, ..., (n-1) * step` when `n * step` is the first
multiple of the step that reaches the bound, and is below `wrap`. -/
theorem forLoop_exact (wrap bound step : Nat)
    (body : Nat → List Read → Option (List Read × Bool)) (out : Nat → List Read)
    (hbody : ∀ x log, body x log = some (log ++ out x, false))
    (n : Nat) (hb : bound ≤ n * step) (hw : n * step < wrap)
    (hlt : ∀ j, j < n → j * step < bound) :
    ∀ (d k : Nat), k + d = n → ∀ fuel, d + 1 ≤ fuel → ∀ log,
      forLoop wrap bound step body fuel (k * step) log
        = some (log ++ (List.range' k d).flatMap (fun j => out (j * step))) := by
  intro d
  induction d with
  | zero =>
    intro k hk fuel hf log
    obtain ⟨f, rfl⟩ : ∃ f, fuel = f + 1 := ⟨fuel - 1, by omega⟩
    have hx : ¬ k * step < bound := by
      have : k = n := by omega
      subst this
      omega
    rw [forLoop, if_neg hx]
    simp
  | succ d ih =>
    intro k hk fuel hf log
    obtain ⟨f, rfl⟩ : ∃ f, fuel = f + 1 := ⟨fuel - 1, by omega⟩
    have hx : k * step < bound := hlt k (by omega)
    have hle : (k + 1) * step ≤ n * step := Nat.mul_le_mul_right _ (by omega)
    have hk1 : (k + 1) * step = k * step + step := Nat.succ_mul k step
    have hnext : (k * step + step) % wrap = (k + 1) * step := by
      rw [← hk1]
      exact Nat.mod_eq_of_lt (by omega)
    rw [forLoop, if_pos hx, hbody]
    simp only
    rw [hnext, ih (k + 1) (by omega) f (by omega)]
    simp [List.range'_succ, List.flatMap_cons]

theorem forLoop_total0 (wrap bound step c : Nat)
    (body : Nat → List Read → Option (List Read × Bool))
    (hbody : ∀ x log, ∃ log1 b, body x log = some (log1, b) ∧ log1.length ≤ log.length + c)
    (n : Nat) (hb : bound ≤ n * step) (hw : n * step < wrap)
    (fuel : Nat) (hf : n + 1 ≤ fuel) (log : List Read) :
    ∃ r, forLoop wrap bound step body fuel 0 log = some r ∧ r.length ≤ log.length + n * c := by
  have h := forLoop_total wrap bound step c body hbody n hb hw n 0 (by omega) fuel hf log
  rwa [Nat.zero_mul] at h

theorem forLoop_exact0 (wrap bound step : Nat)
    (body : Nat → List Read → Option (List Read × Bool)) (out : Nat → List Read)
    (hbody : ∀ x log, body x log = some (log ++ out x, false))
    (n : Nat) (hb : bound ≤ n * step) (hw : n * step < wrap)
    (hlt : ∀ j, j < n → j * step < bound)
    (fuel : Nat) (hf : n + 1 ≤ fuel) (log : List Read) :
    forLoop wrap bound step body fuel 0 log
      = some (log ++ (List.range n).flatMap (fun j => out (j * step))) := by
  have h := forLoop_exact wrap bound step body out hbody n hb hw hlt n 0 (by omega) fuel hf log
  rwa [Nat.zero_mul, ← List.range_eq_range'] at h

/-- A loop whose counter stays, from pass to pass, among values below the bound,
with a body that never leaves it, does not return. -/
theorem forLoop_invariant (wrap bound step : Nat)
    (body : Nat → List Read → Option (List Read × Bool))
    (hbody : ∀ x log r, body x log = some r → r.2 = false)
    (inv : Nat → Prop) (hinv : ∀ x, inv x → x < bound ∧ inv ((x + step) % wrap)) :
    ∀ fuel x log, inv x → forLoop wrap bound step body fuel x log = none := by
  intro fuel
  induction fuel with
  | zero => intro x log _; rfl
  | succ f ih =>
    intro x log hx
    rw [forLoop, if_pos (hinv x hx).1]
    cases hr : body x log with
    | none => rfl
    | some r =>
      obtain ⟨log1, c⟩ := r
      have := hbody x log _ hr
      simp only at this
      subst this
      exact ih _ log1 (hinv x hx).2

theorem getU16_lt (tag : Option Nat) (init : Nat) (h : init < 2 ^ 16) :
    getU16 tag init < 2 ^ 16 := by
  unfold getU16
  cases tag with
  | none => exact h
  | some v => exact Nat.mod_lt _ (by norm_num)

theorem stripRead_length (stop : Bool) (t : Tif) (h r row s : Nat) (log : List Read) :
    (stripRead stop t h r row s log).1.length = log.length + 1 := by
  simp [stripRead]

theorem tileRead_length (stop : Bool) (t : Tif) (col row s : Nat) (log : List Read) :
    (tileRead stop t col row s log).1.length = log.length + 1 := by
  simp [tileRead]

theorem map_false_total (X : Option (List Read)) (L : Nat)
    (h : ∃ r, X = some r ∧ r.length ≤ L) :
    ∃ log1 b, X.map (fun l => (l, false)) = some (log1, b) ∧ log1.length ≤ L := by
  obtain ⟨r, hr, hl⟩ := h
  exact ⟨r, false, by rw [hr]; rfl, hl⟩

/-- The loop over the samples of one strip position always returns. -/
theorem stripSamples_total (stop : Bool) (t : Tif) (h r row spp : Nat) (hs : spp < 2 ^ 16)
    (fuel : Nat) (hf : spp + 1 ≤ fuel) (log : List Read) :
    ∃ res, forLoop (2 ^ 16) spp 1 (fun s log1 => some (stripRead stop t h r row s log1))
        fuel 0 log = some res ∧ res.length ≤ log.length + spp * 1 :=
  forLoop_total0 (2 ^ 16) spp 1 1 _
    (fun x l => ⟨_, _, rfl, by simp⟩) spp (by omega) (by omega) fuel hf log

/-- The loop over the samples of one tile position always returns. -/
theorem tileSamples_total (stop : Bool) (t : Tif) (col row spp : Nat) (hs : spp < 2 ^ 16)
    (fuel : Nat) (hf : spp + 1 ≤ fuel) (log : List Read) :
    ∃ res, forLoop (2 ^ 16) spp 1 (fun s log1 => some (tileRead stop t col row s log1))
        fuel 0 log = some res ∧ res.length ≤ log.length + spp * 1 :=
  forLoop_total0 (2 ^ 16) spp 1 1 _
    (fun x l => ⟨_, _, rfl, by simp⟩) spp (by omega) (by omega) fuel hf log

theorem contigStrip_total (stop : Bool) (t : Tif) (nr : Nat)
    (hb : getU32 t.imageLength 0 ≤ nr * getU32 t.rowsPerStrip (2 ^ 32 - 1))
    (hw : nr * getU32 t.rowsPerStrip (2 ^ 32 - 1) < 2 ^ 32)
    (fuel : Nat) (hf : nr + 1 ≤ fuel) :
    ∃ log, TIFFReadContigStripData fuel stop t = some log ∧ log.length ≤ nr := by
  unfold TIFFReadContigStripData
  split
  · exact ⟨[], rfl, by simp⟩
  · split
    · exact ⟨[], rfl, by simp⟩
    · have h := forLoop_total0 (2 ^ 32) _ _ 1
        (fun row log => some (stripRead stop t (getU32 t.imageLength 0)
          (getU32 t.rowsPerStrip (2 ^ 32 - 1)) row 0 log))
        (fun x l => ⟨_, _, rfl, by simp⟩) nr hb hw fuel hf []
      simpa using h

theorem separateStrip_total (stop : Bool) (t : Tif) (nr : Nat)
    (hb : getU32 t.imageLength 0 ≤ nr * getU32 t.rowsPerStrip (2 ^ 32 - 1))
    (hw : nr * getU32 t.rowsPerStrip (2 ^ 32 - 1) < 2 ^ 32)
    (fuel : Nat) (hf : nr + 1 ≤ fuel) (hf2 : 2 ^ 16 ≤ fuel) :
    ∃ log, TIFFReadSeparateStripData fuel stop t = some log ∧
      log.length ≤ nr * getU16 t.samplesPerPixel 0 := by
  have hs := getU16_lt t.samplesPerPixel 0 (by norm_num)
  unfold TIFFReadSeparateStripData
  split
  · exact ⟨[], rfl, by simp⟩
  · split
    · exact ⟨[], rfl, by simp⟩
    · have h := forLoop_total0 (2 ^ 32) _ _ (getU16 t.samplesPerPixel 0 * 1)
        (fun row log =>
          (forLoop (2 ^ 16) (getU16 t.samplesPerPixel 0) 1
            (fun s log1 => some (stripRead stop t (getU32 t.imageLength 0)
              (getU32 t.rowsPerStrip (2 ^ 32 - 1)) row s log1)) fuel 0 log).map
            (fun l => (l, false)))
        (fun x l => map_false_total _ _
          (stripSamples_total stop t _ _ x _ hs fuel (by omega) l)) nr hb hw fuel hf []
      simpa using h

theorem contigTile_total (stop : Bool) (t : Tif) (nr nc : Nat)
    (hb : getU32 t.imageLength 0 ≤ nr * getU32 t.tileLength 0)
    (hw : nr * getU32 t.tileLength 0 < 2 ^ 32)
    (hbc : getU32 t.imageWidth 0 ≤ nc * getU32 t.tileWidth 0)
    (hwc : nc * getU32 t.tileWidth 0 < 2 ^ 32)
    (fuel : Nat) (hf : nr + 1 ≤ fuel) (hfc : nc + 1 ≤ fuel) :
    ∃ log, TIFFReadContigTileData fuel stop t = some log ∧ log.length ≤ nr * nc := by
  unfold TIFFReadContigTileData
  split
  · exact ⟨[], rfl, by simp⟩
  · split
    · exact ⟨[], rfl, by simp⟩
    · have h := forLoop_total0 (2 ^ 32) _ _ (nc * 1)
        (fun row log =>
          (forLoop (2 ^ 32) (getU32 t.imageWidth 0) (getU32 t.tileWidth 0)
            (fun col log1 => some (tileRead stop t col row 0 log1)) fuel 0 log).map
            (fun l => (l, false)))
        (fun x l => map_false_total _ _
          (forLoop_total0 (2 ^ 32) _ _ 1 _
            (fun y l1 => ⟨_, _, rfl, by simp⟩) nc hbc hwc fuel hfc l))
        nr hb hw fuel hf []
      simpa using h

theorem separateTile_total (stop : Bool) (t : Tif) (nr nc : Nat)
    (hb : getU32 t.imageLength 0 ≤ nr * getU32 t.tileLength 0)
    (hw : nr * getU32 t.tileLength 0 < 2 ^ 32)
    (hbc : getU32 t.imageWidth 0 ≤ nc * getU32 t.tileWidth 0)
    (hwc : nc * getU32 t.tileWidth 0 < 2 ^ 32)
    (fuel : Nat) (hf : nr + 1 ≤ fuel) (hfc : nc + 1 ≤ fuel) (hf2 : 2 ^ 16 ≤ fuel) :
    ∃ log, TIFFReadSeparateTileData fuel stop t = some log ∧
      log.length ≤ nr * (nc * getU16 t.samplesPerPixel 0) := by
  have hs := getU16_lt t.samplesPerPixel 0 (by norm_num)
  unfold TIFFReadSeparateTileData
  split
  · exact ⟨[], rfl, by simp⟩
  · split
    · exact ⟨[], rfl, by simp⟩
    · have h := forLoop_total0 (2 ^ 32) _ _ (nc * (getU16 t.samplesPerPixel 0 * 1))
        (fun row log =>
          (forLoop (2 ^ 32) (getU32 t.imageWidth 0) (getU32 t.tileWidth 0)
            (fun col log1 =>
              (forLoop (2 ^ 16) (getU16 t.samplesPerPixel 0) 1
                (fun s log2 => some (tileRead stop t col row s log2)) fuel 0 log1).map
                (fun l => (l, false))) fuel 0 log).map
            (fun l => (l, false)))
        (fun x l => map_false_total _ _
          (forLoop_total0 (2 ^ 32) _ _ (getU16 t.samplesPerPixel 0 * 1) _
            (fun y l1 => map_false_total _ _
              (tileSamples_total stop t y x _ hs fuel (by omega) l1))
            nc hbc hwc fuel hfc l))
        nr hb hw fuel hf []
      simpa using h

theorem getU32_lt (tag : Option Nat) (init : Nat) (h : init < 2 ^ 32) :
    getU32 tag init < 2 ^ 32 := by
  unfold getU32
  cases tag with
  | none => exact h
  | some v => exact Nat.mod_lt _ (by norm_num)

theorem flatMap_singleton_map {α β : Type} (f : α → β) (l : List α) :
    l.flatMap (fun a => [f a]) = l.map f := by
  induction l with
  | nil => rfl
  | cons a l ih => simp [List.flatMap_cons, ih]

theorem stripRead_ok (stop : Bool) (t : Tif)
    (hok : ∀ k strip size, t.readEncodedStrip k strip size = true)
    (h r row s : Nat) (log : List Read) :
    stripRead stop t h r row s log = (log ++ [stripReadOf t h r row s], false) := by
  simp [stripRead, stripReadOf, hok]

theorem tileRead_ok (stop : Bool) (t : Tif)
    (hok : ∀ k col row s, t.readTile k col row s = true)
    (col row s : Nat) (log : List Read) :
    tileRead stop t col row s log = (log ++ [Read.tile col row s true], false) := by
  simp [tileRead, hok]

/-- The loop over the samples of one strip position, when no read fails. -/
theorem stripSamples_exact (stop : Bool) (t : Tif)
    (hok : ∀ k strip size, t.readEncodedStrip k strip size = true)
    (h r row spp : Nat) (hs : spp < 2 ^ 16)
    (fuel : Nat) (hf : spp + 1 ≤ fuel) (log : List Read) :
    forLoop (2 ^ 16) spp 1 (fun s log1 => some (stripRead stop t h r row s log1)) fuel 0 log
      = some (log ++ (List.range spp).map (fun s => stripReadOf t h r row s)) := by
  rw [forLoop_exact0 (2 ^ 16) spp 1 _ (fun s => [stripReadOf t h r row s])
    (fun x l => by rw [stripRead_ok stop t hok]) spp (by omega) (by omega)
    (fun j hj => by omega) fuel hf log]
  simp [flatMap_singleton_map]

/-- The loop over the samples of one tile position, when no read fails. -/
theorem tileSamples_exact (stop : Bool) (t : Tif)
    (hok : ∀ k col row s, t.readTile k col row s = true)
    (col row spp : Nat) (hs : spp < 2 ^ 16)
    (fuel : Nat) (hf : spp + 1 ≤ fuel) (log : List Read) :
    forLoop (2 ^ 16) spp 1 (fun s log1 => some (tileRead stop t col row s log1)) fuel 0 log
      = some (log ++ (List.range spp).map (fun s => Read.tile col row s true)) := by
  rw [forLoop_exact0 (2 ^ 16) spp 1 _ (fun s => [Read.tile col row s true])
    (fun x l => by rw [tileRead_ok stop t hok]) spp (by omega) (by omega)
    (fun j hj => by omega) fuel hf log]
  simp [flatMap_singleton_map]

theorem contigStrip_exact (stop : Bool) (t : Tif) (nr : Nat)
    (hg : Tiffsplit.toU64 t.stripSize ≤ kMaxMalloc) (hm : t.malloc t.stripSize = true)
    (hok : ∀ k strip size, t.readEncodedStrip k strip size = true)
    (hb : getU32 t.imageLength 0 ≤ nr * getU32 t.rowsPerStrip (2 ^ 32 - 1))
    (hw : nr * getU32 t.rowsPerStrip (2 ^ 32 - 1) < 2 ^ 32)
    (hlt : ∀ j, j < nr → j * getU32 t.rowsPerStrip (2 ^ 32 - 1) < getU32 t.imageLength 0)
    (fuel : Nat) (hf : nr + 1 ≤ fuel) :
    TIFFReadContigStripData fuel stop t
      = some (stripReads t (getU32 t.imageLength 0) (getU32 t.rowsPerStrip (2 ^ 32 - 1)) nr
          [0]) := by
  unfold TIFFReadContigStripData
  rw [if_neg (by omega), if_neg (by simp [hm])]
  simp only
  rw [forLoop_exact0 (2 ^ 32) _ _ _
    (fun row => [stripReadOf t (getU32 t.imageLength 0) (getU32 t.rowsPerStrip (2 ^ 32 - 1))
      row 0])
    (fun x l => by rw [stripRead_ok stop t hok]) nr hb hw hlt fuel hf []]
  simp [stripReads]

theorem separateStrip_exact (stop : Bool) (t : Tif) (nr : Nat)
    (hg : Tiffsplit.toU64 t.stripSize ≤ kMaxMalloc) (hm : t.malloc t.stripSize = true)
    (hok : ∀ k strip size, t.readEncodedStrip k strip size = true)
    (hb : getU32 t.imageLength 0 ≤ nr * getU32 t.rowsPerStrip (2 ^ 32 - 1))
    (hw : nr * getU32 t.rowsPerStrip (2 ^ 32 - 1) < 2 ^ 32)
    (hlt : ∀ j, j < nr → j * getU32 t.rowsPerStrip (2 ^ 32 - 1) < getU32 t.imageLength 0)
    (fuel : Nat) (hf : nr + 1 ≤ fuel) (hf2 : 2 ^ 16 ≤ fuel) :
    TIFFReadSeparateStripData fuel stop t
      = some (stripReads t (getU32 t.imageLength 0) (getU32 t.rowsPerStrip (2 ^ 32 - 1)) nr
          (List.range (getU16 t.samplesPerPixel 0))) := by
  have hs := getU16_lt t.samplesPerPixel 0 (by norm_num)
  unfold TIFFReadSeparateStripData
  rw [if_neg (by omega), if_neg (by simp [hm])]
  simp only
  rw [forLoop_exact0 (2 ^ 32) _ _ _
    (fun row => (List.range (getU16 t.samplesPerPixel 0)).map
      (fun s => stripReadOf t (getU32 t.imageLength 0) (getU32 t.rowsPerStrip (2 ^ 32 - 1))
        row s))
    (fun x l => by
      rw [stripSamples_exact stop t hok _ _ x _ hs fuel (by omega) l]
      rfl) nr hb hw hlt fuel hf []]
  simp [stripReads]

theorem contigTile_exact (stop : Bool) (t : Tif) (nr nc : Nat)
    (hg : Tiffsplit.toU64 t.tileSize ≤ kMaxMalloc) (hm : t.malloc t.tileSize = true)
    (hok : ∀ k col row s, t.readTile k col row s = true)
    (hb : getU32 t.imageLength 0 ≤ nr * getU32 t.tileLength 0)
    (hw : nr * getU32 t.tileLength 0 < 2 ^ 32)
    (hlt : ∀ j, j < nr → j * getU32 t.tileLength 0 < getU32 t.imageLength 0)
    (hbc : getU32 t.imageWidth 0 ≤ nc * getU32 t.tileWidth 0)
    (hwc : nc * getU32 t.tileWidth 0 < 2 ^ 32)
    (hltc : ∀ j, j < nc → j * getU32 t.tileWidth 0 < getU32 t.imageWidth 0)
    (fuel : Nat) (hf : nr + 1 ≤ fuel) (hfc : nc + 1 ≤ fuel) :
    TIFFReadContigTileData fuel stop t
      = some (tileReads (getU32 t.tileWidth 0) (getU32 t.tileLength 0) nc nr [0]) := by
  unfold TIFFReadContigTileData
  rw [if_neg (by omega), if_neg (by simp [hm])]
  simp only
  rw [forLoop_exact0 (2 ^ 32) _ _ _
    (fun row => (List.range nc).flatMap
      (fun i => [Read.tile (i * getU32 t.tileWidth 0) row 0 true]))
    (fun x l => by
      rw [forLoop_exact0 (2 ^ 32) _ _ _ (fun col => [Read.tile col x 0 true])
        (fun y l1 => by rw [tileRead_ok stop t hok]) nc hbc hwc hltc fuel hfc l]
      rfl) nr hb hw hlt fuel hf []]
  simp [tileReads]

theorem separateTile_exact (stop : Bool) (t : Tif) (nr nc : Nat)
    (hg : Tiffsplit.toU64 t.tileSize ≤ kMaxMalloc) (hm : t.malloc t.tileSize = true)
    (hok : ∀ k col row s, t.readTile k col row s = true)
    (hb : getU32 t.imageLength 0 ≤ nr * getU32 t.tileLength 0)
    (hw : nr * getU32 t.tileLength 0 < 2 ^ 32)
    (hlt : ∀ j, j < nr → j * getU32 t.tileLength 0 < getU32 t.imageLength 0)
    (hbc : getU32 t.imageWidth 0 ≤ nc * getU32 t.tileWidth 0)
    (hwc : nc * getU32 t.tileWidth 0 < 2 ^ 32)
    (hltc : ∀ j, j < nc → j * getU32 t.tileWidth 0 < getU32 t.imageWidth 0)
    (fuel : Nat) (hf : nr + 1 ≤ fuel) (hfc : nc + 1 ≤ fuel) (hf2 : 2 ^ 16 ≤ fuel) :
    TIFFReadSeparateTileData fuel stop t
      = some (tileReads (getU32 t.tileWidth 0) (getU32 t.tileLength 0) nc nr
          (List.range (getU16 t.samplesPerPixel 0))) := by
  have hs := getU16_lt t.samplesPerPixel 0 (by norm_num)
  unfold TIFFReadSeparateTileData
  rw [if_neg (by omega), if_neg (by simp [hm])]
  simp only
  rw [forLoop_exact0 (2 ^ 32) _ _ _
    (fun row => (List.range nc).flatMap
      (fun i => (List.range (getU16 t.samplesPerPixel 0)).map
        (fun s => Read.tile (i * getU32 t.tileWidth 0) row s true)))
    (fun x l => by
      rw [forLoop_exact0 (2 ^ 32) _ _ _
        (fun col => (List.range (getU16 t.samplesPerPixel 0)).map
          (fun s => Read.tile col x s true))
        (fun y l1 => by
          rw [tileSamples_exact stop t hok y x _ hs fuel (by omega) l1]
          rfl) nc hbc hwc hltc fuel hfc l]
      rfl) nr hb hw hlt fuel hf []]
  simp [tileReads]

/-- While `TIFFReadDirectory` keeps reporting another directory the loop of the
entry point does not return. -/
theorem walk_forever (stop : Bool) (s : Stream) (fuel : Nat)
    (hd : ∀ k, s.readDirectory k = true) :
    ∀ n k acc, walk stop s fuel n k acc = none := by
  intro n
  induction n with
  | zero => intro k acc; rfl
  | succ n ih =>
    intro k acc
    rw [walk]
    cases tiffinfo fuel stop (s.page k) true with
    | none => rfl
    | some reads =>
      simp only
      split
      · rfl
      · rw [if_pos (hd k)]
        exact ih _ _

theorem imagesVisited_append (a b : List Visit) :
    imagesVisited (a ++ b) = imagesVisited a ++ imagesVisited b := by
  simp [imagesVisited]

/-- When `TIFFReadDirectory` reports another directory `n` times and then none,
and the data of the directories `0..n` is read in finitely many steps, the loop
of the entry point returns after the directories `0..n`. -/
theorem walk_chain (stop : Bool) (s : Stream) (fuel n : Nat)
    (ht : ∀ k, k < n → s.readDirectory k = true) (hf : s.readDirectory n = false)
    (hp : ∀ k, k ≤ n → ∃ r, TIFFReadData fuel stop (s.page k) = some r) :
    ∀ d k m acc, k + d = n → d + 1 ≤ m →
      ∃ v, walk stop s fuel m k acc = some v ∧
        imagesVisited v = imagesVisited acc ++ List.range' k (d + 1) := by
  intro d
  induction d with
  | zero =>
    intro k m acc hk hm
    obtain ⟨m1, rfl⟩ : ∃ m1, m = m1 + 1 := ⟨m - 1, by omega⟩
    have hkn : k = n := by omega
    subst hkn
    obtain ⟨r, hr⟩ := hp k (le_refl _)
    rw [walk]
    simp only [tiffinfo, Bool.not_true, Bool.false_eq_true, if_false, hr, Bool.not_false,
      if_true, hf]
    by_cases hx : (s.exifOffset k && s.readExif k) = true
    · rw [if_pos hx]
      exact ⟨_, rfl, by simp [imagesVisited_append, imagesVisited]⟩
    · rw [if_neg hx]
      exact ⟨_, rfl, by simp [imagesVisited_append, imagesVisited]⟩
  | succ d ih =>
    intro k m acc hk hm
    obtain ⟨m1, rfl⟩ : ∃ m1, m = m1 + 1 := ⟨m - 1, by omega⟩
    obtain ⟨r, hr⟩ := hp k (by omega)
    rw [walk]
    simp only [tiffinfo, Bool.not_true, Bool.false_eq_true, if_false, hr, Bool.not_false,
      if_true, ht k (by omega)]
    by_cases hx : (s.exifOffset k && s.readExif k) = true
    · rw [if_pos hx]
      obtain ⟨v, hv, hi⟩ := ih (k + 1) m1 (acc ++ [Visit.image k r] ++ [Visit.exif k])
        (by omega) (by omega)
      refine ⟨v, hv, ?_⟩
      rw [hi]
      simp [imagesVisited_append, imagesVisited, List.range'_succ]
    · rw [if_neg hx]
      obtain ⟨v, hv, hi⟩ := ih (k + 1) m1 (acc ++ [Visit.image k r]) (by omega) (by omega)
      refine ⟨v, hv, ?_⟩
      rw [hi]
      simp [imagesVisited_append, imagesVisited, List.range'_succ]

/-- The contig-strip pass does not return when no read fails and the row
counter stays among values below the image length. -/
theorem contigStrip_diverges (stop : Bool) (t : Tif)
    (hg : Tiffsplit.toU64 t.stripSize ≤ kMaxMalloc) (hm : t.malloc t.stripSize = true)
    (hok : ∀ k strip size, t.readEncodedStrip k strip size = true)
    (inv : Nat → Prop) (h0 : inv 0)
    (hinv : ∀ x, inv x → x < getU32 t.imageLength 0 ∧
      inv ((x + getU32 t.rowsPerStrip (2 ^ 32 - 1)) % 2 ^ 32))
    (fuel : Nat) : TIFFReadContigStripData fuel stop t = none := by
  unfold TIFFReadContigStripData
  rw [if_neg (by omega), if_neg (by simp [hm])]
  exact forLoop_invariant (2 ^ 32) _ _ _
    (fun x log r hr => by
      rw [stripRead_ok stop t hok] at hr
      simp only [Option.some.injEq] at hr
      rw [← hr]) inv hinv fuel 0 [] h0

/-- The contig-tile pass does not return when no read fails, the image has a
row and the column counter stays among values below the image width. -/
theorem contigTile_diverges (stop : Bool) (t : Tif)
    (hg : Tiffsplit.toU64 t.tileSize ≤ kMaxMalloc) (hm : t.malloc t.tileSize = true)
    (hok : ∀ k col row s, t.readTile k col row s = true)
    (hrow : 0 < getU32 t.imageLength 0)
    (inv : Nat → Prop) (h0 : inv 0)
    (hinv : ∀ x, inv x → x < getU32 t.imageWidth 0 ∧
      inv ((x + getU32 t.tileWidth 0) % 2 ^ 32))
    (fuel : Nat) : TIFFReadContigTileData fuel stop t = none := by
  unfold TIFFReadContigTileData
  rw [if_neg (by omega), if_neg (by simp [hm])]
  cases fuel with
  | zero => rfl
  | succ f =>
    simp only
    rw [forLoop, if_pos hrow]
    rw [forLoop_invariant (2 ^ 32) _ _ _
      (fun x log r hr => by
        rw [tileRead_ok stop t hok] at hr
        simp only [Option.some.injEq] at hr
        rw [← hr]) inv hinv (f + 1) 0 [] h0]
    rfl

theorem TIFFReadData_empty (stop : Bool) (fuel : Nat) (hf : 1 ≤ fuel) :
    TIFFReadData fuel stop emptyTif = some [] := by
  obtain ⟨f, rfl⟩ : ∃ f, fuel = f + 1 := ⟨fuel - 1, by omega⟩
  rfl

/-! # The claims about the diagnostic walker -/

/-- Claim C13, the code at the failing inputs, with `stoponerr` set. In the
separate-strip pass (2 rows, 2 samples), the contig-tile pass (2 by 2 tiles)
and the separate-tile pass (2 columns, 2 samples) the first read fails and
regions of the page are still read after it, because `break` leaves the
innermost loop only; the contig-strip pass stops at the failing read. With the
flag clear every region is read in all four passes. -/
theorem C13_break_leaves_inner_loop_only :
    TIFFReadSeparateStripData 4 stoponerr (stripTif 2 1 2 2 (fun k => k != 0))
      = some [Read.strip 0 0 0 1 1 false, Read.strip 1 0 1 1 1 true,
          Read.strip 1 1 3 1 1 true] ∧
    TIFFReadContigTileData 4 stoponerr (tileTif 2 2 1 1 1 1 (fun k => k != 0))
      = some [Read.tile 0 0 0 false, Read.tile 0 1 0 true, Read.tile 1 1 0 true] ∧
    TIFFReadSeparateTileData 4 stoponerr (tileTif 2 1 1 1 2 2 (fun k => k != 0))
      = some [Read.tile 0 0 0 false, Read.tile 1 0 0 true, Read.tile 1 0 1 true] ∧
    TIFFReadContigStripData 4 stoponerr (stripTif 2 1 1 1 (fun k => k != 0))
      = some [Read.strip 0 0 0 1 1 false] ∧
    TIFFReadSeparateStripData 4 false (stripTif 2 1 2 2 (fun k => k != 0))
      = some [Read.strip 0 0 0 1 1 false, Read.strip 0 1 2 1 1 true,
          Read.strip 1 0 1 1 1 true, Read.strip 1 1 3 1 1 true] ∧
    TIFFReadContigTileData 4 false (tileTif 2 2 1 1 1 1 (fun k => k != 0))
      = some [Read.tile 0 0 0 false, Read.tile 1 0 0 true, Read.tile 0 1 0 true,
          Read.tile 1 1 0 true] ∧
    TIFFReadSeparateTileData 4 false (tileTif 2 1 1 1 2 2 (fun k => k != 0))
      = some [Read.tile 0 0 0 false, Read.tile 0 0 1 true, Read.tile 1 0 0 true,
          Read.tile 1 0 1 true] ∧
    TIFFReadContigStripData 4 false (stripTif 2 1 1 1 (fun k => k != 0))
      = some [Read.strip 0 0 0 1 1 false, Read.strip 1 0 1 1 1 true] := by
  refine ⟨?_, ?_, ?_, ?_, ?_, ?_, ?_, ?_⟩ <;> decide

/-- Counterexample to C14 as stated: on a chain of directories for which
`TIFFReadDirectory` always reports another directory the entry point returns
for no amount of fuel. -/
theorem C14_counterexample :
    ¬ ∃ fuel r, LLVMFuzzerTestOneInput fuel stoponerr loopingStream = some r := by
  rintro ⟨fuel, r, h⟩
  unfold LLVMFuzzerTestOneInput at h
  rw [if_neg (by decide), walk_forever stoponerr loopingStream fuel (fun _ => rfl)] at h
  cases h

/-- Claim C14, amended (directory walk). The entry point returns 0 at once
when no handle can be made. Otherwise its loop has no bound of its own: it
does not return while `TIFFReadDirectory` keeps reporting another directory;
and when `TIFFReadDirectory` reports another directory `n` times and then
none, and the data of each of the directories `0..n` is read in finitely many
steps, it returns 0 after reading the data of exactly the directories
`0, 1, ..., n`. -/
theorem C14_walk_follows_primitive (stop : Bool) (s : Stream) :
    (s.opens = false → ∀ fuel, LLVMFuzzerTestOneInput fuel stop s = some (0, [])) ∧
    (s.opens = true → (∀ k, s.readDirectory k = true) →
      ∀ fuel, LLVMFuzzerTestOneInput fuel stop s = none) ∧
    (∀ n F, s.opens = true → (∀ k, k < n → s.readDirectory k = true) →
      s.readDirectory n = false →
      (∀ k, k ≤ n → ∀ fuel, F ≤ fuel → ∃ r, TIFFReadData fuel stop (s.page k) = some r) →
      ∃ F1, ∀ fuel, F1 ≤ fuel →
        ∃ v, LLVMFuzzerTestOneInput fuel stop s = some (0, v) ∧
          imagesVisited v = List.range (n + 1)) := by
  refine ⟨?_, ?_, ?_⟩
  · intro ho fuel
    simp [LLVMFuzzerTestOneInput, ho]
  · intro ho hd fuel
    simp [LLVMFuzzerTestOneInput, ho, walk_forever stop s fuel hd]
  · intro n F ho ht hf hp
    refine ⟨max F (n + 1), fun fuel hfuel => ?_⟩
    have h1 : F ≤ fuel := le_trans (le_max_left _ _) hfuel
    have h2 : n + 1 ≤ fuel := le_trans (le_max_right _ _) hfuel
    obtain ⟨v, hv, hi⟩ := walk_chain stop s fuel n ht hf (fun k hk => hp k hk fuel h1)
      n 0 fuel [] (by omega) h2
    refine ⟨v, ?_, ?_⟩
    · simp [LLVMFuzzerTestOneInput, ho, hv]
    · rw [hi, List.range_eq_range']
      simp [imagesVisited]

/-- Witness of C14 amended: a chain of three directories without data. -/
theorem C14_walk_follows_primitive_witness :
    (chainStream 2).opens = true ∧ (chainStream 2).readDirectory 2 = false ∧
    ∃ F1, ∀ fuel, F1 ≤ fuel →
      ∃ v, LLVMFuzzerTestOneInput fuel stoponerr (chainStream 2) = some (0, v) ∧
        imagesVisited v = List.range (2 + 1) :=
  ⟨rfl, rfl, (C14_walk_follows_primitive stoponerr (chainStream 2)).2.2 2 1 rfl
    (fun k hk => by
      have : k = 0 ∨ k = 1 := by omega
      rcases this with h | h <;> (subst h; rfl))
    rfl
    (fun _ _ fuel hf => ⟨[], TIFFReadData_empty stoponerr fuel hf⟩)⟩

/-- Counterexample to C15 as stated: with no read failing, the contig-strip
pass does not return on a page of one row with rows-per-strip 0, nor on a page
of 4294967295 rows with rows-per-strip 250000000 (the row counter wraps and
stays a multiple of 128), and the contig-tile pass does not return on a page of
one pixel with tile width 0. -/
theorem C15_counterexample :
    (¬ ∃ fuel r, TIFFReadContigStripData fuel stoponerr
        (stripTif 1 0 1 1 (fun _ => true)) = some r) ∧
    (¬ ∃ fuel r, TIFFReadContigStripData fuel stoponerr
        (stripTif 4294967295 250000000 1 1 (fun _ => true)) = some r) ∧
    (¬ ∃ fuel r, TIFFReadContigTileData fuel stoponerr
        (tileTif 1 1 0 1 1 1 (fun _ => true)) = some r) := by
  refine ⟨?_, ?_, ?_⟩
  · rintro ⟨fuel, r, h⟩
    rw [contigStrip_diverges stoponerr (stripTif 1 0 1 1 (fun _ => true)) (by decide) rfl
      (fun _ _ _ => rfl) (fun x => x = 0) rfl
      (fun x hx => by subst hx; exact ⟨by decide, by decide⟩) fuel] at h
    cases h
  · rintro ⟨fuel, r, h⟩
    rw [contigStrip_diverges stoponerr (stripTif 4294967295 250000000 1 1 (fun _ => true))
      (by decide) rfl (fun _ _ _ => rfl) (fun x => x % 128 = 0 ∧ x < 2 ^ 32)
      ⟨by decide, by decide⟩
      (fun x hx => by
        have e1 : getU32 (stripTif 4294967295 250000000 1 1 (fun _ => true)).imageLength 0
            = 4294967295 := by decide
        have e2 : getU32 (stripTif 4294967295 250000000 1 1
            (fun _ => true)).rowsPerStrip (2 ^ 32 - 1) = 250000000 := by decide
        rw [e1, e2]
        omega) fuel] at h
    cases h
  · rintro ⟨fuel, r, h⟩
    rw [contigTile_diverges stoponerr (tileTif 1 1 0 1 1 1 (fun _ => true)) (by decide) rfl
      (fun _ _ _ _ => rfl) (by decide) (fun x => x = 0) rfl
      (fun x hx => by subst hx; exact ⟨by decide, by decide⟩) fuel] at h
    cases h

/-- Claim C15, amended (region loops). A decode pass returns, after at most one
read per loop position, whenever each of its row and column loops has a
multiple of its step that reaches its bound and is still a `uint32`
(`Reaches`); the loop over the samples always returns. An absent
rows-per-strip tag (initial value 0xFFFFFFFF) and an absent image length or
width (initial value 0) meet the condition. -/
theorem C15_region_loops_return (stop : Bool) (t : Tif) :
    (∀ nr, Reaches (getU32 t.imageLength 0) (getU32 t.rowsPerStrip (2 ^ 32 - 1)) nr →
      ∃ F, ∀ fuel, F ≤ fuel →
        ∃ log, TIFFReadContigStripData fuel stop t = some log ∧ log.length ≤ nr) ∧
    (∀ nr, Reaches (getU32 t.imageLength 0) (getU32 t.rowsPerStrip (2 ^ 32 - 1)) nr →
      ∃ F, ∀ fuel, F ≤ fuel →
        ∃ log, TIFFReadSeparateStripData fuel stop t = some log ∧
          log.length ≤ nr * getU16 t.samplesPerPixel 0) ∧
    (∀ nr nc, Reaches (getU32 t.imageLength 0) (getU32 t.tileLength 0) nr →
      Reaches (getU32 t.imageWidth 0) (getU32 t.tileWidth 0) nc →
      ∃ F, ∀ fuel, F ≤ fuel →
        ∃ log, TIFFReadContigTileData fuel stop t = some log ∧ log.length ≤ nr * nc) ∧
    (∀ nr nc, Reaches (getU32 t.imageLength 0) (getU32 t.tileLength 0) nr →
      Reaches (getU32 t.imageWidth 0) (getU32 t.tileWidth 0) nc →
      ∃ F, ∀ fuel, F ≤ fuel →
        ∃ log, TIFFReadSeparateTileData fuel stop t = some log ∧
          log.length ≤ nr * (nc * getU16 t.samplesPerPixel 0)) ∧
    (t.rowsPerStrip = none →
      Reaches (getU32 t.imageLength 0) (getU32 t.rowsPerStrip (2 ^ 32 - 1)) 1) ∧
    (t.imageLength = none → ∀ step, Reaches (getU32 t.imageLength 0) step 0) ∧
    (t.imageWidth = none → ∀ step, Reaches (getU32 t.imageWidth 0) step 0) := by
  refine ⟨?_, ?_, ?_, ?_, ?_, ?_, ?_⟩
  · intro nr hr
    exact ⟨nr + 1, fun fuel hf => contigStrip_total stop t nr hr.1 hr.2 fuel hf⟩
  · intro nr hr
    exact ⟨max (nr + 1) (2 ^ 16), fun fuel hf =>
      separateStrip_total stop t nr hr.1 hr.2 fuel (le_trans (le_max_left _ _) hf)
        (le_trans (le_max_right _ _) hf)⟩
  · intro nr nc hr hc
    exact ⟨max (nr + 1) (nc + 1), fun fuel hf =>
      contigTile_total stop t nr nc hr.1 hr.2 hc.1 hc.2 fuel
        (le_trans (le_max_left _ _) hf) (le_trans (le_max_right _ _) hf)⟩
  · intro nr nc hr hc
    exact ⟨max (max (nr + 1) (nc + 1)) (2 ^ 16), fun fuel hf =>
      separateTile_total stop t nr nc hr.1 hr.2 hc.1 hc.2 fuel
        (le_trans (le_trans (le_max_left _ _) (le_max_left _ _)) hf)
        (le_trans (le_trans (le_max_right _ _) (le_max_left _ _)) hf)
        (le_trans (le_max_right _ _) hf)⟩
  · intro hn
    have h := getU32_lt t.imageLength 0 (by norm_num)
    rw [hn]
    show getU32 t.imageLength 0 ≤ 1 * (2 ^ 32 - 1) ∧ 1 * (2 ^ 32 - 1) < 2 ^ 32
    omega
  · intro hn step
    rw [hn]
    unfold Reaches
    simp [getU32]
  · intro hn step
    rw [hn]
    unfold Reaches
    simp [getU32]

/-- Witness of C15 amended: a separate-strip page of 10 rows, 3 rows per strip
and 2 samples, on which every second read fails, is read in at most 4 * 2
reads. -/
theorem C15_region_loops_return_witness :
    Reaches (getU32 (stripTif 10 3 2 2 (fun k => k % 2 == 0)).imageLength 0)
      (getU32 (stripTif 10 3 2 2 (fun k => k % 2 == 0)).rowsPerStrip (2 ^ 32 - 1)) 4 ∧
    ∃ F, ∀ fuel, F ≤ fuel →
      ∃ log, TIFFReadSeparateStripData fuel stoponerr
          (stripTif 10 3 2 2 (fun k => k % 2 == 0)) = some log ∧
        log.length ≤ 4 * getU16 (stripTif 10 3 2 2 (fun k => k % 2 == 0)).samplesPerPixel 0 :=
  ⟨by decide,
    (C15_region_loops_return stoponerr (stripTif 10 3 2 2 (fun k => k % 2 == 0))).2.1 4
      (by decide)⟩

/-- Counterexample to C16 as stated: on a strip page of one row whose strip
size exceeds `kMaxMalloc` no read can fail and there is one strip position, yet
`TIFFReadData` returns without a single read. -/
theorem C16_counterexample :
    (∀ k strip size, wideTif.readEncodedStrip k strip size = true) ∧
    Passes (getU32 wideTif.imageLength 0) (getU32 wideTif.rowsPerStrip (2 ^ 32 - 1)) 1 ∧
    stripReads wideTif 1 1 1 [0] = [Read.strip 0 0 0 1 250000001 true] ∧
    (∀ fuel, TIFFReadData fuel stoponerr wideTif = some []) :=
  ⟨fun _ _ _ => rfl, by decide, by decide, fun _ => rfl⟩

/-- Claim C16, amended (layout selection). `TIFFReadData` runs the pass chosen
by (tiled, planar configuration equal to contig), contig being the value when
the tag is absent. A pass returns without any read when the strip or tile size
exceeds `kMaxMalloc` or the buffer cannot be allocated. Otherwise, when no
read fails and each row and column loop visits exactly `nr` (resp. `nc`)
positions without `uint32` wrap-around (`Passes`), a contig pass makes exactly
one read per position with sample 0 and a separate pass exactly one read per
position and sample `0..samplesperpixel-1`, in loop order. -/
theorem C16_layout_selection (stop : Bool) (t : Tif) :
    (t.planarConfig = none → getU16 t.planarConfig PLANARCONFIG_CONTIG = PLANARCONFIG_CONTIG) ∧
    (∀ fuel, TIFFReadData fuel stop t =
      if t.isTiled = true then
        (if getU16 t.planarConfig PLANARCONFIG_CONTIG = PLANARCONFIG_CONTIG
          then TIFFReadContigTileData fuel stop t else TIFFReadSeparateTileData fuel stop t)
      else
        (if getU16 t.planarConfig PLANARCONFIG_CONTIG = PLANARCONFIG_CONTIG
          then TIFFReadContigStripData fuel stop t
          else TIFFReadSeparateStripData fuel stop t)) ∧
    (Tiffsplit.toU64 t.stripSize > kMaxMalloc ∨ t.malloc t.stripSize = false →
      ∀ fuel, TIFFReadContigStripData fuel stop t = some [] ∧
        TIFFReadSeparateStripData fuel stop t = some []) ∧
    (Tiffsplit.toU64 t.tileSize > kMaxMalloc ∨ t.malloc t.tileSize = false →
      ∀ fuel, TIFFReadContigTileData fuel stop t = some [] ∧
        TIFFReadSeparateTileData fuel stop t = some []) ∧
    (∀ nr, Tiffsplit.toU64 t.stripSize ≤ kMaxMalloc → t.malloc t.stripSize = true →
      (∀ k strip size, t.readEncodedStrip k strip size = true) →
      Passes (getU32 t.imageLength 0) (getU32 t.rowsPerStrip (2 ^ 32 - 1)) nr →
      ∃ F, ∀ fuel, F ≤ fuel →
        TIFFReadContigStripData fuel stop t
          = some (stripReads t (getU32 t.imageLength 0)
              (getU32 t.rowsPerStrip (2 ^ 32 - 1)) nr [0]) ∧
        TIFFReadSeparateStripData fuel stop t
          = some (stripReads t (getU32 t.imageLength 0)
              (getU32 t.rowsPerStrip (2 ^ 32 - 1)) nr
              (List.range (getU16 t.samplesPerPixel 0)))) ∧
    (∀ nr nc, Tiffsplit.toU64 t.tileSize ≤ kMaxMalloc → t.malloc t.tileSize = true →
      (∀ k col row s, t.readTile k col row s = true) →
      Passes (getU32 t.imageLength 0) (getU32 t.tileLength 0) nr →
      Passes (getU32 t.imageWidth 0) (getU32 t.tileWidth 0) nc →
      ∃ F, ∀ fuel, F ≤ fuel →
        TIFFReadContigTileData fuel stop t
          = some (tileReads (getU32 t.tileWidth 0) (getU32 t.tileLength 0) nc nr [0]) ∧
        TIFFReadSeparateTileData fuel stop t
          = some (tileReads (getU32 t.tileWidth 0) (getU32 t.tileLength 0) nc nr
              (List.range (getU16 t.samplesPerPixel 0)))) := by
  refine ⟨?_, ?_, ?_, ?_, ?_, ?_⟩
  · intro hn
    rw [hn]
    rfl
  · intro fuel
    unfold TIFFReadData
    simp only
  · intro hg fuel
    unfold TIFFReadContigStripData TIFFReadSeparateStripData
    rcases hg with hg | hg
    · simp only [if_pos hg, and_self]
    · simp [hg]
  · intro hg fuel
    unfold TIFFReadContigTileData TIFFReadSeparateTileData
    rcases hg with hg | hg
    · simp only [if_pos hg, and_self]
    · simp [hg]
  · intro nr hg hm hok hp
    obtain ⟨hlt, hb, hw⟩ := hp
    exact ⟨max (nr + 1) (2 ^ 16), fun fuel hf =>
      ⟨contigStrip_exact stop t nr hg hm hok hb hw hlt fuel (le_trans (le_max_left _ _) hf),
        separateStrip_exact stop t nr hg hm hok hb hw hlt fuel
          (le_trans (le_max_left _ _) hf) (le_trans (le_max_right _ _) hf)⟩⟩
  · intro nr nc hg hm hok hp hc
    obtain ⟨hlt, hb, hw⟩ := hp
    obtain ⟨hltc, hbc, hwc⟩ := hc
    exact ⟨max (max (nr + 1) (nc + 1)) (2 ^ 16), fun fuel hf =>
      ⟨contigTile_exact stop t nr nc hg hm hok hb hw hlt hbc hwc hltc fuel
          (le_trans (le_trans (le_max_left _ _) (le_max_left _ _)) hf)
          (le_trans (le_trans (le_max_right _ _) (le_max_left _ _)) hf),
        separateTile_exact stop t nr nc hg hm hok hb hw hlt hbc hwc hltc fuel
          (le_trans (le_trans (le_max_left _ _) (le_max_left _ _)) hf)
          (le_trans (le_trans (le_max_right _ _) (le_max_left _ _)) hf)
          (le_trans (le_max_right _ _) hf)⟩⟩

/-- Witness of C16 amended: a strip page of 4 rows, 2 rows per strip and 3
samples has 2 strip positions; the separate pass makes the 6 reads of the
positions and samples in loop order, the contig pass the 2 reads of sample 0. -/
theorem C16_layout_selection_witness :
    Passes (getU32 (stripTif 4 2 3 2 (fun _ => true)).imageLength 0)
      (getU32 (stripTif 4 2 3 2 (fun _ => true)).rowsPerStrip (2 ^ 32 - 1)) 2 ∧
    stripReads (stripTif 4 2 3 2 (fun _ => true)) 4 2 2 (List.range 3)
      = [Read.strip 0 0 0 2 2 true, Read.strip 0 1 2 2 2 true, Read.strip 0 2 4 2 2 true,
          Read.strip 2 0 1 2 2 true, Read.strip 2 1 3 2 2 true, Read.strip 2 2 5 2 2 true] ∧
    ∃ F, ∀ fuel, F ≤ fuel →
      TIFFReadContigStripData fuel stoponerr (stripTif 4 2 3 2 (fun _ => true))
        = some (stripReads (stripTif 4 2 3 2 (fun _ => true))
            (getU32 (stripTif 4 2 3 2 (fun _ => true)).imageLength 0)
            (getU32 (stripTif 4 2 3 2 (fun _ => true)).rowsPerStrip (2 ^ 32 - 1)) 2 [0]) ∧
      TIFFReadSeparateStripData fuel stoponerr (stripTif 4 2 3 2 (fun _ => true))
        = some (stripReads (stripTif 4 2 3 2 (fun _ => true))
            (getU32 (stripTif 4 2 3 2 (fun _ => true)).imageLength 0)
            (getU32 (stripTif 4 2 3 2 (fun _ => true)).rowsPerStrip (2 ^ 32 - 1)) 2
            (List.range (getU16 (stripTif 4 2 3 2 (fun _ => true)).samplesPerPixel 0))) :=
  ⟨by decide, by decide,
    (C16_layout_selection stoponerr (stripTif 4 2 3 2 (fun _ => true))).2.2.2.2.1 2
      (by decide) rfl (fun _ _ _ => rfl) (by decide)⟩

/-- Claim C19, the code at the failing input. On a strip page of 4080000001
rows with 240000000 rows per strip and one byte per row (strip size within
`kMaxMalloc`), with no read failing, both strip passes return after 35 reads,
and the 18th read, at row 4080000000, is passed `nrow = 240000000` and the size
240000000, although one row is left: `row + rowsperstrip` wraps to 25032704,
which is not above the image length, so the clamp is not taken. -/
theorem C19_row_count_wraps :
    (TIFFReadContigStripData 37 stoponerr
        (stripTif 4080000001 240000000 1 1 (fun _ => true))).map
        (fun l => (l.length, l[17]?))
      = some (35, some (Read.strip 4080000000 0 17 240000000 240000000 true)) ∧
    (TIFFReadSeparateStripData 37 stoponerr
        (stripTif 4080000001 240000000 1 2 (fun _ => true))).map
        (fun l => (l.length, l[17]?))
      = some (35, some (Read.strip 4080000000 0 17 240000000 240000000 true)) ∧
    nrowOf 4080000001 240000000 4080000000 = 240000000 ∧
    (4080000000 + 240000000) % 2 ^ 32 = 25032704 ∧
    min 240000000 (4080000001 - 4080000000) = 1 ∧
    4080000001 < 4080000000 + 240000000 ∧
    Tiffsplit.toU64 (stripTif 4080000001 240000000 1 1 (fun _ => true)).stripSize
      ≤ kMaxMalloc := by
  refine ⟨?_, ?_, ?_, ?_, ?_, ?_, ?_⟩ <;> decide

end TiffInfo
